import Mathlib

/-!
# GaussianPress: chunked codec framer, spatial reorderer and quantiser

A shallow embedding of `Tools/GaussianPress/src/main.cpp`.

* Buffers (`uint8_t*`, `std::vector<uint8_t>`) are lists of bytes.  Every access
  through a pointer is checked against the length of the buffer it points into;
  an access outside the buffer, or a division by zero, makes the function return
  `none`.  A loop is a recursive function with one unit of fuel per iteration;
  running out of fuel gives `none` too, and the theorems show that it does not
  happen.
* The contents of a buffer obtained with `new uint8_t[n]` are not initialised:
  they are given by a parameter `heap`.  A `std::vector<uint8_t>(n)` is zero
  filled.
* The backend compressor and the filter are external capabilities: they are
  parameters, given as pure functions from the bytes they read to the bytes they
  produce.  The size a backend reports is the length of the buffer it returns.
* `size_t` values are natural numbers.  The sums the framer forms are bounded by
  the sizes of buffers that are in memory at the same time, so they do not wrap
  around `2^64`.  The only narrowing conversion of the framer,
  `uint32_t(thisCmpSize)`, is modelled with an explicit `% 2^32`; the four bytes
  of a `uint32_t` are taken least significant first.
* `uint64_t` shifts in the Morton code are taken modulo `2^64`.
* The sort and the permutation of `ReorderData` take the Morton codes as a
  parameter; the loops that compute them from the positions are modelled on
  their own (`boundingBox`, `mortonCodes`).
* A `float` is an element of a linearly ordered field `α`, and `float`
  arithmetic is exact: rounding, overflow and the sign of zero are left out.  The
  rationals make the definitions executable; the reals serve for `expf`, `logf`,
  `sqrtf` and `asinf`, which are parameters (`FloatOps`).  A division whose
  divisor can be zero yields a `FloatVal`: a number, an infinity or a NaN.
  What the conversion `(uint32_t)x` yields where C++ leaves it undefined is a
  parameter (`undef`).
* For buffers that hold a NaN or an infinity, `CalcMinMax`, `Pack16` and
  `PackData` are modelled a second time, on `FloatVal` (namespace `Extended`),
  with the comparisons of `std::min` and `std::max` false on a NaN and a
  difference or quotient beyond the range of binary32 an infinity.
* A buffer seen through `(float*)` or `(FullVertex*)` is a list of floats, one
  seen through `(PackedVertex*)` a list of `uint16_t` values; reads are checked
  against the length of the list.  A loop with a fixed trip count is `forLoop`.
-/

namespace GaussianPress

/-! ## Bytes and buffers -/

/-- One `uint8_t`. -/
abbrev Byte := Fin 256

/-- The low eight bits of a number, as a byte. -/
def toByte (n : Nat) : Byte := ⟨n % 256, Nat.mod_lt n (by decide)⟩

/-- The four bytes of `uint32_t(v)` in memory order (least significant first). -/
def u32Bytes (v : Nat) : List Byte :=
  [toByte v, toByte (v / 256), toByte (v / 65536), toByte (v / 16777216)]

/-- The number a run of bytes in memory order stands for. -/
def bytesToNat : List Byte → Nat
  | [] => 0
  | b :: bs => b.val + 256 * bytesToNat bs

/-- A freshly allocated buffer `new uint8_t[n]`: its cells hold whatever the heap
held before, given by `heap`. -/
def newBuffer (heap : Nat → Byte) (n : Nat) : List Byte :=
  (List.range n).map heap

/-- The `n` bytes read through the pointer `buf + off`. -/
def readBytes (buf : List Byte) (off n : Nat) : Option (List Byte) :=
  if off + n ≤ buf.length then some ((buf.drop off).take n) else none

/-- The call `memcpy(dst + off, src, src.length)`. -/
def memcpy (dst : List Byte) (off : Nat) (src : List Byte) : Option (List Byte) :=
  if off + src.length ≤ dst.length then
    some (dst.take off ++ src ++ dst.drop (off + src.length))
  else none

/-- The store `*(uint32_t*)(buf + off) = uint32_t(v)`. -/
def writeU32 (buf : List Byte) (off v : Nat) : Option (List Byte) :=
  memcpy buf off (u32Bytes v)

/-- The load `*(const uint32_t*)(buf + off)`. -/
def readU32 (buf : List Byte) (off : Nat) : Option Nat :=
  (readBytes buf off 4).map bytesToNat

/-! ## Data model of the framer -/

/-- The filter capability `FilterDesc`: `filterFunc src dst channels dataElems`
reads `channels * dataElems` bytes and fills as many; here the bytes read are the
first argument and the bytes written the result. -/
structure FilterDesc where
  filterFunc : List Byte → Nat → Nat → List Byte
  unfilterFunc : List Byte → Nat → Nat → List Byte

/-- The backend capability `Compressor`.  `Compress level src count stride` is the
compressed buffer (its length is the reported size); `Decompress cmp count stride`
is what the backend writes to its destination from the `cmp` bytes. -/
structure Compressor where
  Compress : Int → List Byte → Nat → Nat → List Byte
  Decompress : List Byte → Nat → Nat → List Byte

/-- The fields of `TestFile` the framer and the reorderer use. -/
structure TestFile where
  fileData : List Byte
  vertexCount : Nat
  vertexStride : Nat

/-- The enumeration `BlockSize`. -/
inductive BlockSize where
  | kBSizeNone
  | kBSize64k
  | kBSize256k
  | kBSize1M
  | kBSize4M
  | kBSize16M
  | kBSize64M
  deriving DecidableEq, Repr

/-- The table `kBlockSizeToActualSize`. -/
def kBlockSizeToActualSize : BlockSize → Nat
  | .kBSizeNone => 0
  | .kBSize64k => 64 * 1024
  | .kBSize256k => 256 * 1024
  | .kBSize1M => 1024 * 1024
  | .kBSize4M => 4 * 1024 * 1024
  | .kBSize16M => 16 * 1024 * 1024
  | .kBSize64M => 64 * 1024 * 1024

/-- The structure `CompressorConfig`; a null `filter` pointer is `none`. -/
structure CompressorConfig where
  cmp : Compressor
  filter : Option FilterDesc
  blockSizeEnum : BlockSize

/-- What `Compress` hands back: the returned buffer and `outCompressedSize`, and,
for the proofs only, whether the raw-copy return statement was the one taken and
the blocks `(srcOffset, thisBlockSize)` that were handed to the filter and the
backend, in order. -/
structure Compressed where
  compressed : List Byte
  outCompressedSize : Nat
  fellBack : Bool
  blocks : List (Nat × Nat)

/-- The block size after the rounding of lines 161 and 240:
`(blockSize / tf.vertexStride) * tf.vertexStride`. -/
def effectiveBlockSize (blockSizeEnum : BlockSize) (vertexStride : Nat) : Nat :=
  kBlockSizeToActualSize blockSizeEnum / vertexStride * vertexStride

/-- The bytes handed to the backend for a block: the filtered block when a filter
is configured, the block itself otherwise. -/
def filtered (filter : Option FilterDesc) (block : List Byte) (stride count : Nat) :
    List Byte :=
  match filter with
  | some f => f.filterFunc block stride count
  | none => block

/-- The bytes stored to the destination for a block: the unfiltered backend
output when a filter is configured, the backend output itself otherwise. -/
def unfiltered (filter : Option FilterDesc) (raw : List Byte) (stride count : Nat) :
    List Byte :=
  match filter with
  | some f => f.unfilterFunc raw stride count
  | none => raw

/-! ## Encoding -/

/-- The method `CompressorConfig::CompressWhole`. -/
def CompressorConfig.CompressWhole (cfg : CompressorConfig) (tf : TestFile) (level : Int) :
    Option Compressed :=
  match readBytes tf.fileData 0 (tf.vertexCount * tf.vertexStride) with
  | none => none
  | some src =>
    let compressed := cfg.cmp.Compress level
      (filtered cfg.filter src tf.vertexStride tf.vertexCount) tf.vertexCount tf.vertexStride
    some ⟨compressed, compressed.length, false, [(0, tf.vertexCount * tf.vertexStride)]⟩

/-- The `while (srcOffset < dataSize)` loop of `CompressorConfig::Compress`, one
iteration per unit of fuel.  `compressed` is the `dataSize + 4` byte output
buffer; `blocks` records the blocks handed to the backend so far. -/
def compressLoop (cfg : CompressorConfig) (tf : TestFile) (level : Int) (blockSize : Nat) :
    Nat → List Byte → Nat → Nat → List (Nat × Nat) → Option Compressed
  | 0, _, _, _, _ => none
  | fuel + 1, compressed, srcOffset, cmpOffset, blocks =>
    let dataSize := tf.fileData.length
    if srcOffset < dataSize then
      let thisBlockSize := min blockSize (dataSize - srcOffset)
      let count := thisBlockSize / tf.vertexStride
      match readBytes tf.fileData srcOffset (count * tf.vertexStride) with
      | none => none
      | some block =>
        let thisCmp := cfg.cmp.Compress level
          (filtered cfg.filter block tf.vertexStride count) count tf.vertexStride
        let thisCmpSize := thisCmp.length
        if cmpOffset + thisCmpSize > dataSize then
          match writeU32 compressed 0 0 with
          | none => none
          | some c0 =>
            match memcpy c0 4 tf.fileData with
            | none => none
            | some c1 => some ⟨c1, dataSize + 4, true, blocks ++ [(srcOffset, thisBlockSize)]⟩
        else
          match writeU32 compressed cmpOffset thisCmpSize with
          | none => none
          | some c0 =>
            match memcpy c0 (cmpOffset + 4) thisCmp with
            | none => none
            | some c1 =>
              compressLoop cfg tf level blockSize fuel c1
                (srcOffset + blockSize) (cmpOffset + 4 + thisCmpSize)
                (blocks ++ [(srcOffset, thisBlockSize)])
    else
      some ⟨compressed, cmpOffset, false, blocks⟩

/-- The method `CompressorConfig::Compress`.  `heap` gives the prior contents of
the output buffer `new uint8_t[dataSize + 4]`.  The loop gets `dataSize + 2`
units of fuel, which `compressLoop_total` shows is always enough. -/
def CompressorConfig.Compress (cfg : CompressorConfig) (tf : TestFile) (level : Int)
    (heap : Nat → Byte) : Option Compressed :=
  if cfg.blockSizeEnum = BlockSize.kBSizeNone then
    cfg.CompressWhole tf level
  else if tf.vertexStride = 0 then
    none
  else
    let blockSize := effectiveBlockSize cfg.blockSizeEnum tf.vertexStride
    let dataSize := tf.fileData.length
    compressLoop cfg tf level blockSize (dataSize + 2) (newBuffer heap (dataSize + 4)) 0 0 []

/-! ## Decoding -/

/-- What `Decompress` leaves behind: the destination buffer and, for the proofs
only, the blocks `(dstOffset, thisBlockSize)` that were handed to the backend and
the filter, in order. -/
structure Decompressed where
  dst : List Byte
  blocks : List (Nat × Nat)

/-- The method `CompressorConfig::DecompressWhole`. -/
def CompressorConfig.DecompressWhole (cfg : CompressorConfig) (tf : TestFile)
    (compressed : List Byte) (compressedSize : Nat) (dst : List Byte) : Option Decompressed :=
  match readBytes compressed 0 compressedSize with
  | none => none
  | some payload =>
    let raw := cfg.cmp.Decompress payload tf.vertexCount tf.vertexStride
    match memcpy dst 0 (unfiltered cfg.filter raw tf.vertexStride tf.vertexCount) with
    | none => none
    | some dst1 => some ⟨dst1, [(0, tf.vertexCount * tf.vertexStride)]⟩

/-- The `while (cmpOffset < compressedSize)` loop of `CompressorConfig::Decompress`,
one iteration per unit of fuel; `blocks` records the blocks handed to the backend
so far. -/
def decompressLoop (cfg : CompressorConfig) (tf : TestFile) (blockSize : Nat)
    (compressed : List Byte) (compressedSize : Nat) :
    Nat → List Byte → Nat → Nat → List (Nat × Nat) → Option Decompressed
  | 0, _, _, _, _ => none
  | fuel + 1, dst, cmpOffset, dstOffset, blocks =>
    if cmpOffset < compressedSize then
      let thisBlockSize := min blockSize (tf.fileData.length - dstOffset)
      let count := thisBlockSize / tf.vertexStride
      match readU32 compressed cmpOffset with
      | none => none
      | some thisCmpSize =>
        match readBytes compressed (cmpOffset + 4) thisCmpSize with
        | none => none
        | some payload =>
          let raw := cfg.cmp.Decompress payload count tf.vertexStride
          match memcpy dst dstOffset (unfiltered cfg.filter raw tf.vertexStride count) with
          | none => none
          | some dst1 =>
            decompressLoop cfg tf blockSize compressed compressedSize fuel dst1
              (cmpOffset + 4 + thisCmpSize) (dstOffset + thisBlockSize)
              (blocks ++ [(dstOffset, thisBlockSize)])
    else
      some ⟨dst, blocks⟩

/-- The method `CompressorConfig::Decompress`; the result holds the destination
buffer after the call.  The loop gets `compressedSize + 1` units of fuel: every
iteration advances `cmpOffset` by at least 4. -/
def CompressorConfig.Decompress (cfg : CompressorConfig) (tf : TestFile)
    (compressed : List Byte) (compressedSize : Nat) (dst : List Byte) : Option Decompressed :=
  if cfg.blockSizeEnum = BlockSize.kBSizeNone then
    cfg.DecompressWhole tf compressed compressedSize dst
  else
    match readU32 compressed 0 with
    | none => none
    | some firstBlockCmpSize =>
      if firstBlockCmpSize = 0 then
        match readBytes compressed 4 (tf.vertexCount * tf.vertexStride) with
        | none => none
        | some raw =>
          match memcpy dst 0 raw with
          | none => none
          | some dst1 => some ⟨dst1, []⟩
      else if tf.vertexStride = 0 then
        none
      else
        let blockSize := effectiveBlockSize cfg.blockSizeEnum tf.vertexStride
        decompressLoop cfg tf blockSize compressed compressedSize (compressedSize + 1) dst 0 0 []

/-- The round trip of `TestCompressors`: compress, decompress into `dst`, and
keep the `fileData.size()` bytes that `memcmp` compares with the input. -/
def roundTrip (cfg : CompressorConfig) (tf : TestFile) (level : Int) (heap : Nat → Byte)
    (dst : List Byte) : Option (List Byte) :=
  match cfg.Compress tf level heap with
  | none => none
  | some r =>
    match cfg.Decompress tf r.compressed r.outCompressedSize dst with
    | none => none
    | some out => some (out.dst.take tf.fileData.length)

/-! ## The contract of the capabilities -/

/-- The backend's `Decompress` exactly inverts its `Compress` on every input of
`count` records of `stride` bytes. -/
def Compressor.Inverts (cmp : Compressor) : Prop :=
  ∀ (level : Int) (src : List Byte) (count stride : Nat), src.length = count * stride →
    cmp.Decompress (cmp.Compress level src count stride) count stride = src

/-- The filter fills as many bytes as it reads and `unfilterFunc` exactly inverts
`filterFunc`. -/
def FilterDesc.Inverts (f : FilterDesc) : Prop :=
  ∀ (src : List Byte) (channels dataElems : Nat), src.length = dataElems * channels →
    (f.filterFunc src channels dataElems).length = dataElems * channels ∧
      f.unfilterFunc (f.filterFunc src channels dataElems) channels dataElems = src

/-- The configured filter, when there is one, satisfies `FilterDesc.Inverts`. -/
def CompressorConfig.FilterInverts (cfg : CompressorConfig) : Prop :=
  ∀ f, cfg.filter = some f → f.Inverts

/-! ## Names for the values of one loop iteration -/

/-- The value of `thisBlockSize` in the iteration that starts at `srcOffset`. -/
abbrev thisBlockSizeAt (tf : TestFile) (blockSize srcOffset : Nat) : Nat :=
  min blockSize (tf.fileData.length - srcOffset)

/-- The bytes of the block that starts at `srcOffset`: the whole records of
`thisBlockSize` bytes read through `srcData + srcOffset`. -/
def blockBytes (tf : TestFile) (blockSize srcOffset : Nat) : List Byte :=
  (tf.fileData.drop srcOffset).take
    (thisBlockSizeAt tf blockSize srcOffset / tf.vertexStride * tf.vertexStride)

/-- The buffer `thisCmp` the backend returns for the block that starts at
`srcOffset`. -/
abbrev blockCompressed (cfg : CompressorConfig) (tf : TestFile) (level : Int)
    (blockSize srcOffset : Nat) : List Byte :=
  cfg.cmp.Compress level
    (filtered cfg.filter (blockBytes tf blockSize srcOffset) tf.vertexStride
      (thisBlockSizeAt tf blockSize srcOffset / tf.vertexStride))
    (thisBlockSizeAt tf blockSize srcOffset / tf.vertexStride) tf.vertexStride

/-- The value of `thisCmpSize` for block number `k` (the block that starts at
`k * blockSize`). -/
def thisCmpSizeAt (cfg : CompressorConfig) (tf : TestFile) (level : Int) (blockSize k : Nat) :
    Nat :=
  (blockCompressed cfg tf level blockSize (k * blockSize)).length

/-- The value of `cmpOffset` when block number `k` is reached without a fallback:
four bytes of length and the compressed bytes of every earlier block. -/
def cmpOffsetAt (cfg : CompressorConfig) (tf : TestFile) (level : Int) (blockSize : Nat) :
    Nat → Nat
  | 0 => 0
  | k + 1 => cmpOffsetAt cfg tf level blockSize k + 4 + thisCmpSizeAt cfg tf level blockSize k

/-- The walk of the block loops over a buffer of `dataSize` bytes, as the
specification words it: consecutive blocks of `blockSize` bytes, the last one
possibly shorter, each given as `(offset, size)`. -/
def blockPartition (dataSize blockSize : Nat) : List (Nat × Nat) :=
  (List.range ((dataSize + blockSize - 1) / blockSize)).map
    (fun k => (k * blockSize, min blockSize (dataSize - k * blockSize)))

/-- The 4-byte length fields can hold what the backend returns for the blocks of
`tf`: every compressed block is shorter than `2^32` bytes, and the compressed
first block, when the first block is not empty, is not empty either (a zero
first length is the raw-copy indicator). -/
def CompressorConfig.SizesStorable (cfg : CompressorConfig) (tf : TestFile) (level : Int) :
    Prop :=
  (∀ srcOffset, srcOffset < tf.fileData.length →
    (blockCompressed cfg tf level (effectiveBlockSize cfg.blockSizeEnum tf.vertexStride)
      srcOffset).length < 4294967296) ∧
  (0 < thisBlockSizeAt tf (effectiveBlockSize cfg.blockSizeEnum tf.vertexStride) 0 →
    blockCompressed cfg tf level (effectiveBlockSize cfg.blockSizeEnum tf.vertexStride) 0 ≠ [])

/-! ## Sample capabilities used to exercise the framer -/

/-- A backend that stores its input unchanged. -/
def storeCompressor : Compressor :=
  ⟨fun _ src _ _ => src, fun cmp _ _ => cmp⟩

/-- A backend that writes one tag byte and, unless the block is all zero, the
block itself. -/
def zeroRunCompressor : Compressor :=
  ⟨fun _ src _ _ => if src.all (fun b => b == 0) then [0] else 1 :: src,
   fun cmp count stride =>
    match cmp with
    | 1 :: rest => rest
    | _ => List.replicate (count * stride) 0⟩

/-- A backend that writes nothing at all for an all-zero block and a tag byte
followed by the block otherwise. -/
def emptyOnZeroCompressor : Compressor :=
  ⟨fun _ src _ _ => if src.all (fun b => b == 0) then [] else 1 :: src,
   fun cmp count stride =>
    match cmp with
    | [] => List.replicate (count * stride) 0
    | _ :: rest => rest⟩

/-- A backend that puts a five byte header in front of its input. -/
def headerCompressor : Compressor :=
  ⟨fun _ src _ _ => [76, 90, 52, 0, 0] ++ src, fun cmp _ _ => cmp.drop 5⟩

/-- A filter that complements every byte (it is its own inverse). -/
def complementFilter : FilterDesc :=
  ⟨fun src _ _ => src.map (fun b => 255 - b), fun src _ _ => src.map (fun b => 255 - b)⟩

/-- Three records of two bytes, all `0xff`. -/
def sixOnes : TestFile := ⟨[255, 255, 255, 255, 255, 255], 3, 2⟩

/-- Three records of two bytes, all zero. -/
def sixZeros : TestFile := ⟨[0, 0, 0, 0, 0, 0], 3, 2⟩

/-- One record of one byte. -/
def oneByte : TestFile := ⟨[7], 1, 1⟩

/-- One record of 65537 bytes, wider than a 64k block. -/
def wideRecord : TestFile := ⟨List.replicate 65537 0, 1, 65537⟩

/-- A heap whose free cells all hold `0xcd`. -/
def staleHeap : Nat → Byte := fun _ => 205

/-! ## Morton keys -/

/-- The function `MortonPart1By2`; `uint64_t` shifts are taken modulo `2^64`. -/
def MortonPart1By2 (x : Nat) : Nat :=
  let x := x &&& 0x1fffff
  let x := (x ^^^ (x <<< 32) % 2 ^ 64) &&& 0x1f00000000ffff
  let x := (x ^^^ (x <<< 16) % 2 ^ 64) &&& 0x1f0000ff0000ff
  let x := (x ^^^ (x <<< 8) % 2 ^ 64) &&& 0x100f00f00f00f00f
  let x := (x ^^^ (x <<< 4) % 2 ^ 64) &&& 0x10c30c30c30c30c3
  let x := (x ^^^ (x <<< 2) % 2 ^ 64) &&& 0x1249249249249249
  x

/-- The function `MortonEncode3`. -/
def MortonEncode3 (x y z : Nat) : Nat :=
  (MortonPart1By2 z <<< 2) % 2 ^ 64 ||| (MortonPart1By2 y <<< 1) % 2 ^ 64 ||| MortonPart1By2 x

/-! ## Spatial reorderer -/

/-- The comparator handed to `std::sort` in `ReorderData`: Morton key first,
original index second. -/
def remapLess (a b : Nat × Nat) : Bool :=
  if a.1 ≠ b.1 then decide (a.1 < b.1) else decide (a.2 < b.2)

/-- Insertion of `a` into a list, in front of the first element it precedes. -/
def orderedInsert {α : Type} (less : α → α → Bool) (a : α) : List α → List α
  | [] => [a]
  | b :: l => if less a b then a :: b :: l else b :: orderedInsert less a l

/-- The library call `std::sort(first, last, comp)`, modelled by insertion sort.
For a comparator that orders the elements totally, as `remapLess` does for pairs
with distinct indices, every sorting routine returns the same list
(`sorted_remap_unique`). -/
def stdSort {α : Type} (less : α → α → Bool) : List α → List α
  | [] => []
  | a :: l => orderedInsert less a (stdSort less l)

/-- The loop `for (j = 0; j < n; ++j) dst[dstIdx + j] = src[srcIdx + j]`, with
`srcIdx` and `dstIdx` advanced instead of `j`. -/
def copyRecord (src : List Byte) : Nat → List Byte → Nat → Nat → Option (List Byte)
  | 0, dst, _, _ => some dst
  | n + 1, dst, srcIdx, dstIdx =>
    match src[srcIdx]? with
    | none => none
    | some b =>
      if dstIdx < dst.length then
        copyRecord src n (dst.set dstIdx b) (srcIdx + 1) (dstIdx + 1)
      else none

/-- The loop "Reorder the data" of `ReorderData`, over the entries `remap[i]` that
are still to come; `idx` is the running destination offset. -/
def reorderLoop (fileData : List Byte) (vertexStride : Nat) :
    List (Nat × Nat) → List Byte → Nat → Option (List Byte)
  | [], dst, _ => some dst
  | e :: remap, dst, idx =>
    match copyRecord fileData vertexStride dst (e.2 * vertexStride) idx with
    | none => none
    | some dst1 => reorderLoop fileData vertexStride remap dst1 (idx + vertexStride)

/-- The loop "Reverse reorder the data" of `ReorderData`, over the entries
`remap[i]` that are still to come, `i` being the index of the first of them. -/
def checkLoop (dst : List Byte) (vertexStride : Nat) :
    List (Nat × Nat) → List Byte → Nat → Option (List Byte)
  | [], check, _ => some check
  | e :: remap, check, i =>
    match copyRecord dst vertexStride check (i * vertexStride) (e.2 * vertexStride) with
    | none => none
    | some check1 => checkLoop dst vertexStride remap check1 (i + 1)

/-- The `remap` array before the sort: `remap[i] = { code, i }`, where `code i` is
the Morton code of record `i`. -/
def initialRemap (vertexCount : Nat) (code : Nat → Nat) : List (Nat × Nat) :=
  (List.range vertexCount).map (fun i => (code i, i))

/-- What `ReorderData` leaves behind: the sorted `remap`, the new `fileData` (the
buffer `dst`), the buffer `check`, and whether the remapping error was printed. -/
structure Reordered where
  remap : List (Nat × Nat)
  fileData : List Byte
  check : List Byte
  errorPrinted : Bool

/-- The function `ReorderData` from the sort on.  The Morton codes come from
floating-point arithmetic on the positions, which is outside this embedding:
`code i` is the code computed for record `i`. -/
def ReorderData (tf : TestFile) (code : Nat → Nat) : Option Reordered :=
  let remap := stdSort remapLess (initialRemap tf.vertexCount code)
  match reorderLoop tf.fileData tf.vertexStride remap
      (List.replicate tf.fileData.length 0) 0 with
  | none => none
  | some dst =>
    match checkLoop dst tf.vertexStride remap (List.replicate tf.fileData.length 0) 0 with
    | none => none
    | some check => some ⟨remap, dst, check, tf.fileData != check⟩

/-- Four records of two bytes. -/
def fourRecords : TestFile := ⟨[10, 11, 20, 21, 30, 31, 40, 41], 4, 2⟩

/-- Morton codes for `fourRecords`: records 0 and 2 share a code. -/
def fourCodes : Nat → Nat := fun i => [5, 3, 5, 1].getD i 0

/-! ## Float values -/

/-- What a `float` division can produce from two numbers: a number, an infinity
or a NaN. -/
inductive FloatVal (α : Type) where
  | finite (v : α)
  | posInf
  | negInf
  | nan

/-- The `float` division `a / b` of two numbers.  A zero divisor gives NaN for
`0 / 0` and an infinity otherwise.  Every divisor in the source is a difference
or a converted count, whose zero is `+0`, so the infinity has the sign of `a`. -/
def fdiv {α : Type} [LinearOrderedField α] (a b : α) : FloatVal α :=
  if b = 0 then
    if a = 0 then FloatVal.nan
    else if 0 < a then FloatVal.posInf else FloatVal.negInf
  else FloatVal.finite (a / b)

/-- The `float` product `x * k` of a division result with a number. -/
def FloatVal.mul {α : Type} [LinearOrderedField α] (x : FloatVal α) (k : α) : FloatVal α :=
  match x with
  | FloatVal.finite v => FloatVal.finite (v * k)
  | FloatVal.posInf =>
    if 0 < k then FloatVal.posInf else if k < 0 then FloatVal.negInf else FloatVal.nan
  | FloatVal.negInf =>
    if 0 < k then FloatVal.negInf else if k < 0 then FloatVal.posInf else FloatVal.nan
  | FloatVal.nan => FloatVal.nan

/-- The conversion `(uint32_t)x`.  A number is truncated towards zero.  Where `x`
is not a number, or the truncated value does not fit 32 bits, C++ leaves the
conversion undefined and the compiled program yields whatever its conversion
instruction returns: that value is the parameter `undef`, taken to 32 bits. -/
def FloatVal.toUInt32 {α : Type} [LinearOrderedField α] [FloorRing α]
    (undef : FloatVal α → Nat) (x : FloatVal α) : Nat :=
  match x with
  | FloatVal.finite v =>
    if -1 < v ∧ v < 4294967296 then (if 0 ≤ v then Int.toNat ⌊v⌋ else 0)
    else undef x % 4294967296
  | _ => undef x % 4294967296

/-- The constant `FLT_MAX`. -/
def FLT_MAX {α : Type} [LinearOrderedField α] : α := 340282346638528859811704183484516925440

/-! ## Record layouts -/

/-- The member names of `FullVertex` and `PackedVertex`. -/
inductive Field where
  | px | py | pz | nx | ny | nz | dcr | dcg | dcb | shr | shg | shb
  | opacity | sx | sy | sz | rw | rx | ry | rz
deriving DecidableEq, Repr

/-- The members of `struct FullVertex` in declaration order, each with its
number of `float` elements. -/
def FullVertex.layout : List (Field × Nat) :=
  [(Field.px, 1), (Field.py, 1), (Field.pz, 1),
   (Field.nx, 1), (Field.ny, 1), (Field.nz, 1),
   (Field.dcr, 1), (Field.dcg, 1), (Field.dcb, 1),
   (Field.shr, 15), (Field.shg, 15), (Field.shb, 15),
   (Field.opacity, 1),
   (Field.sx, 1), (Field.sy, 1), (Field.sz, 1),
   (Field.rw, 1), (Field.rx, 1), (Field.ry, 1), (Field.rz, 1)]

/-- The members of `struct PackedVertex` in declaration order, each with its
number of `uint16_t` elements. -/
def PackedVertex.layout : List (Field × Nat) :=
  [(Field.px, 1), (Field.py, 1), (Field.pz, 1),
   (Field.dcr, 1), (Field.dcg, 1), (Field.dcb, 1),
   (Field.shr, 15), (Field.shg, 15), (Field.shb, 15),
   (Field.opacity, 1),
   (Field.sx, 1), (Field.sy, 1), (Field.sz, 1),
   (Field.rx, 1), (Field.ry, 1), (Field.rz, 1), (Field.rw, 1)]

/-- The channels of a record in memory order: member `f` with `n` elements
contributes `f[0]`, ..., `f[n-1]`. -/
def channels (layout : List (Field × Nat)) : List (Field × Nat) :=
  layout.flatMap (fun m => (List.range m.2).map (fun j => (m.1, j)))

/-- The constant `kFullVertexStride`. -/
def kFullVertexStride : Nat := 248

/-- The constant `kFullVertexFloats`. -/
def kFullVertexFloats : Nat := kFullVertexStride / 4

/-- The constant `kPackedVertexSize = sizeof(PackedVertex)`: the members are all
`uint16_t`, so there is no padding. -/
def kPackedVertexSize : Nat := 2 * (channels PackedVertex.layout).length

/-- The position of channel `c` in a `FullVertex` seen as an array of `float`. -/
def FullVertex.index (c : Field × Nat) : Nat := (channels FullVertex.layout).indexOf c

/-- The position of channel `c` in a `PackedVertex` seen as an array of
`uint16_t`. -/
def PackedVertex.index (c : Field × Nat) : Nat := (channels PackedVertex.layout).indexOf c

/-- For every channel of `PackedVertex`, in memory order, the `float` index of
the `FullVertex` channel of the same name: `PackData` and `UnpackData` pair
`dst->field` with `src->field`. -/
def packedFields : List Nat := (channels PackedVertex.layout).map FullVertex.index

/-! ## Float view of a file -/

/-- A `TestFile` whose buffers are seen through the casts `(float*)` and
`(FullVertex*)`: `fileData` and `origFileData` are lists of `float` values, and
the structures `valMin` and `valMax` are arrays of `kFullVertexFloats` floats. -/
structure FloatFile (α : Type) where
  origFileData : List α
  fileData : List α
  vertexCount : Nat
  vertexStride : Nat
  valMin : Nat → α
  valMax : Nat → α

/-- The loop `for (i = 0; i < n; ++i) body(i)` over a state; an iteration that
fails stops the loop. -/
def forLoop {σ : Type} (n : Nat) (body : Nat → σ → Option σ) (s : σ) : Option σ :=
  match n with
  | 0 => some s
  | n + 1 => (forLoop n body s).bind (body n)

/-- An array `float[3]` with the given elements. -/
def vec3 {α : Type} (x y z : α) : Nat → α
  | 0 => x
  | 1 => y
  | _ => z

/-- The arrays `bmin` and `bmax` of `ReorderData`. -/
structure Bounds (α : Type) where
  bmin : Nat → α
  bmax : Nat → α

/-- One iteration of the bounding box loop of `ReorderData`; `dataIdx`, advanced
by `vertexStride / 4` per iteration, is `i * (vertexStride / 4)`. -/
def boundsBody {α : Type} [LinearOrderedField α] (posData : List α) (vertexStride : Nat)
    (i : Nat) (b : Bounds α) : Option (Bounds α) :=
  let dataIdx := i * (vertexStride / 4)
  match posData[dataIdx + 0]?, posData[dataIdx + 1]?, posData[dataIdx + 2]? with
  | some x, some y, some z =>
    let bmin0 := min (b.bmin 0) x
    let bmin1 := min (b.bmin 1) y
    let bmin2 := min (b.bmin 2) z
    let bmax0 := max bmin0 x
    let bmax1 := max (b.bmax 1) y
    let bmax2 := max (b.bmax 2) z
    some { bmin := vec3 bmin0 bmin1 bmin2, bmax := vec3 bmax0 bmax1 bmax2 }
  | _, _, _ => none

/-- The bounding box loop of `ReorderData`. -/
def boundingBox {α : Type} [LinearOrderedField α] (tf : FloatFile α) : Option (Bounds α) :=
  forLoop tf.vertexCount (boundsBody tf.fileData tf.vertexStride)
    { bmin := vec3 FLT_MAX FLT_MAX FLT_MAX, bmax := vec3 (-FLT_MAX) (-FLT_MAX) (-FLT_MAX) }

/-- The constant `kScaler = float((1<<21)-1)`. -/
def kScaler {α : Type} [LinearOrderedField α] : α := 2097151

/-- The quotient `(p - bmin) / (bmax - bmin)` of the Morton loop. -/
def mortonQuotient {α : Type} [LinearOrderedField α] (p bmin bmax : α) : FloatVal α :=
  fdiv (p - bmin) (bmax - bmin)

/-- The integer coordinate `(uint32_t)((p - bmin) / (bmax - bmin) * kScaler)`. -/
def mortonCoord {α : Type} [LinearOrderedField α] [FloorRing α] (undef : FloatVal α → Nat)
    (p bmin bmax : α) : Nat :=
  ((mortonQuotient p bmin bmax).mul kScaler).toUInt32 undef

/-- One iteration of the Morton code loop of `ReorderData`: the entry
`remap[i] = { code, i }` is appended to the entries written so far. -/
def mortonBody {α : Type} [LinearOrderedField α] [FloorRing α] (undef : FloatVal α → Nat)
    (posData : List α) (vertexStride : Nat) (b : Bounds α) (i : Nat)
    (remap : List (Nat × Nat)) : Option (List (Nat × Nat)) :=
  let dataIdx := i * (vertexStride / 4)
  match posData[dataIdx + 0]?, posData[dataIdx + 1]?, posData[dataIdx + 2]? with
  | some px, some py, some pz =>
    let ix := mortonCoord undef px (b.bmin 0) (b.bmax 0)
    let iy := mortonCoord undef py (b.bmin 1) (b.bmax 1)
    let iz := mortonCoord undef pz (b.bmin 2) (b.bmax 2)
    some (remap ++ [(MortonEncode3 ix iy iz, i)])
  | _, _, _ => none

/-- The first two loops of `ReorderData`: the bounding box, then the array
`remap` before it is sorted. -/
def mortonCodes {α : Type} [LinearOrderedField α] [FloorRing α] (undef : FloatVal α → Nat)
    (tf : FloatFile α) : Option (List (Nat × Nat)) :=
  match boundingBox tf with
  | none => none
  | some b => forLoop tf.vertexCount (mortonBody undef tf.fileData tf.vertexStride b) []

/-! ## Value ranges -/

/-- The array assignment `a[j] = v`. -/
def setAt {α : Type} (a : Nat → α) (j : Nat) (v : α) : Nat → α :=
  fun k => if k = j then v else a k

/-- The state of the loops of `CalcMinMax`: the pointer `data`, as an index into
`fileData`, and the arrays `valMax` and `valMin`. -/
structure MinMaxState (α : Type) where
  data : Nat
  valMax : Nat → α
  valMin : Nat → α

/-- The body of the first loop of `CalcMinMax`. -/
def minMaxReset {α : Type} [LinearOrderedField α] (i : Nat) (s : MinMaxState α) :
    Option (MinMaxState α) :=
  some { s with valMax := setAt s.valMax i (-FLT_MAX), valMin := setAt s.valMin i FLT_MAX }

/-- The body of the inner loop of `CalcMinMax`: `val = *data++`, then the two
updates. -/
def minMaxBody {α : Type} [LinearOrderedField α] (fileData : List α) (j : Nat)
    (s : MinMaxState α) : Option (MinMaxState α) :=
  match fileData[s.data]? with
  | none => none
  | some val =>
    some { data := s.data + 1,
           valMax := setAt s.valMax j (max (s.valMax j) val),
           valMin := setAt s.valMin j (min (s.valMin j) val) }

/-- The function `CalcMinMax`. -/
def CalcMinMax {α : Type} [LinearOrderedField α] (tf : FloatFile α) : Option (FloatFile α) :=
  match forLoop kFullVertexFloats minMaxReset
      { data := 0, valMax := tf.valMax, valMin := tf.valMin } with
  | none => none
  | some s0 =>
    match forLoop tf.vertexCount
        (fun _ s => forLoop kFullVertexFloats (minMaxBody tf.fileData) s) s0 with
    | none => none
    | some s => some { tf with valMin := s.valMin, valMax := s.valMax }

/-- The running minimum of channel `k` over the first `i` records. -/
def minUpTo {α : Type} [LinearOrderedField α] (data : List α) (k : Nat) : Nat → α
  | 0 => FLT_MAX
  | i + 1 => min (minUpTo data k i) (data.getD (i * kFullVertexFloats + k) 0)

/-- The running maximum of channel `k` over the first `i` records. -/
def maxUpTo {α : Type} [LinearOrderedField α] (data : List α) (k : Nat) : Nat → α
  | 0 => -FLT_MAX
  | i + 1 => max (maxUpTo data k i) (data.getD (i * kFullVertexFloats + k) 0)

/-! ## Quantiser -/

/-- Modelled from the spec: `meshopt_quantizeUnorm` belongs to the meshoptimizer
library, whose source is not in the tree.  On a number `x` it is
`floor(clamp(x, 0, 1) * (2^N - 1) + 0.5)`; an infinity is clamped like a number.
For a NaN the spec names no value and the model takes `0`. -/
def meshopt_quantizeUnorm {α : Type} [LinearOrderedField α] [FloorRing α] (v : FloatVal α)
    (N : Nat) : Nat :=
  let scale : α := ((2 ^ N - 1 : Nat) : α)
  match v with
  | FloatVal.finite x => Int.toNat ⌊max 0 (min 1 x) * scale + 1 / 2⌋
  | FloatVal.posInf => Int.toNat ⌊1 * scale + 1 / 2⌋
  | FloatVal.negInf => Int.toNat ⌊0 * scale + 1 / 2⌋
  | FloatVal.nan => 0

/-- The function `Pack16`. -/
def Pack16 {α : Type} [LinearOrderedField α] [FloorRing α] (vmin vmax v : α) : Nat :=
  meshopt_quantizeUnorm (fdiv (v - vmin) (vmax - vmin)) 16

/-- The function `Unpack16`; `float((1 << 16) - 1)` is `65535`. -/
def Unpack16 {α : Type} [LinearOrderedField α] (vmin vmax : α) (u : Nat) : α :=
  let v : α := (u : α) / 65535
  vmin * (1 - v) + vmax * v

/-- The arguments of one call `Pack16(vmin, vmax, v)`. -/
structure Pack16Call (α : Type) where
  vmin : α
  vmax : α
  v : α

/-- A `TestFile` after `PackData`: `fileData` is seen through `(PackedVertex*)`
as a list of `uint16_t` values.  The field `calls` is not in the source: it
lists the arguments of the calls of `Pack16`, record by record, in the order of
the members of `PackedVertex`. -/
structure PackedFile (α : Type) where
  origFileData : List α
  fileData : List Nat
  vertexCount : Nat
  vertexStride : Nat
  valMin : Nat → α
  valMax : Nat → α
  calls : List (Pack16Call α)

/-- A loop `for (i = 0; i < n; ++i)` that writes record `i` of an output buffer
in iteration `i`: the records are laid one behind the other. -/
def appendLoop {β : Type} (n : Nat) (record : Nat → Option (List β)) : Option (List β) :=
  forLoop n (fun i dst => (record i).map (fun r => dst ++ r)) []

/-- The record `((const FullVertex*)data)[i]`, as an array of floats. -/
def readVertex {α : Type} [LinearOrderedField α] (data : List α) (i : Nat) :
    Option (Nat → α) :=
  if (i + 1) * kFullVertexFloats ≤ data.length then
    some (fun f => data.getD (i * kFullVertexFloats + f) 0)
  else none

/-- The record `((const PackedVertex*)data)[i]`, as an array of `uint16_t`. -/
def readPacked (data : List Nat) (i : Nat) : Option (Nat → Nat) :=
  if (i + 1) * (kPackedVertexSize / 2) ≤ data.length then
    some (fun k => data.getD (i * (kPackedVertexSize / 2) + k) 0)
  else none

/-- The arguments `(tf.valMin.field, tf.valMax.field, src->field)` of the calls
of `Pack16` that one iteration of `PackData` makes. -/
def packCalls {α : Type} [LinearOrderedField α] (tf : FloatFile α) (src : Nat → α) :
    List (Pack16Call α) :=
  packedFields.map (fun f => { vmin := tf.valMin f, vmax := tf.valMax f, v := src f })

/-- The assignment `dst->field = Pack16(vmin, vmax, v)` to a `uint16_t` member:
the value stored. -/
def stored16 {α : Type} [LinearOrderedField α] [FloorRing α] (c : Pack16Call α) : Nat :=
  Pack16 c.vmin c.vmax c.v % 65536

/-- The function `PackData`. -/
def PackData {α : Type} [LinearOrderedField α] [FloorRing α] (tf : FloatFile α) :
    Option (PackedFile α) :=
  match appendLoop tf.vertexCount
      (fun i => (readVertex tf.fileData i).map (packCalls tf)) with
  | none => none
  | some calls =>
    some { origFileData := tf.origFileData, fileData := calls.map stored16,
           vertexCount := tf.vertexCount, vertexStride := kPackedVertexSize,
           valMin := tf.valMin, valMax := tf.valMax, calls := calls }

/-- One iteration of `UnpackData`: the record `*dst`, zero after the allocation
of `dstData`, receives one member per member of `PackedVertex`. -/
def unpackVertex {α : Type} [LinearOrderedField α] (valMin valMax : Nat → α)
    (src : Nat → Nat) : Nat → α :=
  (channels PackedVertex.layout).foldl
    (fun dst c => setAt dst (FullVertex.index c)
      (Unpack16 (valMin (FullVertex.index c)) (valMax (FullVertex.index c))
        (src (PackedVertex.index c))))
    (fun _ => 0)

/-- The function `UnpackData`. -/
def UnpackData {α : Type} [LinearOrderedField α] (pf : PackedFile α) : Option (FloatFile α) :=
  match appendLoop pf.vertexCount
      (fun i => (readPacked pf.fileData i).map
        (fun src => (List.range kFullVertexFloats).map (unpackVertex pf.valMin pf.valMax src))) with
  | none => none
  | some dst =>
    some { origFileData := pf.origFileData, fileData := dst,
           vertexCount := pf.vertexCount, vertexStride := kFullVertexStride,
           valMin := pf.valMin, valMax := pf.valMax }

/-! ## Domain remapping -/

/-- The functions of the C mathematical library that the source calls.  They are
not part of the source tree and are parameters of the model. -/
class FloatOps (α : Type) where
  expf : α → α
  logf : α → α
  sqrtf : α → α
  asinf : α → α

/-- The mathematical library in exact real arithmetic.  The instance agrees with
the functions of the library wherever they return a number: `logf` on positive
arguments, `sqrtf` on non-negative ones, `asinf` on `[-1, 1]`. -/
noncomputable instance realFloatOps : FloatOps ℝ where
  expf := Real.exp
  logf := Real.log
  sqrtf := Real.sqrt
  asinf := Real.arcsin

/-- The function `Sigmoid`. -/
def Sigmoid {α : Type} [LinearOrderedField α] [FloatOps α] (v : α) : α :=
  1 / (1 + FloatOps.expf (-v))

/-- The function `InvSigmoid`; the constant `1.0e-6f` is taken as `10^-6`. -/
def InvSigmoid {α : Type} [LinearOrderedField α] [FloatOps α] (v : α) : α :=
  FloatOps.logf (v / max (1 - v) (1 / 1000000))

/-- What `LinearizeData` does to one scale member of a record: `expf`, then
`sqrtf` twice. -/
def linearizeScale {α : Type} [FloatOps α] (s : α) : α :=
  FloatOps.sqrtf (FloatOps.sqrtf (FloatOps.expf s))

/-- What `UnlinearizeData` does to one scale member of a record: `s *= s`
twice, then `logf`. -/
def unlinearizeScale {α : Type} [LinearOrderedField α] [FloatOps α] (s : α) : α :=
  FloatOps.logf ((s * s) * (s * s))

/-- The body of the loop of `LinearizeData`, on the record `*data`. -/
def linearizeVertex {α : Type} [LinearOrderedField α] [FloatOps α] (data : Nat → α) :
    Nat → α :=
  let opacity := FullVertex.index (Field.opacity, 0)
  let sx := FullVertex.index (Field.sx, 0)
  let sy := FullVertex.index (Field.sy, 0)
  let sz := FullVertex.index (Field.sz, 0)
  let d := setAt data opacity (Sigmoid (data opacity))
  let d := setAt d sx (FloatOps.expf (d sx))
  let d := setAt d sy (FloatOps.expf (d sy))
  let d := setAt d sz (FloatOps.expf (d sz))
  let d := setAt d sx (FloatOps.sqrtf (d sx))
  let d := setAt d sy (FloatOps.sqrtf (d sy))
  let d := setAt d sz (FloatOps.sqrtf (d sz))
  let d := setAt d sx (FloatOps.sqrtf (d sx))
  let d := setAt d sy (FloatOps.sqrtf (d sy))
  setAt d sz (FloatOps.sqrtf (d sz))

/-- The body of the loop of `UnlinearizeData`, on the record `*data`. -/
def unlinearizeVertex {α : Type} [LinearOrderedField α] [FloatOps α] (data : Nat → α) :
    Nat → α :=
  let opacity := FullVertex.index (Field.opacity, 0)
  let sx := FullVertex.index (Field.sx, 0)
  let sy := FullVertex.index (Field.sy, 0)
  let sz := FullVertex.index (Field.sz, 0)
  let d := setAt data opacity (InvSigmoid (data opacity))
  let d := setAt d sx (d sx * d sx)
  let d := setAt d sy (d sy * d sy)
  let d := setAt d sz (d sz * d sz)
  let d := setAt d sx (d sx * d sx)
  let d := setAt d sy (d sy * d sy)
  let d := setAt d sz (d sz * d sz)
  let d := setAt d sx (FloatOps.logf (d sx))
  let d := setAt d sy (FloatOps.logf (d sy))
  setAt d sz (FloatOps.logf (d sz))

/-- A loop that rewrites every `FullVertex` of a buffer in place. -/
def mapVertices {α : Type} [LinearOrderedField α] (tf : FloatFile α)
    (body : (Nat → α) → Nat → α) : Option (FloatFile α) :=
  match appendLoop tf.vertexCount
      (fun i => (readVertex tf.fileData i).map
        (fun v => (List.range kFullVertexFloats).map (body v))) with
  | none => none
  | some data => some { tf with fileData := data }

/-- The function `LinearizeData`. -/
def LinearizeData {α : Type} [LinearOrderedField α] [FloatOps α] (tf : FloatFile α) :
    Option (FloatFile α) :=
  mapVertices tf linearizeVertex

/-- The function `UnlinearizeData`. -/
def UnlinearizeData {α : Type} [LinearOrderedField α] [FloatOps α] (tf : FloatFile α) :
    Option (FloatFile α) :=
  mapVertices tf unlinearizeVertex

/-! ## Orientation error -/

/-- A quaternion `float q[4]`, in the layout `(x, y, z, w)`: `q0` is `q[0]`. -/
structure Quat (α : Type) where
  q0 : α
  q1 : α
  q2 : α
  q3 : α

/-- The function `QuatConjugate`. -/
def QuatConjugate {α : Type} [LinearOrderedField α] (q : Quat α) : Quat α :=
  { q0 := -q.q0, q1 := -q.q1, q2 := -q.q2, q3 := q.q3 }

/-- The function `QuatMul`. -/
def QuatMul {α : Type} [LinearOrderedField α] (a b : Quat α) : Quat α :=
  { q0 := a.q3 * b.q0 + (a.q0 * b.q3 + a.q1 * b.q2) - a.q2 * b.q1,
    q1 := a.q3 * b.q1 + (a.q1 * b.q3 + a.q2 * b.q0) - a.q0 * b.q2,
    q2 := a.q3 * b.q2 + (a.q2 * b.q3 + a.q0 * b.q1) - a.q1 * b.q0,
    q3 := a.q3 * b.q3 - (a.q3 * b.q0 + a.q1 * b.q1) - a.q2 * b.q2 }

/-- The function `QuatNormalize`.  When `lensq` is zero, `len = 1.0f / lensq`
is `+inf` and the four components, all zero, stay zero under `q[i] /= len`. -/
def QuatNormalize {α : Type} [LinearOrderedField α] (q : Quat α) : Quat α :=
  let lensq := q.q0 * q.q0 + q.q1 * q.q1 + q.q2 * q.q2 + q.q3 * q.q3
  if lensq = 0 then { q0 := 0, q1 := 0, q2 := 0, q3 := 0 }
  else
    let len := 1 / lensq
    { q0 := q.q0 / len, q1 := q.q1 / len, q2 := q.q2 / len, q3 := q.q3 / len }

/-- The function `QuatAngleBetween`. -/
def QuatAngleBetween {α : Type} [LinearOrderedField α] [FloatOps α] (q1 q2 : Quat α) : α :=
  let q1c := QuatConjugate q1
  let qm := QuatNormalize (QuatMul q1c q2)
  let vecLenSq := qm.q0 * qm.q0 + qm.q1 * qm.q1 + qm.q2 * qm.q2
  let a := FloatOps.asinf (FloatOps.sqrtf vecLenSq)
  a * 2

/-- The rotation `{ v.rx, v.ry, v.rz, v.rw }` of a record. -/
def rotationOf {α : Type} (v : Nat → α) : Quat α :=
  { q0 := v (FullVertex.index (Field.rx, 0)), q1 := v (FullVertex.index (Field.ry, 0)),
    q2 := v (FullVertex.index (Field.rz, 0)), q3 := v (FullVertex.index (Field.rw, 0)) }

/-- The locals `errRotSum` and `errRotMax` of `CalcErrorFromOrig`. -/
structure RotErrorState (α : Type) where
  errRotSum : α
  errRotMax : α

/-- The rotation part of one iteration of the loop of `CalcErrorFromOrig`. -/
def rotErrorBody {α : Type} [LinearOrderedField α] [FloatOps α] (origFileData fileData : List α)
    (i : Nat) (s : RotErrorState α) : Option (RotErrorState α) :=
  match readVertex origFileData i, readVertex fileData i with
  | some v1, some v2 =>
    let diff := QuatAngleBetween (rotationOf v1) (rotationOf v2)
    some { errRotSum := s.errRotSum + diff, errRotMax := max s.errRotMax diff }
  | _, _ => none

/-- The rotation figures that `CalcErrorFromOrig` prints. -/
structure RotError (α : Type) where
  errRotMax : α
  errRotAvg : FloatVal α

/-- The function `CalcErrorFromOrig`, as far as the rotation error goes; the sums
and maxima per channel, which the rotation error does not use, are left out. -/
def CalcErrorFromOrig {α : Type} [LinearOrderedField α] [FloatOps α] (tf : FloatFile α) :
    Option (RotError α) :=
  match forLoop tf.vertexCount (rotErrorBody tf.origFileData tf.fileData)
      { errRotSum := 0, errRotMax := 0 } with
  | none => none
  | some s =>
    some { errRotMax := s.errRotMax, errRotAvg := fdiv s.errRotSum (tf.vertexCount : α) }

/-- Record `i` of the buffer `data` carries the identity rotation
`(x, y, z, w) = (0, 0, 0, 1)`. -/
def IdentityRotation {α : Type} [LinearOrderedField α] (data : List α) (i : Nat) : Prop :=
  (readVertex data i).map rotationOf = some { q0 := 0, q1 := 0, q2 := 0, q3 := 1 }

/-! ## Floats that need not be numbers -/

/-- The comparison `a < b` of two `float` values; it is false when one of them is
a NaN. -/
def FloatVal.lt {α : Type} [LinearOrderedField α] (a b : FloatVal α) : Bool :=
  match a, b with
  | FloatVal.finite x, FloatVal.finite y => decide (x < y)
  | FloatVal.finite _, FloatVal.posInf => true
  | FloatVal.negInf, FloatVal.finite _ => true
  | FloatVal.negInf, FloatVal.posInf => true
  | _, _ => false

/-- The comparison `a <= b` of two `float` values; it is false when one of them
is a NaN. -/
def FloatVal.le {α : Type} [LinearOrderedField α] (a b : FloatVal α) : Bool :=
  match a, b with
  | FloatVal.finite x, FloatVal.finite y => decide (x ≤ y)
  | FloatVal.finite _, FloatVal.posInf => true
  | FloatVal.negInf, FloatVal.finite _ => true
  | FloatVal.negInf, FloatVal.posInf => true
  | FloatVal.negInf, FloatVal.negInf => true
  | FloatVal.posInf, FloatVal.posInf => true
  | _, _ => false

/-- The call `std::max(a, b)`, which is `(a < b) ? b : a`. -/
def stdMax {α : Type} [LinearOrderedField α] (a b : FloatVal α) : FloatVal α :=
  if FloatVal.lt a b then b else a

/-- The call `std::min(a, b)`, which is `(b < a) ? b : a`. -/
def stdMin {α : Type} [LinearOrderedField α] (a b : FloatVal α) : FloatVal α :=
  if FloatVal.lt b a then b else a

/-- The least magnitude that binary32 rounds to an infinity: `2^128 - 2^103`. -/
def kOverflow {α : Type} [LinearOrderedField α] : α := 340282356779733661637539395458142568448

/-- The `float` that an operation with exact result `v` yields: an infinity where
`v` is beyond the range of binary32, and `v` itself within the range (the
rounding there is not modelled). -/
def FloatVal.ofExact {α : Type} [LinearOrderedField α] (v : α) : FloatVal α :=
  if kOverflow ≤ v then FloatVal.posInf
  else if v ≤ -kOverflow then FloatVal.negInf
  else FloatVal.finite v

/-- The difference `a - b` of two `float` values. -/
def FloatVal.sub {α : Type} [LinearOrderedField α] (a b : FloatVal α) : FloatVal α :=
  match a, b with
  | FloatVal.finite x, FloatVal.finite y => FloatVal.ofExact (x - y)
  | FloatVal.nan, _ => FloatVal.nan
  | _, FloatVal.nan => FloatVal.nan
  | FloatVal.posInf, FloatVal.posInf => FloatVal.nan
  | FloatVal.negInf, FloatVal.negInf => FloatVal.nan
  | FloatVal.posInf, _ => FloatVal.posInf
  | FloatVal.negInf, _ => FloatVal.negInf
  | FloatVal.finite _, FloatVal.posInf => FloatVal.negInf
  | FloatVal.finite _, FloatVal.negInf => FloatVal.posInf

/-- The quotient `a / b` of two `float` values; a zero divisor is taken as `+0`,
as in `fdiv`. -/
def FloatVal.div {α : Type} [LinearOrderedField α] (a b : FloatVal α) : FloatVal α :=
  match a, b with
  | FloatVal.finite x, FloatVal.finite y =>
    match fdiv x y with
    | FloatVal.finite q => FloatVal.ofExact q
    | r => r
  | FloatVal.nan, _ => FloatVal.nan
  | _, FloatVal.nan => FloatVal.nan
  | FloatVal.finite _, _ => FloatVal.finite 0
  | FloatVal.posInf, FloatVal.finite y => if 0 ≤ y then FloatVal.posInf else FloatVal.negInf
  | FloatVal.negInf, FloatVal.finite y => if 0 ≤ y then FloatVal.negInf else FloatVal.posInf
  | _, _ => FloatVal.nan

/-- The body of the first loop of `CalcMinMax`, on floats that need not be
numbers. -/
def Extended.minMaxReset {α : Type} [LinearOrderedField α] (i : Nat)
    (s : MinMaxState (FloatVal α)) : Option (MinMaxState (FloatVal α)) :=
  some { s with valMax := setAt s.valMax i (FloatVal.finite (-FLT_MAX)),
                valMin := setAt s.valMin i (FloatVal.finite FLT_MAX) }

/-- The body of the inner loop of `CalcMinMax`, on floats that need not be
numbers: `val = *data++`, then the two updates through `std::max` and
`std::min`. -/
def Extended.minMaxBody {α : Type} [LinearOrderedField α] (fileData : List (FloatVal α))
    (j : Nat) (s : MinMaxState (FloatVal α)) : Option (MinMaxState (FloatVal α)) :=
  match fileData[s.data]? with
  | none => none
  | some val =>
    some { data := s.data + 1,
           valMax := setAt s.valMax j (stdMax (s.valMax j) val),
           valMin := setAt s.valMin j (stdMin (s.valMin j) val) }

/-- The function `CalcMinMax` on a buffer of floats that need not be numbers. -/
def Extended.CalcMinMax {α : Type} [LinearOrderedField α] (tf : FloatFile (FloatVal α)) :
    Option (FloatFile (FloatVal α)) :=
  match forLoop kFullVertexFloats Extended.minMaxReset
      { data := 0, valMax := tf.valMax, valMin := tf.valMin } with
  | none => none
  | some s0 =>
    match forLoop tf.vertexCount
        (fun _ s => forLoop kFullVertexFloats (Extended.minMaxBody tf.fileData) s) s0 with
    | none => none
    | some s => some { tf with valMin := s.valMin, valMax := s.valMax }

/-- The normalised value `(v - vmin) / (vmax - vmin)` that `Pack16` passes to the
quantiser. -/
def Extended.normalised {α : Type} [LinearOrderedField α] (vmin vmax v : FloatVal α) :
    FloatVal α :=
  FloatVal.div (FloatVal.sub v vmin) (FloatVal.sub vmax vmin)

/-- The function `Pack16` on floats that need not be numbers. -/
def Extended.Pack16 {α : Type} [LinearOrderedField α] [FloorRing α]
    (vmin vmax v : FloatVal α) : Nat :=
  meshopt_quantizeUnorm (Extended.normalised vmin vmax v) 16

/-- The record `((const FullVertex*)data)[i]` of a buffer of floats that need not
be numbers. -/
def Extended.readVertex {α : Type} (data : List (FloatVal α)) (i : Nat) :
    Option (Nat → FloatVal α) :=
  if (i + 1) * kFullVertexFloats ≤ data.length then
    some (fun f => data.getD (i * kFullVertexFloats + f) FloatVal.nan)
  else none

/-- The arguments of the calls of `Pack16` that one iteration of `PackData`
makes, on floats that need not be numbers. -/
def Extended.packCalls {α : Type} (tf : FloatFile (FloatVal α)) (src : Nat → FloatVal α) :
    List (Pack16Call (FloatVal α)) :=
  packedFields.map (fun f => { vmin := tf.valMin f, vmax := tf.valMax f, v := src f })

/-- The value stored by `dst->field = Pack16(vmin, vmax, v)`, on floats that need
not be numbers. -/
def Extended.stored16 {α : Type} [LinearOrderedField α] [FloorRing α]
    (c : Pack16Call (FloatVal α)) : Nat :=
  Extended.Pack16 c.vmin c.vmax c.v % 65536

/-- The function `PackData` on a buffer of floats that need not be numbers. -/
def Extended.PackData {α : Type} [LinearOrderedField α] [FloorRing α]
    (tf : FloatFile (FloatVal α)) : Option (PackedFile (FloatVal α)) :=
  match appendLoop tf.vertexCount
      (fun i => (Extended.readVertex tf.fileData i).map (Extended.packCalls tf)) with
  | none => none
  | some calls =>
    some { origFileData := tf.origFileData, fileData := calls.map Extended.stored16,
           vertexCount := tf.vertexCount, vertexStride := kPackedVertexSize,
           valMin := tf.valMin, valMax := tf.valMax, calls := calls }

/-- The running `std::min` of channel `k` over the first `i` records. -/
def Extended.minUpTo {α : Type} [LinearOrderedField α] (data : List (FloatVal α)) (k : Nat) :
    Nat → FloatVal α
  | 0 => FloatVal.finite FLT_MAX
  | i + 1 => stdMin (Extended.minUpTo data k i)
      (data.getD (i * kFullVertexFloats + k) FloatVal.nan)

/-- The running `std::max` of channel `k` over the first `i` records. -/
def Extended.maxUpTo {α : Type} [LinearOrderedField α] (data : List (FloatVal α)) (k : Nat) :
    Nat → FloatVal α
  | 0 => FloatVal.finite (-FLT_MAX)
  | i + 1 => stdMax (Extended.maxUpTo data k i)
      (data.getD (i * kFullVertexFloats + k) FloatVal.nan)

/-- A file of numbers as a file of floats that need not be numbers. -/
def FloatFile.toExtended {α : Type} (tf : FloatFile α) : FloatFile (FloatVal α) :=
  { origFileData := tf.origFileData.map FloatVal.finite,
    fileData := tf.fileData.map FloatVal.finite,
    vertexCount := tf.vertexCount, vertexStride := tf.vertexStride,
    valMin := fun k => FloatVal.finite (tf.valMin k),
    valMax := fun k => FloatVal.finite (tf.valMax k) }

/-! ## Reference quaternion algebra -/

/-- The Hamilton product `a * b` of two quaternions in the layout `(x, y, z, w)`,
the product that the claim about `QuatMul` names: `a` stands for
`w + x i + y j + z k` and `i² = j² = k² = i j k = -1`.  Not from the source. -/
def hamiltonProduct {α : Type} [LinearOrderedField α] (a b : Quat α) : Quat α :=
  { q0 := a.q3 * b.q0 + a.q0 * b.q3 + a.q1 * b.q2 - a.q2 * b.q1,
    q1 := a.q3 * b.q1 - a.q0 * b.q2 + a.q1 * b.q3 + a.q2 * b.q0,
    q2 := a.q3 * b.q2 + a.q0 * b.q1 - a.q1 * b.q0 + a.q2 * b.q3,
    q3 := a.q3 * b.q3 - a.q0 * b.q0 - a.q1 * b.q1 - a.q2 * b.q2 }

/-- The quaternion of the library that a `float q[4]` in the layout
`(x, y, z, w)` stands for. -/
def Quat.toQuaternion {α : Type} [LinearOrderedField α] (q : Quat α) : Quaternion α :=
  { re := q.q3, imI := q.q0, imJ := q.q1, imK := q.q2 }

/-- The sum of the squares of the four components of a quaternion. -/
def Quat.sumSq {α : Type} [LinearOrderedField α] (q : Quat α) : α :=
  q.q0 * q.q0 + q.q1 * q.q1 + q.q2 * q.q2 + q.q3 * q.q3

/-! ## Sample files -/

/-- A file of full records given by the floats of its records. -/
def fileOf {α : Type} [LinearOrderedField α] (data : List α) (n : Nat) : FloatFile α :=
  { origFileData := data, fileData := data, vertexCount := n,
    vertexStride := kFullVertexStride, valMin := fun _ => 0, valMax := fun _ => 0 }

/-- Two records at `x = 1` and `x = 0`; every other float is `0`. -/
def descendingX : FloatFile ℚ :=
  fileOf ((1 :: List.replicate 61 0) ++ List.replicate 62 0) 2

/-- Two records at positions `(0, 0, 0)` and `(1, 0, 1)`; every other float is
`0`. -/
def flatY : FloatFile ℚ :=
  fileOf (List.replicate 62 0 ++ ([1, 0, 1] ++ List.replicate 59 0)) 2

/-- Two records: every float of the first is `0`, every float of the second is
`1`. -/
def zeroOne : FloatFile ℚ :=
  fileOf (List.replicate 62 0 ++ List.replicate 62 1) 2

/-- Two records over the reals whose floats are `0` except `rw = 1`. -/
noncomputable def identityRecords : FloatFile ℝ :=
  fileOf ((List.replicate 58 0 ++ [1, 0, 0, 0]) ++ (List.replicate 58 0 ++ [1, 0, 0, 0])) 2

theorem bytesToNat_u32Bytes (v : Nat) : bytesToNat (u32Bytes v) = v % 4294967296 := by
  simp only [u32Bytes, bytesToNat, toByte]
  omega

theorem u32Bytes_length (v : Nat) : (u32Bytes v).length = 4 := rfl

/-- A size of `2^32` is stored as the same four bytes as the size 0. -/
theorem u32Bytes_wrap : u32Bytes 4294967296 = u32Bytes 0 := by decide

theorem newBuffer_length (heap : Nat → Byte) (n : Nat) : (newBuffer heap n).length = n := by
  simp [newBuffer]

theorem memcpy_eq_some {dst : List Byte} {off : Nat} {src : List Byte}
    (h : off + src.length ≤ dst.length) :
    memcpy dst off src = some (dst.take off ++ src ++ dst.drop (off + src.length)) := by
  simp [memcpy, h]

theorem memcpy_some_iff {dst : List Byte} {off : Nat} {src out : List Byte} :
    memcpy dst off src = some out ↔
      off + src.length ≤ dst.length ∧
        out = dst.take off ++ src ++ dst.drop (off + src.length) := by
  unfold memcpy
  split
  · simp [*, eq_comm]
  · simp [*]

theorem memcpy_length {dst : List Byte} {off : Nat} {src out : List Byte}
    (h : memcpy dst off src = some out) : out.length = dst.length := by
  obtain ⟨hb, rfl⟩ := memcpy_some_iff.mp h
  simp
  omega

theorem memcpy_take {dst : List Byte} {off : Nat} {src out : List Byte}
    (h : memcpy dst off src = some out) {k : Nat} (hk : k ≤ off) :
    out.take k = dst.take k := by
  obtain ⟨hb, rfl⟩ := memcpy_some_iff.mp h
  have h1 : k ≤ (dst.take off).length := by simp; omega
  rw [List.append_assoc, List.take_append_of_le_length h1, List.take_take]
  simp [hk]

theorem readBytes_some_iff {buf : List Byte} {off n : Nat} {out : List Byte} :
    readBytes buf off n = some out ↔ off + n ≤ buf.length ∧ out = (buf.drop off).take n := by
  unfold readBytes
  split
  · simp [*, eq_comm]
  · simp [*]

theorem readBytes_length {buf : List Byte} {off n : Nat} {out : List Byte}
    (h : readBytes buf off n = some out) : out.length = n := by
  obtain ⟨hb, rfl⟩ := readBytes_some_iff.mp h
  simp
  omega

/-- Reading back what `memcpy` has just stored. -/
theorem readBytes_memcpy {dst : List Byte} {off : Nat} {src out : List Byte}
    (h : memcpy dst off src = some out) : readBytes out off src.length = some src := by
  obtain ⟨hb, rfl⟩ := memcpy_some_iff.mp h
  rw [readBytes_some_iff]
  constructor
  · simp; omega
  · have h1 : (dst.take off).length = off := by simp; omega
    rw [List.append_assoc, List.drop_left' h1, List.take_left' rfl]

/-- A read sees only the part of the buffer it covers. -/
theorem readBytes_congr {a b : List Byte} {k off n : Nat} (h : a.take k = b.take k)
    (hk : off + n ≤ k) (ha : k ≤ a.length) (hb : k ≤ b.length) :
    readBytes a off n = readBytes b off n := by
  have e : ∀ l : List Byte, (l.drop off).take n = ((l.take k).drop off).take n := by
    intro l
    rw [List.drop_take, List.take_take]
    congr 1
    omega
  unfold readBytes
  rw [if_pos (by omega), if_pos (by omega), e a, e b, h]

theorem readU32_congr {a b : List Byte} {k off : Nat} (h : a.take k = b.take k)
    (hk : off + 4 ≤ k) (ha : k ≤ a.length) (hb : k ≤ b.length) :
    readU32 a off = readU32 b off := by
  unfold readU32
  rw [readBytes_congr h hk ha hb]

theorem readU32_writeU32 {buf : List Byte} {off v : Nat} {out : List Byte}
    (h : writeU32 buf off v = some out) : readU32 out off = some (v % 4294967296) := by
  unfold readU32
  have := readBytes_memcpy h
  rw [u32Bytes_length] at this
  rw [this]
  simp [bytesToNat_u32Bytes]

/-! ## One iteration of the encoding loop -/

section CompressLoop

variable (cfg : CompressorConfig) (tf : TestFile) (level : Int) (blockSize : Nat)

theorem blockBytes_read (srcOffset : Nat) (h : srcOffset < tf.fileData.length) :
    readBytes tf.fileData srcOffset
        (min blockSize (tf.fileData.length - srcOffset) / tf.vertexStride * tf.vertexStride) =
      some (blockBytes tf blockSize srcOffset) := by
  rw [readBytes_some_iff]
  refine ⟨?_, rfl⟩
  have := Nat.div_mul_le_self (min blockSize (tf.fileData.length - srcOffset)) tf.vertexStride
  omega

theorem compressLoop_done (fuel : Nat) (c : List Byte) (srcOffset cmpOffset : Nat)
    (blocks : List (Nat × Nat)) (h : ¬ srcOffset < tf.fileData.length) :
    compressLoop cfg tf level blockSize (fuel + 1) c srcOffset cmpOffset blocks =
      some ⟨c, cmpOffset, false, blocks⟩ := by
  simp only [compressLoop, if_neg h]

theorem compressLoop_fallback (fuel : Nat) (c : List Byte) (srcOffset cmpOffset : Nat)
    (blocks : List (Nat × Nat)) (h : srcOffset < tf.fileData.length)
    (hc : c.length = tf.fileData.length + 4)
    (hf : cmpOffset + (blockCompressed cfg tf level blockSize srcOffset).length >
      tf.fileData.length) :
    compressLoop cfg tf level blockSize (fuel + 1) c srcOffset cmpOffset blocks =
      some ⟨u32Bytes 0 ++ tf.fileData, tf.fileData.length + 4, true,
        blocks ++ [(srcOffset, thisBlockSizeAt tf blockSize srcOffset)]⟩ := by
  have hw : writeU32 c 0 0 = some (u32Bytes 0 ++ c.drop 4) := by
    unfold writeU32
    rw [memcpy_eq_some (by rw [u32Bytes_length]; omega)]
    simp [u32Bytes_length]
  have hm : memcpy (u32Bytes 0 ++ c.drop 4) 4 tf.fileData = some (u32Bytes 0 ++ tf.fileData) := by
    rw [memcpy_eq_some (by simp [u32Bytes_length]; omega)]
    have h1 : (u32Bytes 0 ++ c.drop 4).drop (4 + tf.fileData.length) = [] := by
      apply List.drop_eq_nil_of_le
      simp [u32Bytes_length]
      omega
    rw [h1, List.take_left' (u32Bytes_length 0), List.append_nil]
  simp only [compressLoop, if_pos h, blockBytes_read tf blockSize srcOffset h]
  rw [if_pos hf]
  simp only [hw, hm]

theorem compressLoop_continue (fuel : Nat) (c : List Byte) (srcOffset cmpOffset : Nat)
    (blocks : List (Nat × Nat)) (h : srcOffset < tf.fileData.length)
    (hc : c.length = tf.fileData.length + 4)
    (hf : ¬ cmpOffset + (blockCompressed cfg tf level blockSize srcOffset).length >
      tf.fileData.length) :
    ∃ c1, writeU32 c cmpOffset (blockCompressed cfg tf level blockSize srcOffset).length
          >>= (fun c0 => memcpy c0 (cmpOffset + 4)
            (blockCompressed cfg tf level blockSize srcOffset)) = some c1 ∧
      c1.length = c.length ∧
      c1.take cmpOffset = c.take cmpOffset ∧
      readU32 c1 cmpOffset =
        some ((blockCompressed cfg tf level blockSize srcOffset).length % 4294967296) ∧
      readBytes c1 (cmpOffset + 4) (blockCompressed cfg tf level blockSize srcOffset).length =
        some (blockCompressed cfg tf level blockSize srcOffset) ∧
      compressLoop cfg tf level blockSize (fuel + 1) c srcOffset cmpOffset blocks =
        compressLoop cfg tf level blockSize fuel c1 (srcOffset + blockSize)
          (cmpOffset + 4 + (blockCompressed cfg tf level blockSize srcOffset).length)
          (blocks ++ [(srcOffset, thisBlockSizeAt tf blockSize srcOffset)]) := by
  obtain ⟨c0, hw⟩ : ∃ c0, writeU32 c cmpOffset
      (blockCompressed cfg tf level blockSize srcOffset).length = some c0 := by
    unfold writeU32
    exact ⟨_, memcpy_eq_some (by rw [u32Bytes_length]; omega)⟩
  have hc0 : c0.length = c.length := memcpy_length hw
  obtain ⟨c1, hm⟩ : ∃ c1, memcpy c0 (cmpOffset + 4)
      (blockCompressed cfg tf level blockSize srcOffset) = some c1 :=
    ⟨_, memcpy_eq_some (by omega)⟩
  have hc1 : c1.length = c0.length := memcpy_length hm
  refine ⟨c1, by simp [hw, hm], by omega, ?_, ?_, readBytes_memcpy hm, ?_⟩
  · rw [memcpy_take hm (by omega), memcpy_take hw (le_refl _)]
  · rw [readU32_congr (memcpy_take hm (le_refl _)) (le_refl _) (by omega) (by omega)]
    exact readU32_writeU32 hw
  · simp only [compressLoop, if_pos h, blockBytes_read tf blockSize srcOffset h]
    rw [if_neg hf]
    simp only [hw, hm]

/-- The encoding loop returns, and what it returns fits the output buffer. -/
theorem compressLoop_total : ∀ (fuel : Nat) (c : List Byte) (srcOffset cmpOffset : Nat)
    (blocks : List (Nat × Nat)), c.length = tf.fileData.length + 4 →
    cmpOffset ≤ tf.fileData.length + 4 → tf.fileData.length + 4 - cmpOffset < 4 * fuel →
    ∃ r, compressLoop cfg tf level blockSize fuel c srcOffset cmpOffset blocks = some r ∧
      r.compressed.length = tf.fileData.length + 4 ∧
      r.outCompressedSize ≤ tf.fileData.length + 4 := by
  intro fuel
  induction fuel with
  | zero => intros; omega
  | succ fuel ih =>
    intro c srcOffset cmpOffset blocks hc ho hfuel
    by_cases h : srcOffset < tf.fileData.length
    · by_cases hf : cmpOffset + (blockCompressed cfg tf level blockSize srcOffset).length >
          tf.fileData.length
      · rw [compressLoop_fallback cfg tf level blockSize fuel c srcOffset cmpOffset blocks h hc hf]
        refine ⟨_, rfl, ?_, le_refl _⟩
        simp [u32Bytes_length]
        omega
      · obtain ⟨c1, -, hl, -, -, -, heq⟩ :=
          compressLoop_continue cfg tf level blockSize fuel c srcOffset cmpOffset blocks h hc hf
        rw [heq]
        exact ih c1 _ _ _ (by omega) (by omega) (by omega)
    · rw [compressLoop_done cfg tf level blockSize fuel c srcOffset cmpOffset blocks h]
      exact ⟨_, rfl, hc, ho⟩

/-- A run that ends in the raw-copy return yields the zero indicator followed by
the input. -/
theorem compressLoop_fellBack : ∀ (fuel : Nat) (c : List Byte) (srcOffset cmpOffset : Nat)
    (blocks : List (Nat × Nat)) (r : Compressed), c.length = tf.fileData.length + 4 →
    compressLoop cfg tf level blockSize fuel c srcOffset cmpOffset blocks = some r →
    r.fellBack = true →
    r.compressed = u32Bytes 0 ++ tf.fileData ∧ r.outCompressedSize = tf.fileData.length + 4 := by
  intro fuel
  induction fuel with
  | zero => intro c srcOffset cmpOffset blocks r _ hr; simp [compressLoop] at hr
  | succ fuel ih =>
    intro c srcOffset cmpOffset blocks r hc hr hfb
    by_cases h : srcOffset < tf.fileData.length
    · by_cases hf : cmpOffset + (blockCompressed cfg tf level blockSize srcOffset).length >
          tf.fileData.length
      · rw [compressLoop_fallback cfg tf level blockSize fuel c srcOffset cmpOffset blocks h hc hf]
          at hr
        cases hr
        exact ⟨rfl, rfl⟩
      · obtain ⟨c1, -, hl, -, -, -, heq⟩ :=
          compressLoop_continue cfg tf level blockSize fuel c srcOffset cmpOffset blocks h hc hf
        rw [heq] at hr
        exact ih c1 _ _ _ r (by omega) hr hfb
    · rw [compressLoop_done cfg tf level blockSize fuel c srcOffset cmpOffset blocks h] at hr
      cases hr
      simp at hfb

/-- A run that ends by leaving the loop keeps what lay below `cmpOffset`. -/
theorem compressLoop_finished : ∀ (fuel : Nat) (c : List Byte) (srcOffset cmpOffset : Nat)
    (blocks : List (Nat × Nat)) (r : Compressed), c.length = tf.fileData.length + 4 →
    cmpOffset ≤ tf.fileData.length + 4 →
    compressLoop cfg tf level blockSize fuel c srcOffset cmpOffset blocks = some r →
    r.fellBack = false →
    cmpOffset ≤ r.outCompressedSize ∧ r.outCompressedSize ≤ tf.fileData.length + 4 ∧
      r.compressed.length = tf.fileData.length + 4 ∧
      r.compressed.take cmpOffset = c.take cmpOffset := by
  intro fuel
  induction fuel with
  | zero => intro c srcOffset cmpOffset blocks r _ _ hr; simp [compressLoop] at hr
  | succ fuel ih =>
    intro c srcOffset cmpOffset blocks r hc ho hr hfb
    by_cases h : srcOffset < tf.fileData.length
    · by_cases hf : cmpOffset + (blockCompressed cfg tf level blockSize srcOffset).length >
          tf.fileData.length
      · rw [compressLoop_fallback cfg tf level blockSize fuel c srcOffset cmpOffset blocks h hc hf]
          at hr
        cases hr
        simp at hfb
      · obtain ⟨c1, -, hl, ht, -, -, heq⟩ :=
          compressLoop_continue cfg tf level blockSize fuel c srcOffset cmpOffset blocks h hc hf
        rw [heq] at hr
        obtain ⟨h1, h2, h3, h4⟩ := ih c1 _ _ _ r (by omega) (by omega) hr hfb
        refine ⟨by omega, h2, h3, ?_⟩
        rw [← ht]
        have := congrArg (List.take cmpOffset) h4
        rw [List.take_take, List.take_take] at this
        simpa [Nat.min_eq_left (show cmpOffset ≤ cmpOffset + 4 +
          (blockCompressed cfg tf level blockSize srcOffset).length by omega)] using this
    · rw [compressLoop_done cfg tf level blockSize fuel c srcOffset cmpOffset blocks h] at hr
      cases hr
      exact ⟨le_refl _, ho, hc, rfl⟩

end CompressLoop

/-! ## The decoding loop against the encoding loop -/

theorem splice_aux {α : Type} (dst block rest : List α) (a N : Nat)
    (ha : a + block.length ≤ N) (hN : N ≤ dst.length) :
    (dst.take a ++ block ++ dst.drop (a + block.length)).take (a + block.length)
        ++ rest ++ (dst.take a ++ block ++ dst.drop (a + block.length)).drop N =
      dst.take a ++ (block ++ rest) ++ dst.drop N := by
  have hl : (dst.take a ++ block).length = a + block.length := by simp; omega
  have h1 : (dst.take a ++ block ++ dst.drop (a + block.length)).take (a + block.length) =
      dst.take a ++ block := List.take_left' hl
  have h2 : (dst.take a ++ block ++ dst.drop (a + block.length)).drop N = dst.drop N := by
    rw [List.drop_append_eq_append_drop, hl, List.drop_eq_nil_of_le (by omega), List.nil_append,
      List.drop_drop]
    congr 1
    omega
  rw [h1, h2]
  simp

/-- Storing the block `[a, a + t)` of `data` into `dst` and then the rest of
`data` behind it stores `data` from `a` on. -/
theorem splice_step {α : Type} (dst data : List α) (a t N : Nat) (ha : a + t ≤ N)
    (hN : N ≤ dst.length) (hd : data.length = N) :
    (dst.take a ++ (data.drop a).take t ++ dst.drop (a + ((data.drop a).take t).length)).take
          (a + t) ++ data.drop (a + t) ++
        (dst.take a ++ (data.drop a).take t ++
          dst.drop (a + ((data.drop a).take t).length)).drop N =
      dst.take a ++ data.drop a ++ dst.drop N := by
  have hb : ((data.drop a).take t).length = t := by simp; omega
  have := splice_aux dst ((data.drop a).take t) (data.drop (a + t)) a N (by omega) hN
  rw [hb] at this
  rw [hb, this, ← List.drop_drop, List.take_append_drop]

/-- A block between multiples of the stride is made of whole records. -/
theorem whole_records {s bs N off : Nat} (hs : s ∣ bs) (hN : s ∣ N) (ho : s ∣ off) :
    min bs (N - off) / s * s = min bs (N - off) := by
  apply Nat.div_mul_cancel
  rcases le_total bs (N - off) with h | h
  · rw [min_eq_left h]; exact hs
  · rw [min_eq_right h]; exact Nat.dvd_sub' hN ho

/-- Filter, compress, decompress, unfilter gives the block back. -/
theorem block_roundTrip (cfg : CompressorConfig) (level : Int) (hinv : cfg.cmp.Inverts)
    (hfilt : cfg.FilterInverts) (block : List Byte) (count stride : Nat)
    (hlen : block.length = count * stride) :
    unfiltered cfg.filter
      (cfg.cmp.Decompress (cfg.cmp.Compress level (filtered cfg.filter block stride count)
        count stride) count stride) stride count = block := by
  cases hf : cfg.filter with
  | none =>
    simp only [filtered, unfiltered]
    exact hinv level block count stride hlen
  | some f =>
    obtain ⟨h1, h2⟩ := hfilt f hf block stride count hlen
    simp only [filtered, unfiltered]
    rw [hinv level _ count stride h1, h2]

section DecompressLoop

variable (cfg : CompressorConfig) (tf : TestFile) (level : Int) (blockSize : Nat)

theorem decompressLoop_done (compressed : List Byte) (compressedSize fuel : Nat)
    (dst : List Byte) (cmpOffset dstOffset : Nat) (blocks : List (Nat × Nat))
    (h : ¬ cmpOffset < compressedSize) :
    decompressLoop cfg tf blockSize compressed compressedSize (fuel + 1) dst cmpOffset dstOffset
      blocks = some ⟨dst, blocks⟩ := by
  simp only [decompressLoop, if_neg h]

theorem decompressLoop_step (compressed : List Byte) (compressedSize fuel : Nat)
    (dst : List Byte) (cmpOffset dstOffset : Nat) (blocks : List (Nat × Nat)) (n : Nat)
    (payload dst1 : List Byte)
    (h : cmpOffset < compressedSize) (hn : readU32 compressed cmpOffset = some n)
    (hp : readBytes compressed (cmpOffset + 4) n = some payload)
    (hm : memcpy dst dstOffset
      (unfiltered cfg.filter
        (cfg.cmp.Decompress payload (thisBlockSizeAt tf blockSize dstOffset / tf.vertexStride)
          tf.vertexStride)
        tf.vertexStride (thisBlockSizeAt tf blockSize dstOffset / tf.vertexStride)) = some dst1) :
    decompressLoop cfg tf blockSize compressed compressedSize (fuel + 1) dst cmpOffset dstOffset
        blocks =
      decompressLoop cfg tf blockSize compressed compressedSize fuel dst1 (cmpOffset + 4 + n)
        (dstOffset + thisBlockSizeAt tf blockSize dstOffset)
        (blocks ++ [(dstOffset, thisBlockSizeAt tf blockSize dstOffset)]) := by
  simp only [decompressLoop, if_pos h, hn, hp, hm]

/-- The decoding loop, run on what the encoding loop returned without falling
back, stores the input from `srcOffset` on, and is handed the very blocks the
encoding loop was handed. -/
theorem decompressLoop_compressLoop (hinv : cfg.cmp.Inverts) (hfilt : cfg.FilterInverts)
    (hs : tf.vertexStride ∣ blockSize) (hN : tf.vertexStride ∣ tf.fileData.length)
    (hfit : ∀ srcOffset, srcOffset < tf.fileData.length →
      (blockCompressed cfg tf level blockSize srcOffset).length < 4294967296) :
    ∀ (fuel : Nat) (c : List Byte) (srcOffset cmpOffset : Nat) (blocks : List (Nat × Nat))
      (r : Compressed), c.length = tf.fileData.length + 4 →
      cmpOffset ≤ tf.fileData.length + 4 → tf.vertexStride ∣ srcOffset →
      compressLoop cfg tf level blockSize fuel c srcOffset cmpOffset blocks = some r →
      r.fellBack = false →
      ∃ walked, r.blocks = blocks ++ walked ∧
        ∀ (fuel2 : Nat) (dst : List Byte) (seen : List (Nat × Nat)),
          r.outCompressedSize - cmpOffset < fuel2 → tf.fileData.length ≤ dst.length →
          decompressLoop cfg tf blockSize r.compressed r.outCompressedSize fuel2 dst cmpOffset
              (min srcOffset tf.fileData.length) seen =
            some ⟨dst.take (min srcOffset tf.fileData.length) ++
              tf.fileData.drop (min srcOffset tf.fileData.length) ++
              dst.drop tf.fileData.length, seen ++ walked⟩ := by
  intro fuel
  induction fuel with
  | zero => intro c srcOffset cmpOffset blocks r _ _ _ hr; simp [compressLoop] at hr
  | succ fuel ih =>
    intro c srcOffset cmpOffset blocks r hc ho hsrc hr hfb
    by_cases h : srcOffset < tf.fileData.length
    · by_cases hf : cmpOffset + (blockCompressed cfg tf level blockSize srcOffset).length >
          tf.fileData.length
      · rw [compressLoop_fallback cfg tf level blockSize fuel c srcOffset cmpOffset blocks h hc hf]
          at hr
        cases hr
        simp at hfb
      · obtain ⟨c1, -, hl, -, hu, hb, heq⟩ :=
          compressLoop_continue cfg tf level blockSize fuel c srcOffset cmpOffset blocks h hc hf
        rw [heq] at hr
        obtain ⟨h1, h2, h3, h4⟩ := compressLoop_finished cfg tf level blockSize fuel c1 _ _ _ r
          (by omega) (by omega) hr hfb
        have hmin : min srcOffset tf.fileData.length = srcOffset := min_eq_left (le_of_lt h)
        have hwhole := whole_records hs hN hsrc
        have hblock : blockBytes tf blockSize srcOffset =
            (tf.fileData.drop srcOffset).take (thisBlockSizeAt tf blockSize srcOffset) := by
          unfold blockBytes
          rw [hwhole]
        have hblen : (blockBytes tf blockSize srcOffset).length =
            thisBlockSizeAt tf blockSize srcOffset / tf.vertexStride * tf.vertexStride := by
          rw [hwhole, hblock]
          simp
        have hrt := block_roundTrip cfg level hinv hfilt (blockBytes tf blockSize srcOffset)
          (thisBlockSizeAt tf blockSize srcOffset / tf.vertexStride) tf.vertexStride hblen
        have hmod : (blockCompressed cfg tf level blockSize srcOffset).length % 4294967296 =
            (blockCompressed cfg tf level blockSize srcOffset).length :=
          Nat.mod_eq_of_lt (hfit srcOffset h)
        rw [hmod] at hu
        have hu' : readU32 r.compressed cmpOffset =
            some (blockCompressed cfg tf level blockSize srcOffset).length := by
          rw [readU32_congr h4 (by omega) (by omega) (by omega)]
          exact hu
        have hb' : readBytes r.compressed (cmpOffset + 4)
            (blockCompressed cfg tf level blockSize srcOffset).length =
            some (blockCompressed cfg tf level blockSize srcOffset) := by
          rw [readBytes_congr h4 (by omega) (by omega) (by omega)]
          exact hb
        have hle : srcOffset + thisBlockSizeAt tf blockSize srcOffset ≤ tf.fileData.length := by
          show srcOffset + min blockSize (tf.fileData.length - srcOffset) ≤ tf.fileData.length
          omega
        have hbl : (blockBytes tf blockSize srcOffset).length =
            thisBlockSizeAt tf blockSize srcOffset := by rw [hblen, hwhole]
        have hnext : srcOffset + thisBlockSizeAt tf blockSize srcOffset =
            min (srcOffset + blockSize) tf.fileData.length := by
          show srcOffset + min blockSize (tf.fileData.length - srcOffset) = _
          omega
        obtain ⟨walked, hw1, hw2⟩ := ih c1 (srcOffset + blockSize) _ _ r (by omega) (by omega)
          (Dvd.dvd.add hsrc hs) hr hfb
        refine ⟨(srcOffset, thisBlockSizeAt tf blockSize srcOffset) :: walked,
          by rw [hw1, List.append_assoc]; rfl, fun fuel2 dst seen hfuel hdst => ?_⟩
        obtain ⟨fuel2, rfl⟩ : ∃ k, fuel2 = k + 1 := ⟨fuel2 - 1, by omega⟩
        have hm := @memcpy_eq_some dst srcOffset (blockBytes tf blockSize srcOffset) (by omega)
        rw [hmin, decompressLoop_step cfg tf blockSize r.compressed r.outCompressedSize fuel2 dst
          cmpOffset srcOffset seen _ _ _ (by omega) hu' hb' (by rw [hrt]; exact hm)]
        have := hw2 fuel2
          (dst.take srcOffset ++ blockBytes tf blockSize srcOffset ++
            dst.drop (srcOffset + (blockBytes tf blockSize srcOffset).length))
          (seen ++ [(srcOffset, thisBlockSizeAt tf blockSize srcOffset)])
          (by omega) (by simp; omega)
        rw [hnext, this, ← hnext, hblock]
        congr 2
        · exact splice_step dst tf.fileData srcOffset _ _ hle hdst rfl
        · rw [List.append_assoc]; rfl
    · rw [compressLoop_done cfg tf level blockSize fuel c srcOffset cmpOffset blocks h] at hr
      cases hr
      refine ⟨[], by simp, fun fuel2 dst seen hfuel hdst => ?_⟩
      obtain ⟨fuel2, rfl⟩ : ∃ k, fuel2 = k + 1 := ⟨fuel2 - 1, by omega⟩
      rw [decompressLoop_done cfg tf blockSize c cmpOffset fuel2 dst cmpOffset _ seen
        (lt_irrefl _)]
      have hmin : min srcOffset tf.fileData.length = tf.fileData.length :=
        min_eq_right (by omega)
      rw [hmin, List.drop_length, List.append_nil, List.take_append_drop, List.append_nil]

end DecompressLoop

/-! ## The framer as a whole -/

theorem readBytes_all (l : List Byte) : readBytes l 0 l.length = some l := by
  simp [readBytes]

theorem memcpy_zero {dst src : List Byte} (h : src.length ≤ dst.length) :
    memcpy dst 0 src = some (src ++ dst.drop src.length) := by
  rw [memcpy_eq_some (by omega)]
  simp

theorem effectiveBlockSize_dvd (b : BlockSize) (stride : Nat) :
    stride ∣ effectiveBlockSize b stride :=
  Dvd.intro_left _ rfl

/-- With an effective block size of zero the loop can only end in the raw copy. -/
theorem compressLoop_zero_blockSize (cfg : CompressorConfig) (tf : TestFile) (level : Int) :
    ∀ (fuel : Nat) (c : List Byte) (srcOffset cmpOffset : Nat) (blocks : List (Nat × Nat))
      (r : Compressed), c.length = tf.fileData.length + 4 → srcOffset < tf.fileData.length →
      compressLoop cfg tf level 0 fuel c srcOffset cmpOffset blocks = some r →
      r.fellBack = true := by
  intro fuel
  induction fuel with
  | zero => intro c srcOffset cmpOffset blocks r _ _ hr; simp [compressLoop] at hr
  | succ fuel ih =>
    intro c srcOffset cmpOffset blocks r hc h hr
    by_cases hf : cmpOffset + (blockCompressed cfg tf level 0 srcOffset).length >
        tf.fileData.length
    · rw [compressLoop_fallback cfg tf level 0 fuel c srcOffset cmpOffset blocks h hc hf] at hr
      cases hr
      rfl
    · obtain ⟨c1, -, hl, -, -, -, heq⟩ :=
        compressLoop_continue cfg tf level 0 fuel c srcOffset cmpOffset blocks h hc hf
      rw [heq] at hr
      exact ih c1 _ _ _ r (by omega) h hr

/-- What the chunked branch of `Compress` returns. -/
theorem Compress_chunked (cfg : CompressorConfig) (tf : TestFile) (level : Int)
    (heap : Nat → Byte) (hb : cfg.blockSizeEnum ≠ BlockSize.kBSizeNone)
    (hstride : 0 < tf.vertexStride) :
    cfg.Compress tf level heap =
      compressLoop cfg tf level (effectiveBlockSize cfg.blockSizeEnum tf.vertexStride)
        (tf.fileData.length + 2) (newBuffer heap (tf.fileData.length + 4)) 0 0 [] := by
  unfold CompressorConfig.Compress
  rw [if_neg hb, if_neg (by omega)]

/-- What the single-block branch of `Compress` returns. -/
theorem Compress_whole (cfg : CompressorConfig) (tf : TestFile) (level : Int)
    (heap : Nat → Byte) (hb : cfg.blockSizeEnum = BlockSize.kBSizeNone)
    (hsize : tf.fileData.length = tf.vertexCount * tf.vertexStride) :
    cfg.Compress tf level heap =
      some ⟨cfg.cmp.Compress level
          (filtered cfg.filter tf.fileData tf.vertexStride tf.vertexCount)
          tf.vertexCount tf.vertexStride,
        (cfg.cmp.Compress level
          (filtered cfg.filter tf.fileData tf.vertexStride tf.vertexCount)
          tf.vertexCount tf.vertexStride).length,
        false, [(0, tf.vertexCount * tf.vertexStride)]⟩ := by
  have hread : readBytes tf.fileData 0 (tf.vertexCount * tf.vertexStride) =
      some tf.fileData := by
    rw [← hsize]
    exact readBytes_all _
  simp only [CompressorConfig.Compress, if_pos hb, CompressorConfig.CompressWhole, hread]

/-- Decoding the raw-copy frame. -/
theorem Decompress_fallback (cfg : CompressorConfig) (tf : TestFile) (dst : List Byte)
    (hb : cfg.blockSizeEnum ≠ BlockSize.kBSizeNone)
    (hsize : tf.fileData.length = tf.vertexCount * tf.vertexStride)
    (hdst : tf.fileData.length ≤ dst.length) (size : Nat) :
    cfg.Decompress tf (u32Bytes 0 ++ tf.fileData) size dst =
      some ⟨tf.fileData ++ dst.drop tf.fileData.length, []⟩ := by
  have h0 : readU32 (u32Bytes 0 ++ tf.fileData) 0 = some 0 := by
    simp [readU32, readBytes, u32Bytes, bytesToNat, toByte]
  have h1 : readBytes (u32Bytes 0 ++ tf.fileData) 4 (tf.vertexCount * tf.vertexStride) =
      some tf.fileData := by
    rw [readBytes_some_iff, ← hsize]
    constructor
    · simp [u32Bytes_length]
    · rw [List.drop_left' (u32Bytes_length 0), List.take_length]
  unfold CompressorConfig.Decompress
  rw [if_neg hb]
  simp only [h0, h1, if_true, memcpy_zero hdst]

/-- Single-block mode: `Decompress` gives back what `Compress` was given. -/
theorem Decompress_Compress_whole (cfg : CompressorConfig) (tf : TestFile) (level : Int)
    (heap : Nat → Byte) (dst : List Byte)
    (hb : cfg.blockSizeEnum = BlockSize.kBSizeNone)
    (hsize : tf.fileData.length = tf.vertexCount * tf.vertexStride)
    (hinv : cfg.cmp.Inverts) (hfilt : cfg.FilterInverts)
    (hdst : tf.fileData.length ≤ dst.length) :
    ∃ r d, cfg.Compress tf level heap = some r ∧
      cfg.Decompress tf r.compressed r.outCompressedSize dst = some d ∧
      d.dst = tf.fileData ++ dst.drop tf.fileData.length := by
  have hrt := block_roundTrip cfg level hinv hfilt tf.fileData tf.vertexCount tf.vertexStride hsize
  refine ⟨_, ⟨tf.fileData ++ dst.drop tf.fileData.length,
    [(0, tf.vertexCount * tf.vertexStride)]⟩, Compress_whole cfg tf level heap hb hsize, ?_, rfl⟩
  simp only [CompressorConfig.Decompress, if_pos hb, CompressorConfig.DecompressWhole,
    readBytes_all, hrt, memcpy_zero hdst]

/-- Chunked mode: `Decompress` gives back what `Compress` was given, and when
`Compress` did not fall back it is handed the same blocks. -/
theorem Decompress_Compress_chunked (cfg : CompressorConfig) (tf : TestFile) (level : Int)
    (heap : Nat → Byte) (dst : List Byte)
    (hb : cfg.blockSizeEnum ≠ BlockSize.kBSizeNone)
    (hstride : 0 < tf.vertexStride)
    (hsize : tf.fileData.length = tf.vertexCount * tf.vertexStride)
    (hinv : cfg.cmp.Inverts) (hfilt : cfg.FilterInverts)
    (hstor : cfg.SizesStorable tf level)
    (hdst : tf.fileData.length ≤ dst.length) :
    ∃ r d, cfg.Compress tf level heap = some r ∧
      cfg.Decompress tf r.compressed r.outCompressedSize dst = some d ∧
      d.dst = tf.fileData ++ dst.drop tf.fileData.length ∧
      (r.fellBack = false → d.blocks = r.blocks) := by
  obtain ⟨hfit, hfirst⟩ := hstor
  have hN : tf.vertexStride ∣ tf.fileData.length := Dvd.intro_left _ hsize.symm
  have hbuf := newBuffer_length heap (tf.fileData.length + 4)
  obtain ⟨r, hr, hrl, hrs⟩ := compressLoop_total cfg tf level
    (effectiveBlockSize cfg.blockSizeEnum tf.vertexStride) (tf.fileData.length + 2)
    (newBuffer heap (tf.fileData.length + 4)) 0 0 [] hbuf (by omega) (by omega)
  have hcomp : cfg.Compress tf level heap = some r := by
    rw [Compress_chunked cfg tf level heap hb hstride, hr]
  cases hfb : r.fellBack with
  | true =>
    obtain ⟨h1, h2⟩ := compressLoop_fellBack cfg tf level _ _ _ _ _ _ r hbuf hr hfb
    refine ⟨r, ⟨tf.fileData ++ dst.drop tf.fileData.length, []⟩, hcomp, ?_, rfl,
      fun h => absurd (hfb.symm.trans h) (by decide)⟩
    rw [h1]
    exact Decompress_fallback cfg tf dst hb hsize hdst _
  | false =>
    obtain ⟨walked, hw1, hloop⟩ := decompressLoop_compressLoop cfg tf level _ hinv hfilt
      (effectiveBlockSize_dvd cfg.blockSizeEnum tf.vertexStride) hN hfit _ _ _ _ _ r hbuf
      (by omega) (dvd_zero _) hr hfb
    have hloop := hloop (r.outCompressedSize + 1) dst [] (by omega) hdst
    simp only [Nat.zero_min, List.take_zero, List.drop_zero, List.nil_append] at hloop hw1
    obtain ⟨first, hfirstRead⟩ : ∃ first, readU32 r.compressed 0 = some first := by
      simp [readU32, readBytes, hrl]
    by_cases hz : first = 0
    · by_cases h0 : tf.fileData.length = 0
      · have hnil : tf.fileData = [] := List.length_eq_zero.mp h0
        have hread : readBytes r.compressed 4 (tf.vertexCount * tf.vertexStride) = some [] := by
          rw [← hsize, h0, readBytes_some_iff]
          exact ⟨by omega, by simp⟩
        have hr2 := hr
        rw [compressLoop_done cfg tf level _ _ _ 0 0 [] (by omega)] at hr2
        refine ⟨r, ⟨dst, []⟩, hcomp, ?_, by simp [hnil], fun _ => ?_⟩
        · simp only [CompressorConfig.Decompress, if_neg hb, hfirstRead, if_pos hz, hread]
          simp [memcpy]
        · cases hr2
          rfl
      · exfalso
        have hpos : 0 < tf.fileData.length := by omega
        have hbs : effectiveBlockSize cfg.blockSizeEnum tf.vertexStride ≠ 0 := by
          intro hbs0
          rw [hbs0] at hr
          have := compressLoop_zero_blockSize cfg tf level _ _ _ _ _ r hbuf hpos hr
          rw [hfb] at this
          cases this
        by_cases hf : 0 + (blockCompressed cfg tf level
            (effectiveBlockSize cfg.blockSizeEnum tf.vertexStride) 0).length > tf.fileData.length
        · rw [compressLoop_fallback cfg tf level _ _ _ 0 0 [] hpos hbuf hf] at hr
          cases hr
          simp at hfb
        · obtain ⟨c1, -, hl, -, hu, -, heq⟩ :=
            compressLoop_continue cfg tf level _ (tf.fileData.length + 1) _ 0 0 [] hpos hbuf hf
          rw [heq] at hr
          obtain ⟨h1, h2, h3, h4⟩ := compressLoop_finished cfg tf level _ _ c1 _ _ _ r
            (by omega) (by omega) hr hfb
          rw [← readU32_congr h4 (by omega) (by omega) (by omega), hfirstRead,
            Nat.mod_eq_of_lt (hfit 0 hpos)] at hu
          have hne := hfirst (by
            show 0 < min (effectiveBlockSize cfg.blockSizeEnum tf.vertexStride)
              (tf.fileData.length - 0)
            omega)
          have : (blockCompressed cfg tf level
              (effectiveBlockSize cfg.blockSizeEnum tf.vertexStride) 0).length = 0 := by
            rw [hz] at hu
            exact (Option.some.inj hu).symm
          exact hne (List.length_eq_zero.mp this)
    · refine ⟨r, ⟨tf.fileData ++ dst.drop tf.fileData.length, walked⟩, hcomp, ?_, rfl,
        fun _ => hw1.symm⟩
      simp only [CompressorConfig.Decompress, if_neg hb, hfirstRead, if_neg hz,
        if_neg (Nat.pos_iff_ne_zero.mp hstride), hloop]

/-- The round trip in single-block mode. -/
theorem roundTrip_whole (cfg : CompressorConfig) (tf : TestFile) (level : Int)
    (heap : Nat → Byte) (dst : List Byte)
    (hb : cfg.blockSizeEnum = BlockSize.kBSizeNone)
    (hsize : tf.fileData.length = tf.vertexCount * tf.vertexStride)
    (hinv : cfg.cmp.Inverts) (hfilt : cfg.FilterInverts)
    (hdst : tf.fileData.length ≤ dst.length) :
    roundTrip cfg tf level heap dst = some tf.fileData := by
  obtain ⟨r, d, h1, h2, h3⟩ :=
    Decompress_Compress_whole cfg tf level heap dst hb hsize hinv hfilt hdst
  simp only [roundTrip, h1, h2, h3, List.take_left' rfl]

/-- The round trip in chunked mode. -/
theorem roundTrip_chunked (cfg : CompressorConfig) (tf : TestFile) (level : Int)
    (heap : Nat → Byte) (dst : List Byte)
    (hb : cfg.blockSizeEnum ≠ BlockSize.kBSizeNone)
    (hstride : 0 < tf.vertexStride)
    (hsize : tf.fileData.length = tf.vertexCount * tf.vertexStride)
    (hinv : cfg.cmp.Inverts) (hfilt : cfg.FilterInverts)
    (hstor : cfg.SizesStorable tf level)
    (hdst : tf.fileData.length ≤ dst.length) :
    roundTrip cfg tf level heap dst = some tf.fileData := by
  obtain ⟨r, d, h1, h2, h3, -⟩ :=
    Decompress_Compress_chunked cfg tf level heap dst hb hstride hsize hinv hfilt hstor hdst
  simp only [roundTrip, h1, h2, h3, List.take_left' rfl]

/-! ## The sample capabilities meet the contract -/

theorem storeCompressor_inverts : storeCompressor.Inverts := by
  intro level src count stride _
  rfl

theorem headerCompressor_inverts : headerCompressor.Inverts := by
  intro level src count stride _
  rfl

theorem all_zero_eq_replicate (src : List Byte) (h : src.all (fun b => b == 0) = true) :
    List.replicate src.length 0 = src := by
  symm
  rw [List.eq_replicate_iff]
  refine ⟨rfl, fun b hb => ?_⟩
  have := List.all_eq_true.mp h b hb
  simpa using this

theorem zeroRunCompressor_inverts : zeroRunCompressor.Inverts := by
  intro level src count stride hlen
  simp only [zeroRunCompressor]
  by_cases h : src.all (fun b => b == 0) = true
  · rw [if_pos h, ← hlen]
    exact all_zero_eq_replicate src h
  · rw [if_neg h]

theorem emptyOnZeroCompressor_inverts : emptyOnZeroCompressor.Inverts := by
  intro level src count stride hlen
  simp only [emptyOnZeroCompressor]
  by_cases h : src.all (fun b => b == 0) = true
  · rw [if_pos h, ← hlen]
    exact all_zero_eq_replicate src h
  · rw [if_neg h]

theorem complementFilter_inverts : complementFilter.Inverts := by
  intro src channels dataElems hlen
  refine ⟨by simp [complementFilter, hlen], ?_⟩
  simp only [complementFilter, List.map_map]
  conv_rhs => rw [← List.map_id src]
  apply List.map_congr_left
  intro b _
  simp

/-! ## When the encoder falls back -/

section Fallback

variable (cfg : CompressorConfig) (tf : TestFile) (level : Int) (blockSize : Nat)

/-- From block `k` on, the loop ends in the raw copy exactly when some block
`j ≥ k` would push `cmpOffset + thisCmpSize` beyond `dataSize`. -/
theorem compressLoop_fellBack_iff : ∀ (fuel : Nat) (c : List Byte) (k : Nat)
    (blocks : List (Nat × Nat)) (r : Compressed), c.length = tf.fileData.length + 4 →
    compressLoop cfg tf level blockSize fuel c (k * blockSize)
      (cmpOffsetAt cfg tf level blockSize k) blocks = some r →
    (r.fellBack = true ↔ ∃ j, k ≤ j ∧ j * blockSize < tf.fileData.length ∧
      cmpOffsetAt cfg tf level blockSize j + thisCmpSizeAt cfg tf level blockSize j >
        tf.fileData.length) := by
  intro fuel
  induction fuel with
  | zero => intro c k blocks r _ hr; simp [compressLoop] at hr
  | succ fuel ih =>
    intro c k blocks r hc hr
    by_cases h : k * blockSize < tf.fileData.length
    · by_cases hf : cmpOffsetAt cfg tf level blockSize k +
          (blockCompressed cfg tf level blockSize (k * blockSize)).length > tf.fileData.length
      · rw [compressLoop_fallback cfg tf level blockSize fuel c _ _ blocks h hc hf] at hr
        cases hr
        simp only [true_iff]
        exact ⟨k, le_refl _, h, hf⟩
      · obtain ⟨c1, -, hl, -, -, -, heq⟩ :=
          compressLoop_continue cfg tf level blockSize fuel c _ _ blocks h hc hf
        rw [heq] at hr
        have e1 : k * blockSize + blockSize = (k + 1) * blockSize := (Nat.succ_mul _ _).symm
        rw [e1] at hr
        rw [ih c1 (k + 1) _ r (by omega) hr]
        constructor
        · rintro ⟨j, hj, h1, h2⟩
          exact ⟨j, by omega, h1, h2⟩
        · rintro ⟨j, hj, h1, h2⟩
          refine ⟨j, ?_, h1, h2⟩
          rcases Nat.eq_or_lt_of_le hj with rfl | hlt
          · exact absurd h2 hf
          · exact hlt
    · rw [compressLoop_done cfg tf level blockSize fuel c _ _ blocks h] at hr
      cases hr
      simp only [Bool.false_eq_true, false_iff, not_exists, not_and]
      intro j hj h1
      have := Nat.mul_le_mul_right blockSize hj
      omega

/-- Once `cmpOffset` is ahead of `srcOffset`, a backend that never shrinks a block
drives the loop into the raw copy. -/
theorem compressLoop_incompressible (hs : tf.vertexStride ∣ blockSize)
    (hN : tf.vertexStride ∣ tf.fileData.length)
    (hinc : ∀ k, k * blockSize < tf.fileData.length →
      (blockBytes tf blockSize (k * blockSize)).length ≤
        (blockCompressed cfg tf level blockSize (k * blockSize)).length) :
    ∀ (fuel : Nat) (c : List Byte) (k cmpOffset : Nat) (blocks : List (Nat × Nat))
      (r : Compressed), c.length = tf.fileData.length + 4 →
      k * blockSize < tf.fileData.length → k * blockSize < cmpOffset →
      compressLoop cfg tf level blockSize fuel c (k * blockSize) cmpOffset blocks = some r →
      r.fellBack = true := by
  intro fuel
  induction fuel with
  | zero => intro c k cmpOffset blocks r _ _ _ hr; simp [compressLoop] at hr
  | succ fuel ih =>
    intro c k cmpOffset blocks r hc h hlt hr
    by_cases hf : cmpOffset +
        (blockCompressed cfg tf level blockSize (k * blockSize)).length > tf.fileData.length
    · rw [compressLoop_fallback cfg tf level blockSize fuel c _ _ blocks h hc hf] at hr
      cases hr
      rfl
    · obtain ⟨c1, -, hl, -, -, -, heq⟩ :=
        compressLoop_continue cfg tf level blockSize fuel c _ _ blocks h hc hf
      rw [heq] at hr
      have e1 : k * blockSize + blockSize = (k + 1) * blockSize := (Nat.succ_mul _ _).symm
      rw [e1] at hr
      have hwhole := whole_records hs hN (Dvd.dvd.mul_left hs k)
      have hlen : (blockBytes tf blockSize (k * blockSize)).length =
          min blockSize (tf.fileData.length - k * blockSize) := by
        unfold blockBytes
        rw [hwhole]
        simp
      have := hinc k h
      rw [hlen] at this
      exact ih c1 (k + 1) _ _ r (by omega) (by omega) (by omega) hr

end Fallback

/-! ## The block walk -/

theorem lt_numBlocks_iff {dataSize blockSize : Nat} (hbs : 0 < blockSize) (j : Nat) :
    j < (dataSize + blockSize - 1) / blockSize ↔ j * blockSize < dataSize := by
  rw [Nat.lt_iff_add_one_le, Nat.le_div_iff_mul_le hbs, Nat.add_mul]
  omega

theorem blockPartition_length (dataSize blockSize : Nat) :
    (blockPartition dataSize blockSize).length = (dataSize + blockSize - 1) / blockSize := by
  simp [blockPartition]

theorem blockPartition_getElem (dataSize blockSize i : Nat)
    (h : i < (blockPartition dataSize blockSize).length) :
    (blockPartition dataSize blockSize)[i] =
      (i * blockSize, min blockSize (dataSize - i * blockSize)) := by
  simp [blockPartition]

theorem blockPartition_take (dataSize blockSize m : Nat)
    (hm : m ≤ (dataSize + blockSize - 1) / blockSize) :
    (blockPartition dataSize blockSize).take m =
      (List.range m).map (fun k => (k * blockSize, min blockSize (dataSize - k * blockSize))) := by
  unfold blockPartition
  rw [← List.map_take, List.take_range, min_eq_left hm]

/-- The sizes of the first `m` blocks of the walk add up to what they cover. -/
theorem sum_blockSizes (dataSize blockSize : Nat) : ∀ m : Nat,
    ((List.range m).map (fun k => min blockSize (dataSize - k * blockSize))).sum =
      min (m * blockSize) dataSize := by
  intro m
  induction m with
  | zero => simp
  | succ m ih =>
    rw [List.range_succ, List.map_append, List.sum_append, ih, Nat.succ_mul]
    simp only [List.map_cons, List.map_nil, List.sum_cons, List.sum_nil, Nat.add_zero]
    omega

/-- The blocks the encoding loop hands to the backend from block `k` on are the
blocks `k, k + 1, ...` of the walk, up to where the loop is left. -/
theorem compressLoop_blocks (cfg : CompressorConfig) (tf : TestFile) (level : Int)
    (blockSize : Nat) : ∀ (fuel : Nat) (c : List Byte) (k cmpOffset : Nat)
    (blocks : List (Nat × Nat)) (r : Compressed), c.length = tf.fileData.length + 4 →
    compressLoop cfg tf level blockSize fuel c (k * blockSize) cmpOffset blocks = some r →
    ∃ m, r.blocks = blocks ++ (List.range' k m).map
          (fun j => (j * blockSize, min blockSize (tf.fileData.length - j * blockSize))) ∧
      (∀ j, k ≤ j → j < k + m → j * blockSize < tf.fileData.length) ∧
      (r.fellBack = false → ¬ (k + m) * blockSize < tf.fileData.length) := by
  intro fuel
  induction fuel with
  | zero => intro c k cmpOffset blocks r _ hr; simp [compressLoop] at hr
  | succ fuel ih =>
    intro c k cmpOffset blocks r hc hr
    by_cases h : k * blockSize < tf.fileData.length
    · by_cases hf : cmpOffset +
          (blockCompressed cfg tf level blockSize (k * blockSize)).length > tf.fileData.length
      · rw [compressLoop_fallback cfg tf level blockSize fuel c _ _ blocks h hc hf] at hr
        cases hr
        refine ⟨1, rfl, fun j h1 h2 => ?_, fun hfb => by simp at hfb⟩
        have : j = k := by omega
        rw [this]
        exact h
      · obtain ⟨c1, -, hl, -, -, -, heq⟩ :=
          compressLoop_continue cfg tf level blockSize fuel c _ _ blocks h hc hf
        rw [heq] at hr
        have e1 : k * blockSize + blockSize = (k + 1) * blockSize := (Nat.succ_mul _ _).symm
        rw [e1] at hr
        obtain ⟨m, h1, h2, h3⟩ := ih c1 (k + 1) _ _ r (by omega) hr
        refine ⟨m + 1, ?_, fun j hj1 hj2 => ?_, fun hfb => ?_⟩
        · rw [h1, List.range'_succ, List.map_cons, List.append_assoc]
          rfl
        · rcases Nat.eq_or_lt_of_le hj1 with rfl | hlt
          · exact h
          · exact h2 j hlt (by omega)
        · have := h3 hfb
          rwa [show k + (m + 1) = k + 1 + m by omega]
    · rw [compressLoop_done cfg tf level blockSize fuel c _ _ blocks h] at hr
      cases hr
      exact ⟨0, by simp, fun j h1 h2 => by omega, fun _ => h⟩

/-- The blocks `Compress` hands to the backend are a first part of the walk, and
all of it when it does not fall back. -/
theorem Compress_blocks (cfg : CompressorConfig) (tf : TestFile) (level : Int)
    (heap : Nat → Byte) (hb : cfg.blockSizeEnum ≠ BlockSize.kBSizeNone)
    (hstride : 0 < tf.vertexStride)
    (hbs : 0 < effectiveBlockSize cfg.blockSizeEnum tf.vertexStride) :
    ∃ r, cfg.Compress tf level heap = some r ∧
      r.blocks = (blockPartition tf.fileData.length
        (effectiveBlockSize cfg.blockSizeEnum tf.vertexStride)).take r.blocks.length ∧
      (r.fellBack = false → r.blocks = blockPartition tf.fileData.length
        (effectiveBlockSize cfg.blockSizeEnum tf.vertexStride)) := by
  have hbuf := newBuffer_length heap (tf.fileData.length + 4)
  obtain ⟨r, hr, -, -⟩ := compressLoop_total cfg tf level
    (effectiveBlockSize cfg.blockSizeEnum tf.vertexStride) (tf.fileData.length + 2)
    (newBuffer heap (tf.fileData.length + 4)) 0 0 [] hbuf (by omega) (by omega)
  have hr2 : compressLoop cfg tf level (effectiveBlockSize cfg.blockSizeEnum tf.vertexStride)
      (tf.fileData.length + 2) (newBuffer heap (tf.fileData.length + 4))
      (0 * effectiveBlockSize cfg.blockSizeEnum tf.vertexStride) 0 [] = some r := by
    rw [Nat.zero_mul]
    exact hr
  obtain ⟨m, h1, h2, h3⟩ := compressLoop_blocks cfg tf level _ _ _ 0 0 [] r hbuf hr2
  rw [List.nil_append, ← List.range_eq_range'] at h1
  have hlen : r.blocks.length = m := by rw [h1]; simp
  have hm : m ≤ (tf.fileData.length + effectiveBlockSize cfg.blockSizeEnum tf.vertexStride - 1) /
      effectiveBlockSize cfg.blockSizeEnum tf.vertexStride := by
    rcases Nat.eq_zero_or_pos m with rfl | hpos
    · exact Nat.zero_le _
    · have := (lt_numBlocks_iff hbs (m - 1)).mpr (h2 (m - 1) (Nat.zero_le _) (by omega))
      omega
  refine ⟨r, by rw [Compress_chunked cfg tf level heap hb hstride, hr], ?_, fun hfb => ?_⟩
  · rw [hlen, blockPartition_take _ _ m hm, h1]
  · have hge : ¬ m < (tf.fileData.length +
        effectiveBlockSize cfg.blockSizeEnum tf.vertexStride - 1) /
        effectiveBlockSize cfg.blockSizeEnum tf.vertexStride := by
      rw [lt_numBlocks_iff hbs]
      simpa using h3 hfb
    have hmeq : m = (tf.fileData.length +
        effectiveBlockSize cfg.blockSizeEnum tf.vertexStride - 1) /
        effectiveBlockSize cfg.blockSizeEnum tf.vertexStride := by omega
    rw [h1, blockPartition, ← hmeq]

theorem effectiveBlockSize_le (b : BlockSize) (stride : Nat) :
    effectiveBlockSize b stride ≤ kBlockSizeToActualSize b :=
  Nat.div_mul_le_self _ _

theorem effectiveBlockSize_greatest (b : BlockSize) (stride : Nat) (hstride : 0 < stride)
    (m : Nat) (hdvd : stride ∣ m) (hm : m ≤ kBlockSizeToActualSize b) :
    m ≤ effectiveBlockSize b stride := by
  obtain ⟨q, rfl⟩ := hdvd
  unfold effectiveBlockSize
  rw [Nat.mul_comm stride q]
  apply Nat.mul_le_mul_right
  rw [Nat.le_div_iff_mul_le hstride]
  rwa [Nat.mul_comm] at hm

theorem effectiveBlockSize_pos (b : BlockSize) (stride : Nat) (hstride : 0 < stride)
    (hle : stride ≤ kBlockSizeToActualSize b) : 0 < effectiveBlockSize b stride :=
  Nat.lt_of_lt_of_le hstride
    (effectiveBlockSize_greatest b stride hstride stride (dvd_refl _) hle)

theorem dvd_thisBlockSize {stride blockSize dataSize : Nat} (hs : stride ∣ blockSize)
    (hN : stride ∣ dataSize) (k : Nat) :
    stride ∣ min blockSize (dataSize - k * blockSize) := by
  rcases le_total blockSize (dataSize - k * blockSize) with h | h
  · rw [min_eq_left h]; exact hs
  · rw [min_eq_right h]; exact Nat.dvd_sub' hN (Dvd.dvd.mul_left hs k)

/-- Every block of the walk is a positive whole number of records. -/
theorem blockPartition_whole {stride blockSize dataSize : Nat} (hbs : 0 < blockSize)
    (hs : stride ∣ blockSize) (hN : stride ∣ dataSize) :
    ∀ b ∈ blockPartition dataSize blockSize, 0 < b.2 ∧ stride ∣ b.2 := by
  intro b hmem
  simp only [blockPartition, List.mem_map, List.mem_range] at hmem
  obtain ⟨k, hk, rfl⟩ := hmem
  have := (lt_numBlocks_iff hbs k).mp hk
  exact ⟨by show 0 < min blockSize (dataSize - k * blockSize); omega, dvd_thisBlockSize hs hN k⟩

/-- Every block of the walk starts where the blocks before it end. -/
theorem blockPartition_consecutive {blockSize dataSize : Nat} (hbs : 0 < blockSize) (i : Nat)
    (h : i < (blockPartition dataSize blockSize).length) :
    (blockPartition dataSize blockSize)[i].1 =
      (((blockPartition dataSize blockSize).take i).map Prod.snd).sum := by
  rw [blockPartition_length] at h
  rw [blockPartition_getElem, blockPartition_take _ _ i (le_of_lt h), List.map_map]
  have := sum_blockSizes dataSize blockSize i
  have hlt := (lt_numBlocks_iff hbs i).mp h
  simp only [Function.comp_def]
  rw [this]
  omega

/-- Only the last block of the walk may be shorter than the block size. -/
theorem blockPartition_full {blockSize dataSize : Nat} (hbs : 0 < blockSize) (i : Nat)
    (h : i < (blockPartition dataSize blockSize).length)
    (hnext : i + 1 < (blockPartition dataSize blockSize).length) :
    (blockPartition dataSize blockSize)[i].2 = blockSize := by
  rw [blockPartition_length] at hnext
  rw [blockPartition_getElem]
  have hlt := (lt_numBlocks_iff hbs (i + 1)).mp hnext
  rw [Nat.add_mul] at hlt
  show min blockSize (dataSize - i * blockSize) = blockSize
  omega

/-- The record counts of the blocks of the walk add up to the record count. -/
theorem blockPartition_counts {stride blockSize count : Nat} (hstride : 0 < stride)
    (hbs : 0 < blockSize) (hs : stride ∣ blockSize) :
    ((blockPartition (count * stride) blockSize).map (fun b => b.2 / stride)).sum = count := by
  have hN : stride ∣ count * stride := Dvd.intro_left _ rfl
  apply Nat.eq_of_mul_eq_mul_right hstride
  rw [← List.sum_map_mul_right]
  simp only [blockPartition, List.map_map, Function.comp_def]
  have hfun : (fun k => min blockSize (count * stride - k * blockSize) / stride * stride) =
      (fun k => min blockSize (count * stride - k * blockSize)) := by
    funext k
    exact Nat.div_mul_cancel (dvd_thisBlockSize hs hN k)
  rw [hfun, sum_blockSizes]
  have hge : ¬ ((count * stride + blockSize - 1) / blockSize) * blockSize < count * stride := by
    rw [← lt_numBlocks_iff hbs]
    exact lt_irrefl _
  omega

/-- With an effective block size of zero every block handed to the backend is
empty. -/
theorem Compress_blocks_zero (cfg : CompressorConfig) (tf : TestFile) (level : Int)
    (heap : Nat → Byte) (hb : cfg.blockSizeEnum ≠ BlockSize.kBSizeNone)
    (hstride : 0 < tf.vertexStride)
    (hbs : effectiveBlockSize cfg.blockSizeEnum tf.vertexStride = 0) :
    ∃ r, cfg.Compress tf level heap = some r ∧ ∀ b ∈ r.blocks, b = (0, 0) := by
  have hbuf := newBuffer_length heap (tf.fileData.length + 4)
  obtain ⟨r, hr, -, -⟩ := compressLoop_total cfg tf level
    (effectiveBlockSize cfg.blockSizeEnum tf.vertexStride) (tf.fileData.length + 2)
    (newBuffer heap (tf.fileData.length + 4)) 0 0 [] hbuf (by omega) (by omega)
  refine ⟨r, by rw [Compress_chunked cfg tf level heap hb hstride, hr], ?_⟩
  rw [hbs] at hr
  have hr2 : compressLoop cfg tf level 0 (tf.fileData.length + 2)
      (newBuffer heap (tf.fileData.length + 4)) (0 * 0) 0 [] = some r := hr
  obtain ⟨m, h1, -, -⟩ := compressLoop_blocks cfg tf level 0 _ _ 0 0 [] r hbuf hr2
  intro b hmem
  rw [h1] at hmem
  simp only [List.nil_append, List.mem_map] at hmem
  obtain ⟨j, -, rfl⟩ := hmem
  simp

/-! ## Claims about the chunked codec framer -/

/-- C1 (amended): for every buffer of `count * stride` bytes with `stride ≥ 1`,
every block-size configuration, with or without a filter, and every level,
`Decompress` applied to what `Compress` returned reproduces exactly the original
bytes, provided the backend's `Decompress` inverts its `Compress`, `unfilterFunc`
inverts `filterFunc`, and, in chunked mode, the compressed first block is not
empty and every compressed block is shorter than `2^32` bytes. -/
theorem framer_roundTrip (cfg : CompressorConfig) (tf : TestFile) (level : Int)
    (heap : Nat → Byte) (dst : List Byte)
    (hstride : 0 < tf.vertexStride)
    (hsize : tf.fileData.length = tf.vertexCount * tf.vertexStride)
    (hinv : cfg.cmp.Inverts) (hfilt : cfg.FilterInverts)
    (hstor : cfg.blockSizeEnum ≠ BlockSize.kBSizeNone → cfg.SizesStorable tf level)
    (hdst : tf.fileData.length ≤ dst.length) :
    roundTrip cfg tf level heap dst = some tf.fileData := by
  by_cases hb : cfg.blockSizeEnum = BlockSize.kBSizeNone
  · exact roundTrip_whole cfg tf level heap dst hb hsize hinv hfilt hdst
  · exact roundTrip_chunked cfg tf level heap dst hb hstride hsize hinv hfilt (hstor hb) hdst

/-- Witness for C1: three two-byte records through the complementing filter and
the zero-run backend in 64k blocks. -/
theorem framer_roundTrip_witness :
    roundTrip ⟨zeroRunCompressor, some complementFilter, BlockSize.kBSize64k⟩ sixOnes 3
      staleHeap (List.replicate 6 0) = some sixOnes.fileData :=
  framer_roundTrip ⟨zeroRunCompressor, some complementFilter, BlockSize.kBSize64k⟩ sixOnes 3
    staleHeap (List.replicate 6 0) (by decide) (by decide) zeroRunCompressor_inverts
    (fun f hf => by cases hf; exact complementFilter_inverts)
    (fun _ => ⟨fun srcOffset h => (by
      have h6 : srcOffset < 6 := h
      interval_cases srcOffset <;> decide), fun _ => (by decide)⟩)
    (by decide)

/-- Counterexample to C1 as stated: a backend that inverts exactly but writes
nothing for an all-zero block, behind the complementing filter, on six `0xff`
bytes.  The frame starts with a zero length, so `Decompress` takes it for the raw
copy and returns the six bytes that lie behind it in the output buffer, which
`Compress` never wrote: six `0xcd` on a heap of `0xcd`, six zeros on a zeroed heap,
never the six `0xff`.  (A compressed block of `2^32` bytes would get the same zero
length.) -/
theorem framer_roundTrip_counterexample :
    emptyOnZeroCompressor.Inverts ∧
      (CompressorConfig.mk emptyOnZeroCompressor (some complementFilter)
        BlockSize.kBSize64k).FilterInverts ∧
      0 < sixOnes.vertexStride ∧
      sixOnes.fileData.length = sixOnes.vertexCount * sixOnes.vertexStride ∧
      roundTrip ⟨emptyOnZeroCompressor, some complementFilter, BlockSize.kBSize64k⟩ sixOnes 0
        staleHeap (List.replicate 6 0) = some [205, 205, 205, 205, 205, 205] ∧
      roundTrip ⟨emptyOnZeroCompressor, some complementFilter, BlockSize.kBSize64k⟩ sixOnes 0
        (fun _ => 0) (List.replicate 6 0) = some [0, 0, 0, 0, 0, 0] ∧
      roundTrip ⟨emptyOnZeroCompressor, some complementFilter, BlockSize.kBSize64k⟩ sixOnes 0
        staleHeap (List.replicate 6 0) ≠ some sixOnes.fileData ∧
      u32Bytes 4294967296 = u32Bytes 0 :=
  ⟨emptyOnZeroCompressor_inverts, fun f hf => (by cases hf; exact complementFilter_inverts),
    (by decide), (by decide), (by decide), (by decide), (by decide), (by decide)⟩

/-- C2: in chunked mode, for every buffer, every stride `≥ 1` and every backend,
`Compress` returns, every access staying inside its buffer, and the size it
returns is at most `N + 4`, the size of the output buffer. -/
theorem Compress_chunked_size_le (cfg : CompressorConfig) (tf : TestFile) (level : Int)
    (heap : Nat → Byte) (hb : cfg.blockSizeEnum ≠ BlockSize.kBSizeNone)
    (hstride : 0 < tf.vertexStride) :
    ∃ r, cfg.Compress tf level heap = some r ∧
      r.compressed.length = tf.fileData.length + 4 ∧
      r.outCompressedSize ≤ tf.fileData.length + 4 := by
  rw [Compress_chunked cfg tf level heap hb hstride]
  exact compressLoop_total cfg tf level _ _ _ 0 0 [] (newBuffer_length heap _) (by omega)
    (by omega)

/-- Witness for C2: a backend that always expands, in 64k blocks. -/
theorem Compress_chunked_size_le_witness :
    ∃ r, (CompressorConfig.mk headerCompressor none BlockSize.kBSize64k).Compress oneByte 0
        staleHeap = some r ∧
      r.compressed.length = oneByte.fileData.length + 4 ∧
      r.outCompressedSize ≤ oneByte.fileData.length + 4 :=
  Compress_chunked_size_le ⟨headerCompressor, none, BlockSize.kBSize64k⟩ oneByte 0 staleHeap
    (by decide) (by decide)

/-- C3 (amended): for any buffer of `count * stride` bytes, stride `≥ 1` and filter
presence, `Compress` returns a size of at most `N + 4` for every backend when a
block size is configured; with block size none the size is the backend's, so
the bound holds exactly when the backend's output for the whole buffer is at most
`N + 4` bytes long. -/
theorem Compress_size_le_iff (cfg : CompressorConfig) (tf : TestFile) (level : Int)
    (heap : Nat → Byte) (hstride : 0 < tf.vertexStride)
    (hsize : tf.fileData.length = tf.vertexCount * tf.vertexStride) :
    ∃ r, cfg.Compress tf level heap = some r ∧
      (r.outCompressedSize ≤ tf.fileData.length + 4 ↔
        (cfg.blockSizeEnum ≠ BlockSize.kBSizeNone ∨
          (cfg.cmp.Compress level
            (filtered cfg.filter tf.fileData tf.vertexStride tf.vertexCount)
            tf.vertexCount tf.vertexStride).length ≤ tf.fileData.length + 4)) := by
  by_cases hb : cfg.blockSizeEnum = BlockSize.kBSizeNone
  · refine ⟨_, Compress_whole cfg tf level heap hb hsize, ?_⟩
    simp [hb]
  · rw [Compress_chunked cfg tf level heap hb hstride]
    obtain ⟨r, hr, -, hle⟩ := compressLoop_total cfg tf level
      (effectiveBlockSize cfg.blockSizeEnum tf.vertexStride) (tf.fileData.length + 2)
      (newBuffer heap (tf.fileData.length + 4)) 0 0 [] (newBuffer_length heap _) (by omega)
      (by omega)
    exact ⟨r, hr, by simp [hb, hle]⟩

/-- Witness for C3. -/
theorem Compress_size_le_iff_witness :
    ∃ r, (CompressorConfig.mk headerCompressor none BlockSize.kBSizeNone).Compress oneByte 0
        staleHeap = some r ∧
      (r.outCompressedSize ≤ oneByte.fileData.length + 4 ↔
        (BlockSize.kBSizeNone ≠ BlockSize.kBSizeNone ∨
          (headerCompressor.Compress 0
            (filtered none oneByte.fileData oneByte.vertexStride oneByte.vertexCount)
            oneByte.vertexCount oneByte.vertexStride).length ≤ oneByte.fileData.length + 4)) :=
  Compress_size_le_iff ⟨headerCompressor, none, BlockSize.kBSizeNone⟩ oneByte 0 staleHeap
    (by decide) (by decide)

/-- Counterexample to C3 as stated: with block size none and a backend that puts
a five byte header in front of its input, one byte is encoded in six. -/
theorem Compress_size_le_counterexample :
    ((CompressorConfig.mk headerCompressor none BlockSize.kBSizeNone).Compress oneByte 0
        staleHeap).map (fun r => r.outCompressedSize) = some 6 ∧
      ¬ 6 ≤ oneByte.fileData.length + 4 :=
  ⟨by decide, by decide⟩

/-- C7: with block size none, `Compress` returns exactly the bytes and the size
of one backend `Compress` call on the whole buffer, filtered first when a filter
is configured and unmodified otherwise, with nothing put in front or behind. -/
theorem Compress_none (cfg : CompressorConfig) (tf : TestFile) (level : Int)
    (heap : Nat → Byte) (hb : cfg.blockSizeEnum = BlockSize.kBSizeNone)
    (hsize : tf.fileData.length = tf.vertexCount * tf.vertexStride) :
    ∃ r, cfg.Compress tf level heap = some r ∧
      r.compressed = cfg.cmp.Compress level
        (match cfg.filter with
          | some f => f.filterFunc tf.fileData tf.vertexStride tf.vertexCount
          | none => tf.fileData)
        tf.vertexCount tf.vertexStride ∧
      r.outCompressedSize = r.compressed.length ∧ r.fellBack = false := by
  refine ⟨_, Compress_whole cfg tf level heap hb hsize, ?_, rfl, rfl⟩
  cases cfg.filter <;> rfl

/-- Witness for C7: the zero-run backend behind the complementing filter. -/
theorem Compress_none_witness :
    ∃ r, (CompressorConfig.mk zeroRunCompressor (some complementFilter)
        BlockSize.kBSizeNone).Compress sixOnes 0 staleHeap = some r ∧
      r.compressed = zeroRunCompressor.Compress 0
        (complementFilter.filterFunc sixOnes.fileData sixOnes.vertexStride sixOnes.vertexCount)
        sixOnes.vertexCount sixOnes.vertexStride ∧
      r.outCompressedSize = r.compressed.length ∧ r.fellBack = false :=
  Compress_none ⟨zeroRunCompressor, some complementFilter, BlockSize.kBSizeNone⟩ sixOnes 0
    staleHeap rfl (by decide)

/-- C4 (amended): for every non-empty buffer of `N = count * stride` bytes
(stride `≥ 1`) and every configured block size, if the backend's output for every
block is at least as long as that block, and strictly longer than the buffer when
the whole buffer is a single block, then `Compress` returns exactly `N + 4` bytes,
the first 32-bit length of the output is 0 and the `N` bytes behind it are the
input. -/
theorem Compress_incompressible (cfg : CompressorConfig) (tf : TestFile) (level : Int)
    (heap : Nat → Byte) (hb : cfg.blockSizeEnum ≠ BlockSize.kBSizeNone)
    (hstride : 0 < tf.vertexStride)
    (hsize : tf.fileData.length = tf.vertexCount * tf.vertexStride)
    (hne : tf.fileData ≠ [])
    (hinc : ∀ k, k * effectiveBlockSize cfg.blockSizeEnum tf.vertexStride < tf.fileData.length →
      (blockBytes tf (effectiveBlockSize cfg.blockSizeEnum tf.vertexStride)
        (k * effectiveBlockSize cfg.blockSizeEnum tf.vertexStride)).length ≤
      thisCmpSizeAt cfg tf level (effectiveBlockSize cfg.blockSizeEnum tf.vertexStride) k)
    (hsingle : tf.fileData.length ≤ effectiveBlockSize cfg.blockSizeEnum tf.vertexStride →
      tf.fileData.length <
        thisCmpSizeAt cfg tf level (effectiveBlockSize cfg.blockSizeEnum tf.vertexStride) 0) :
    ∃ r, cfg.Compress tf level heap = some r ∧
      r.outCompressedSize = tf.fileData.length + 4 ∧
      readU32 r.compressed 0 = some 0 ∧
      r.compressed = u32Bytes 0 ++ tf.fileData := by
  have hN : tf.vertexStride ∣ tf.fileData.length := Dvd.intro_left _ hsize.symm
  have hs := effectiveBlockSize_dvd cfg.blockSizeEnum tf.vertexStride
  have hbuf := newBuffer_length heap (tf.fileData.length + 4)
  have hpos : 0 < tf.fileData.length := List.length_pos.mpr hne
  obtain ⟨r, hr, -, -⟩ := compressLoop_total cfg tf level
    (effectiveBlockSize cfg.blockSizeEnum tf.vertexStride) (tf.fileData.length + 2)
    (newBuffer heap (tf.fileData.length + 4)) 0 0 [] hbuf (by omega) (by omega)
  have hfb : r.fellBack = true := by
    by_cases hf : 0 + (blockCompressed cfg tf level
        (effectiveBlockSize cfg.blockSizeEnum tf.vertexStride) 0).length > tf.fileData.length
    · have hr2 := hr
      rw [compressLoop_fallback cfg tf level _ _ _ 0 0 [] hpos hbuf hf] at hr2
      cases hr2
      rfl
    · obtain ⟨c1, -, hl, -, -, -, heq⟩ :=
        compressLoop_continue cfg tf level _ (tf.fileData.length + 1) _ 0 0 [] hpos hbuf hf
      have hr2 := hr
      rw [heq] at hr2
      have h0 := hinc 0 (by simpa using hpos)
      have hsg := hsingle
      simp only [thisCmpSizeAt, Nat.zero_mul] at h0 hsg
      have hlen : (blockBytes tf (effectiveBlockSize cfg.blockSizeEnum tf.vertexStride) 0).length
          = min (effectiveBlockSize cfg.blockSizeEnum tf.vertexStride) (tf.fileData.length - 0) := by
        unfold blockBytes
        rw [whole_records hs hN (dvd_zero _)]
        simp
      rw [hlen] at h0
      have hlt : effectiveBlockSize cfg.blockSizeEnum tf.vertexStride < tf.fileData.length := by
        by_contra hcon
        have := hsg (by omega)
        omega
      have e1 : 0 + effectiveBlockSize cfg.blockSizeEnum tf.vertexStride =
          1 * effectiveBlockSize cfg.blockSizeEnum tf.vertexStride := by omega
      rw [e1] at hr2
      exact compressLoop_incompressible cfg tf level _ hs hN
        (fun k hk => by have := hinc k hk; simpa only [thisCmpSizeAt] using this)
        _ c1 1 _ _ r (by omega) (by omega) (by omega) hr2
  obtain ⟨h1, h2⟩ := compressLoop_fellBack cfg tf level _ _ _ _ _ _ r hbuf hr hfb
  refine ⟨r, by rw [Compress_chunked cfg tf level heap hb hstride, hr], h2, ?_, h1⟩
  rw [h1]
  simp [readU32, readBytes, u32Bytes, bytesToNat, toByte]

/-- Witness for C4: a backend that puts five bytes in front of every block. -/
theorem Compress_incompressible_witness :
    ∃ r, (CompressorConfig.mk headerCompressor none BlockSize.kBSize64k).Compress sixOnes 0
        staleHeap = some r ∧
      r.outCompressedSize = sixOnes.fileData.length + 4 ∧
      readU32 r.compressed 0 = some 0 ∧
      r.compressed = u32Bytes 0 ++ sixOnes.fileData :=
  Compress_incompressible ⟨headerCompressor, none, BlockSize.kBSize64k⟩ sixOnes 0 staleHeap
    (by decide) (by decide) (by decide) (by decide)
    (fun k _ => by
      simp only [thisCmpSizeAt, blockCompressed, headerCompressor, filtered, List.length_append]
      omega)
    (fun _ => by decide)

/-- Counterexample to C4 as stated, with a backend whose output is exactly as
long as its input: with block size none one byte is encoded in one byte, not
five; in 64k blocks it is encoded in five bytes whose first length is 1, not 0. -/
theorem Compress_incompressible_counterexample :
    (∀ (level : Int) (src : List Byte) (count stride : Nat),
        src.length ≤ (storeCompressor.Compress level src count stride).length) ∧
      oneByte.fileData ≠ [] ∧
      ((CompressorConfig.mk storeCompressor none BlockSize.kBSizeNone).Compress oneByte 0
        staleHeap).map (fun r => r.outCompressedSize) = some 1 ∧
      ((CompressorConfig.mk storeCompressor none BlockSize.kBSize64k).Compress oneByte 0
        staleHeap).map (fun r => (r.outCompressedSize, readU32 r.compressed 0)) =
        some (5, some 1) :=
  ⟨fun _ _ _ _ => le_refl _, (by decide), (by decide), (by decide)⟩

/-- C5 (amended): in chunked mode `Compress` abandons chunked compression and
emits the raw fallback (zero length followed by the `N` original bytes, size
`N + 4`) if and only if at some block the output so far plus that block's
compressed bytes, not counting that block's own 4-byte length, exceeds `N`;
consequently whenever no fallback occurs the framed output size is at most
`N + 4`. -/
theorem Compress_fellBack_iff (cfg : CompressorConfig) (tf : TestFile) (level : Int)
    (heap : Nat → Byte) (hb : cfg.blockSizeEnum ≠ BlockSize.kBSizeNone)
    (hstride : 0 < tf.vertexStride) :
    ∃ r, cfg.Compress tf level heap = some r ∧
      (r.fellBack = true ↔
        ∃ k, k * effectiveBlockSize cfg.blockSizeEnum tf.vertexStride < tf.fileData.length ∧
          cmpOffsetAt cfg tf level (effectiveBlockSize cfg.blockSizeEnum tf.vertexStride) k +
            thisCmpSizeAt cfg tf level (effectiveBlockSize cfg.blockSizeEnum tf.vertexStride) k >
              tf.fileData.length) ∧
      (r.fellBack = true →
        r.compressed = u32Bytes 0 ++ tf.fileData ∧
          r.outCompressedSize = tf.fileData.length + 4) ∧
      (r.fellBack = false → r.outCompressedSize ≤ tf.fileData.length + 4) := by
  have hbuf := newBuffer_length heap (tf.fileData.length + 4)
  obtain ⟨r, hr, -, hle⟩ := compressLoop_total cfg tf level
    (effectiveBlockSize cfg.blockSizeEnum tf.vertexStride) (tf.fileData.length + 2)
    (newBuffer heap (tf.fileData.length + 4)) 0 0 [] hbuf (by omega) (by omega)
  refine ⟨r, by rw [Compress_chunked cfg tf level heap hb hstride, hr], ?_,
    compressLoop_fellBack cfg tf level _ _ _ _ _ _ r hbuf hr, fun _ => hle⟩
  have hr2 : compressLoop cfg tf level (effectiveBlockSize cfg.blockSizeEnum tf.vertexStride)
      (tf.fileData.length + 2) (newBuffer heap (tf.fileData.length + 4))
      (0 * effectiveBlockSize cfg.blockSizeEnum tf.vertexStride)
      (cmpOffsetAt cfg tf level (effectiveBlockSize cfg.blockSizeEnum tf.vertexStride) 0) [] =
      some r := by
    rw [Nat.zero_mul]
    exact hr
  rw [compressLoop_fellBack_iff cfg tf level _ _ _ 0 [] r hbuf hr2]
  constructor
  · rintro ⟨j, -, h1, h2⟩
    exact ⟨j, h1, h2⟩
  · rintro ⟨j, h1, h2⟩
    exact ⟨j, Nat.zero_le _, h1, h2⟩

/-- Witness for C5. -/
theorem Compress_fellBack_iff_witness :
    ∃ r, (CompressorConfig.mk zeroRunCompressor none BlockSize.kBSize64k).Compress sixZeros 0
        staleHeap = some r ∧
      (r.fellBack = true ↔
        ∃ k, k * effectiveBlockSize BlockSize.kBSize64k sixZeros.vertexStride <
            sixZeros.fileData.length ∧
          cmpOffsetAt ⟨zeroRunCompressor, none, BlockSize.kBSize64k⟩ sixZeros 0
              (effectiveBlockSize BlockSize.kBSize64k sixZeros.vertexStride) k +
            thisCmpSizeAt ⟨zeroRunCompressor, none, BlockSize.kBSize64k⟩ sixZeros 0
              (effectiveBlockSize BlockSize.kBSize64k sixZeros.vertexStride) k >
              sixZeros.fileData.length) ∧
      (r.fellBack = true →
        r.compressed = u32Bytes 0 ++ sixZeros.fileData ∧
          r.outCompressedSize = sixZeros.fileData.length + 4) ∧
      (r.fellBack = false → r.outCompressedSize ≤ sixZeros.fileData.length + 4) :=
  Compress_fellBack_iff ⟨zeroRunCompressor, none, BlockSize.kBSize64k⟩ sixZeros 0 staleHeap
    (by decide) (by decide)

/-- Counterexample to C5 as stated: one byte, stored unchanged by the backend, in
64k blocks.  The framed output through block 0 (length and byte, 5 bytes) exceeds
`N = 1`, yet `Compress` does not fall back, and the size it returns without
falling back, 5, is larger than `N`. -/
theorem Compress_fellBack_counterexample :
    0 * effectiveBlockSize BlockSize.kBSize64k oneByte.vertexStride < oneByte.fileData.length ∧
      cmpOffsetAt ⟨storeCompressor, none, BlockSize.kBSize64k⟩ oneByte 0
        (effectiveBlockSize BlockSize.kBSize64k oneByte.vertexStride) (0 + 1) >
        oneByte.fileData.length ∧
      ((CompressorConfig.mk storeCompressor none BlockSize.kBSize64k).Compress oneByte 0
        staleHeap).map (fun r => (r.fellBack, r.outCompressedSize)) = some (false, 5) ∧
      ¬ 5 ≤ oneByte.fileData.length :=
  ⟨(by decide), (by decide), (by decide), (by decide)⟩

/-- C6 (amended): for every configured block size `B` and stride `s ≥ 1` the
effective block size used by `Compress` and `Decompress` is the greatest multiple
of `s` that is `≤ B`.  When `s ≤ B`, for a buffer of `count * s` bytes the walk in
blocks of that size consists of blocks of a positive whole number of records,
each starting where the blocks before it end, only the last possibly shorter,
and the per-block record counts sum to `count`; the blocks `Compress` hands to the
filter and the backend are this walk, cut short where it falls back, and when it
does not fall back `Decompress` (under the assumptions of the round trip) is
handed the same blocks. -/
theorem block_rounding (cfg : CompressorConfig) (tf : TestFile) (level : Int)
    (heap : Nat → Byte) (dst : List Byte) (hb : cfg.blockSizeEnum ≠ BlockSize.kBSizeNone)
    (hstride : 0 < tf.vertexStride)
    (hsize : tf.fileData.length = tf.vertexCount * tf.vertexStride) :
    (tf.vertexStride ∣ effectiveBlockSize cfg.blockSizeEnum tf.vertexStride ∧
      effectiveBlockSize cfg.blockSizeEnum tf.vertexStride ≤
        kBlockSizeToActualSize cfg.blockSizeEnum ∧
      ∀ m, tf.vertexStride ∣ m → m ≤ kBlockSizeToActualSize cfg.blockSizeEnum →
        m ≤ effectiveBlockSize cfg.blockSizeEnum tf.vertexStride) ∧
    (tf.vertexStride ≤ kBlockSizeToActualSize cfg.blockSizeEnum →
      (∃ r, cfg.Compress tf level heap = some r ∧
        r.blocks = (blockPartition tf.fileData.length
          (effectiveBlockSize cfg.blockSizeEnum tf.vertexStride)).take r.blocks.length ∧
        (r.fellBack = false →
          r.blocks = blockPartition tf.fileData.length
            (effectiveBlockSize cfg.blockSizeEnum tf.vertexStride) ∧
          (cfg.cmp.Inverts → cfg.FilterInverts → cfg.SizesStorable tf level →
            tf.fileData.length ≤ dst.length →
            ∃ d, cfg.Decompress tf r.compressed r.outCompressedSize dst = some d ∧
              d.blocks = blockPartition tf.fileData.length
                (effectiveBlockSize cfg.blockSizeEnum tf.vertexStride)))) ∧
      (∀ b ∈ blockPartition tf.fileData.length
          (effectiveBlockSize cfg.blockSizeEnum tf.vertexStride),
        0 < b.2 ∧ tf.vertexStride ∣ b.2) ∧
      (∀ (i : Nat) (h : i < (blockPartition tf.fileData.length
          (effectiveBlockSize cfg.blockSizeEnum tf.vertexStride)).length),
        (blockPartition tf.fileData.length
          (effectiveBlockSize cfg.blockSizeEnum tf.vertexStride))[i].1 =
        (((blockPartition tf.fileData.length
          (effectiveBlockSize cfg.blockSizeEnum tf.vertexStride)).take i).map Prod.snd).sum ∧
        (i + 1 < (blockPartition tf.fileData.length
          (effectiveBlockSize cfg.blockSizeEnum tf.vertexStride)).length →
          (blockPartition tf.fileData.length
            (effectiveBlockSize cfg.blockSizeEnum tf.vertexStride))[i].2 =
          effectiveBlockSize cfg.blockSizeEnum tf.vertexStride)) ∧
      ((blockPartition tf.fileData.length
          (effectiveBlockSize cfg.blockSizeEnum tf.vertexStride)).map
        (fun b => b.2 / tf.vertexStride)).sum = tf.vertexCount) := by
  have hs := effectiveBlockSize_dvd cfg.blockSizeEnum tf.vertexStride
  have hN : tf.vertexStride ∣ tf.fileData.length := Dvd.intro_left _ hsize.symm
  refine ⟨⟨hs, effectiveBlockSize_le _ _,
      effectiveBlockSize_greatest cfg.blockSizeEnum tf.vertexStride hstride⟩, fun hle => ?_⟩
  have hbs := effectiveBlockSize_pos cfg.blockSizeEnum tf.vertexStride hstride hle
  refine ⟨?_, blockPartition_whole hbs hs hN,
    fun i h => ⟨blockPartition_consecutive hbs i h, blockPartition_full hbs i h⟩, ?_⟩
  · obtain ⟨r, hr, hpre, hall⟩ := Compress_blocks cfg tf level heap hb hstride hbs
    refine ⟨r, hr, hpre, fun hfb => ⟨hall hfb, fun hinv hfilt hstor hdst => ?_⟩⟩
    obtain ⟨r', d, h1, h2, -, h3⟩ :=
      Decompress_Compress_chunked cfg tf level heap dst hb hstride hsize hinv hfilt hstor hdst
    rw [hr] at h1
    cases h1
    exact ⟨d, h2, by rw [h3 hfb, hall hfb]⟩
  · rw [hsize]
    exact blockPartition_counts hstride hbs hs

/-- Witness for C6: three two-byte records in 64k blocks. -/
theorem block_rounding_witness :
    effectiveBlockSize BlockSize.kBSize64k sixZeros.vertexStride = 65536 ∧
      sixZeros.vertexStride ≤ kBlockSizeToActualSize BlockSize.kBSize64k ∧
      blockPartition sixZeros.fileData.length 65536 = [(0, 6)] ∧
      ((blockPartition sixZeros.fileData.length
          (effectiveBlockSize BlockSize.kBSize64k sixZeros.vertexStride)).map
        (fun b => b.2 / sixZeros.vertexStride)).sum = sixZeros.vertexCount :=
  ⟨(by decide), (by decide), (by decide),
    ((block_rounding ⟨zeroRunCompressor, none, BlockSize.kBSize64k⟩ sixZeros 0 staleHeap
      (List.replicate 6 0) (by decide) (by decide) (by decide)).2 (by decide)).2.2.2⟩

/-- Counterexample to C6 as stated: one record of 65537 bytes in 64k blocks.  The
effective block size is 0, every block `Compress` hands to the backend holds no
record, and the per-block record counts sum to 0, not to the record count 1. -/
theorem block_rounding_counterexample :
    0 < wideRecord.vertexStride ∧
      wideRecord.fileData.length = wideRecord.vertexCount * wideRecord.vertexStride ∧
      effectiveBlockSize BlockSize.kBSize64k wideRecord.vertexStride = 0 ∧
      wideRecord.vertexCount = 1 ∧
      ∃ r, (CompressorConfig.mk storeCompressor none BlockSize.kBSize64k).Compress wideRecord 0
          staleHeap = some r ∧
        (r.blocks.map (fun b => b.2 / wideRecord.vertexStride)).sum = 0 := by
  refine ⟨(by decide), List.length_replicate _ _, (by decide), rfl, ?_⟩
  obtain ⟨r, hr, hall⟩ := Compress_blocks_zero ⟨storeCompressor, none, BlockSize.kBSize64k⟩
    wideRecord 0 staleHeap (by decide) (by decide) (by decide)
  refine ⟨r, hr, ?_⟩
  apply List.sum_eq_zero
  intro x hx
  simp only [List.mem_map] at hx
  obtain ⟨b, hbmem, rfl⟩ := hx
  rw [hall b hbmem]
  simp

/-! ## Morton keys -/

theorem bits_mask0 : ∀ j < 64, Nat.testBit 0x1fffff j = decide (j < 21) := by decide

theorem bits_mask1 : ∀ j < 64, Nat.testBit 0x1f00000000ffff j =
    decide (j < 16 ∨ (48 ≤ j ∧ j < 53)) := by decide

theorem bits_mask2 : ∀ j < 64, Nat.testBit 0x1f0000ff0000ff j =
    decide (j % 24 < 8 ∧ j < 53) := by decide

theorem bits_mask3 : ∀ j < 64, Nat.testBit 0x100f00f00f00f00f j =
    decide (j % 12 < 4 ∧ j < 61) := by decide

theorem bits_mask4 : ∀ j < 64, Nat.testBit 0x10c30c30c30c30c3 j =
    decide (j % 6 < 2 ∧ j < 61) := by decide

theorem bits_mask5 : ∀ j < 64, Nat.testBit 0x1249249249249249 j =
    decide (j % 3 = 0 ∧ j < 61) := by decide

set_option maxHeartbeats 1000000 in
theorem MortonPart1By2_testBit_lt (x j : Nat) (hj : j < 64) :
    (MortonPart1By2 x).testBit j = (decide (j % 3 = 0 ∧ j < 63) && x.testBit (j / 3)) := by
  simp only [MortonPart1By2, Nat.testBit_and, Nat.testBit_xor, Nat.testBit_shiftLeft,
    Nat.testBit_mod_two_pow]
  interval_cases j <;>
    simp [bits_mask0, bits_mask1, bits_mask2, bits_mask3, bits_mask4, bits_mask5]

theorem MortonPart1By2_lt (x : Nat) : MortonPart1By2 x < 2 ^ 61 :=
  Nat.lt_of_le_of_lt Nat.and_le_right (by decide)

/-- The function `MortonPart1By2` puts bit `i` of `x`, for `i < 21`, at bit `3 * i` and leaves
every other bit zero. -/
theorem MortonPart1By2_testBit (x j : Nat) :
    (MortonPart1By2 x).testBit j = (decide (j % 3 = 0 ∧ j < 63) && x.testBit (j / 3)) := by
  by_cases hj : j < 64
  · exact MortonPart1By2_testBit_lt x j hj
  · have h1 : (MortonPart1By2 x).testBit j = false :=
      Nat.testBit_lt_two_pow (Nat.lt_of_lt_of_le (MortonPart1By2_lt x)
        (Nat.pow_le_pow_right (by decide) (by omega)))
    have h2 : ¬ (j % 3 = 0 ∧ j < 63) := by omega
    simp [h1, h2]

/-- The bits of a spread value after the shift by one or two places. -/
theorem spread_shift_testBit (v j s : Nat) (hs : s = 1 ∨ s = 2) :
    (decide (j < 64) && (decide (j ≥ s) &&
        (decide ((j - s) % 3 = 0 ∧ j - s < 63) && v.testBit ((j - s) / 3)))) =
      (decide (j < 63) && (decide (j % 3 = s) && v.testBit (j / 3))) := by
  rw [Bool.eq_iff_iff]
  simp only [Bool.and_eq_true, decide_eq_true_eq]
  constructor
  · rintro ⟨h1, h2, ⟨h3, h4⟩, h5⟩
    have : (j - s) / 3 = j / 3 := by omega
    rw [this] at h5
    exact ⟨by omega, by omega, h5⟩
  · rintro ⟨h1, h2, h3⟩
    have : (j - s) / 3 = j / 3 := by omega
    rw [this]
    exact ⟨by omega, by omega, ⟨by omega, by omega⟩, h3⟩

theorem MortonEncode3_testBit (x y z j : Nat) :
    (MortonEncode3 x y z).testBit j =
      (decide (j < 63) && (decide (j % 3 = 2) && z.testBit (j / 3)) ||
        decide (j < 63) && (decide (j % 3 = 1) && y.testBit (j / 3)) ||
        decide (j < 63) && (decide (j % 3 = 0) && x.testBit (j / 3))) := by
  rw [MortonEncode3, Nat.testBit_or, Nat.testBit_or, Nat.testBit_mod_two_pow,
    Nat.testBit_mod_two_pow, Nat.testBit_shiftLeft, Nat.testBit_shiftLeft,
    MortonPart1By2_testBit, MortonPart1By2_testBit, MortonPart1By2_testBit,
    spread_shift_testBit z j 2 (Or.inr rfl), spread_shift_testBit y j 1 (Or.inl rfl)]
  congr 1
  rw [Bool.eq_iff_iff]
  simp only [Bool.and_eq_true, decide_eq_true_eq]
  constructor
  · rintro ⟨⟨h1, h2⟩, h3⟩
    exact ⟨h2, h1, h3⟩
  · rintro ⟨h1, h2, h3⟩
    exact ⟨⟨h2, h1⟩, h3⟩

/-- The keys of the unit steps along the three axes and of the far corner. -/
theorem MortonEncode3_samples :
    MortonEncode3 1 0 0 = 1 ∧ MortonEncode3 0 1 0 = 2 ∧ MortonEncode3 0 0 1 = 4 ∧
      MortonEncode3 2 0 0 = 8 ∧ MortonEncode3 3 5 6 = 427 ∧
      MortonEncode3 2097151 2097151 2097151 = 9223372036854775807 ∧
      MortonEncode3 2097152 0 0 = 0 := by
  decide

/-- C8: for all inputs `x`, `y`, `z`, `MortonEncode3 x y z` is the 64-bit key whose
bit `3i` is bit `i` of `x`, bit `3i + 1` bit `i` of `y` and bit `3i + 2` bit `i` of
`z` for every `i` in `0..20`, and whose bit 63 is 0; the bits of `x`, `y`, `z` above
bit 20 do not affect the result, since `MortonPart1By2` keeps the 21 low bits and
puts two zero bits between them. -/
theorem MortonEncode3_layout (x y z : Nat) :
    (∀ i, i < 21 →
      (MortonEncode3 x y z).testBit (3 * i) = x.testBit i ∧
      (MortonEncode3 x y z).testBit (3 * i + 1) = y.testBit i ∧
      (MortonEncode3 x y z).testBit (3 * i + 2) = z.testBit i) ∧
    (MortonEncode3 x y z).testBit 63 = false ∧
    MortonEncode3 x y z < 2 ^ 64 ∧
    MortonEncode3 x y z = MortonEncode3 (x % 2 ^ 21) (y % 2 ^ 21) (z % 2 ^ 21) ∧
    (∀ j, (MortonPart1By2 x).testBit j =
      (decide (j % 3 = 0 ∧ j < 63) && x.testBit (j / 3))) := by
  refine ⟨fun i hi => ⟨?_, ?_, ?_⟩, ?_, ?_, ?_, MortonPart1By2_testBit x⟩
  · have h1 : 3 * i % 3 = 0 := by omega
    have h2 : 3 * i / 3 = i := by omega
    have h3 : 3 * i < 63 := by omega
    rw [MortonEncode3_testBit]
    simp [h1, h2, h3]
  · have h1 : (3 * i + 1) % 3 = 1 := by omega
    have h2 : (3 * i + 1) / 3 = i := by omega
    have h3 : 3 * i + 1 < 63 := by omega
    rw [MortonEncode3_testBit]
    simp [h1, h2, h3]
  · have h1 : (3 * i + 2) % 3 = 2 := by omega
    have h2 : (3 * i + 2) / 3 = i := by omega
    have h3 : 3 * i + 2 < 63 := by omega
    rw [MortonEncode3_testBit]
    simp [h1, h2, h3]
  · rw [MortonEncode3_testBit]
    simp
  · apply Nat.lt_pow_two_of_testBit
    intro i hi
    have h : ¬ i < 63 := by omega
    rw [MortonEncode3_testBit]
    simp [h]
  · apply Nat.eq_of_testBit_eq
    intro j
    rw [MortonEncode3_testBit, MortonEncode3_testBit, Nat.testBit_mod_two_pow,
      Nat.testBit_mod_two_pow, Nat.testBit_mod_two_pow]
    by_cases h : j < 63
    · have h1 : j / 3 < 21 := by omega
      simp [h, h1]
    · simp [h]

/-! ## The sort of the spatial reorderer -/

theorem remapLess_iff (a b : Nat × Nat) :
    remapLess a b = true ↔ a.1 < b.1 ∨ (a.1 = b.1 ∧ a.2 < b.2) := by
  unfold remapLess
  by_cases h : a.1 = b.1
  · simp [h]
  · simp [h]

/-- The comparator is false on `(b, a)` exactly when `a` may stand before `b` in a
sorted range. -/
theorem remapLess_false_iff (a b : Nat × Nat) :
    remapLess b a = false ↔ a.1 < b.1 ∨ (a.1 = b.1 ∧ a.2 ≤ b.2) := by
  rw [← Bool.not_eq_true, remapLess_iff]
  omega

/-- The comparator is a strict total order on the pairs, as `std::sort` requires:
irreflexive, transitive, and deciding every two distinct pairs. -/
theorem remapLess_strict_total :
    (∀ a, remapLess a a = false) ∧
    (∀ a b c, remapLess a b = true → remapLess b c = true → remapLess a c = true) ∧
    (∀ a b, a ≠ b → remapLess a b = true ∨ remapLess b a = true) := by
  refine ⟨fun a => ?_, fun a b c hab hbc => ?_, fun a b hne => ?_⟩
  · rw [remapLess_false_iff]
    omega
  · rw [remapLess_iff] at hab hbc ⊢
    omega
  · rw [remapLess_iff, remapLess_iff]
    by_contra hcon
    exact hne (Prod.ext (by omega) (by omega))

theorem orderedInsert_perm {α : Type} (less : α → α → Bool) (a : α) :
    ∀ l : List α, (orderedInsert less a l).Perm (a :: l) := by
  intro l
  induction l with
  | nil => exact List.Perm.refl _
  | cons b l ih =>
    unfold orderedInsert
    split
    · exact List.Perm.refl _
    · exact (List.Perm.cons b ih).trans (List.Perm.swap a b l)

theorem stdSort_perm {α : Type} (less : α → α → Bool) :
    ∀ l : List α, (stdSort less l).Perm l := by
  intro l
  induction l with
  | nil => exact List.Perm.refl _
  | cons a l ih =>
    unfold stdSort
    exact (orderedInsert_perm less a _).trans (List.Perm.cons a ih)

theorem orderedInsert_sorted (a : Nat × Nat) : ∀ l : List (Nat × Nat),
    l.Pairwise (fun x y => remapLess y x = false) →
    (orderedInsert remapLess a l).Pairwise (fun x y => remapLess y x = false) := by
  intro l
  induction l with
  | nil => intro _; simp [orderedInsert]
  | cons b l ih =>
    intro hl
    obtain ⟨hb, hl'⟩ := List.pairwise_cons.mp hl
    unfold orderedInsert
    split
    · rename_i hab
      rw [remapLess_iff] at hab
      refine List.pairwise_cons.mpr ⟨fun x hx => ?_, hl⟩
      rw [remapLess_false_iff]
      rcases List.mem_cons.mp hx with rfl | hx
      · omega
      · have := (remapLess_false_iff b x).mp (hb x hx)
        omega
    · rename_i hab
      have hab' : remapLess a b = false := by simpa using hab
      refine List.pairwise_cons.mpr ⟨fun x hx => ?_, ih hl'⟩
      rcases List.mem_cons.mp ((orderedInsert_perm remapLess a l).mem_iff.mp hx) with rfl | hx
      · exact hab'
      · exact hb x hx

theorem stdSort_sorted : ∀ l : List (Nat × Nat),
    (stdSort remapLess l).Pairwise (fun x y => remapLess y x = false) := by
  intro l
  induction l with
  | nil => simp [stdSort]
  | cons a l ih =>
    unfold stdSort
    exact orderedInsert_sorted a _ ih

/-- Two sorted arrangements of the same pairs are equal: what `std::sort` returns
does not depend on how it sorts. -/
theorem sorted_remap_unique (l₁ l₂ : List (Nat × Nat)) (hp : l₁.Perm l₂)
    (h₁ : l₁.Pairwise (fun x y => remapLess y x = false))
    (h₂ : l₂.Pairwise (fun x y => remapLess y x = false)) : l₁ = l₂ := by
  have : IsAntisymm (Nat × Nat) (fun x y => remapLess y x = false) :=
    ⟨fun a b hab hba => by
      rw [remapLess_false_iff] at hab hba
      exact Prod.ext (by omega) (by omega)⟩
  exact List.eq_of_perm_of_sorted hp h₁ h₂

theorem initialRemap_snd (vertexCount : Nat) (code : Nat → Nat) :
    (initialRemap vertexCount code).map Prod.snd = List.range vertexCount := by
  simp [initialRemap, Function.comp_def]

theorem initialRemap_nodup (vertexCount : Nat) (code : Nat → Nat) :
    (initialRemap vertexCount code).Nodup := by
  have h := List.nodup_range vertexCount
  rw [← initialRemap_snd vertexCount code] at h
  exact List.Nodup.of_map _ h

/-- The sorted `remap` array: a permutation of the pairs `(code i, i)`, strictly
ascending by key and then index. -/
theorem sortedRemap_spec (vertexCount : Nat) (code : Nat → Nat) :
    (stdSort remapLess (initialRemap vertexCount code)).Perm (initialRemap vertexCount code) ∧
    (stdSort remapLess (initialRemap vertexCount code)).Pairwise
      (fun a b => a.1 < b.1 ∨ (a.1 = b.1 ∧ a.2 < b.2)) ∧
    ((stdSort remapLess (initialRemap vertexCount code)).map Prod.snd).Perm
      (List.range vertexCount) ∧
    (stdSort remapLess (initialRemap vertexCount code)).length = vertexCount := by
  have hperm := stdSort_perm remapLess (initialRemap vertexCount code)
  have hnodup := (hperm.nodup_iff).mpr (initialRemap_nodup vertexCount code)
  refine ⟨hperm, ?_, ?_, ?_⟩
  · refine List.Pairwise.imp ?_ ((stdSort_sorted _).and hnodup)
    rintro a b ⟨h1, h2⟩
    rw [remapLess_false_iff] at h1
    rcases h1 with h | ⟨h, h'⟩
    · exact Or.inl h
    · refine Or.inr ⟨h, ?_⟩
      rcases Nat.eq_or_lt_of_le h' with h3 | h3
      · exact absurd (Prod.ext h h3) h2
      · exact h3
  · rw [← initialRemap_snd vertexCount code]
    exact hperm.map _
  · rw [hperm.length_eq]
    simp [initialRemap]

/-! ## The copy loops of the spatial reorderer -/

/-- The byte copy loop: where it stores, and that it stores nowhere else. -/
theorem copyRecord_spec (src : List Byte) : ∀ (n : Nat) (dst : List Byte) (srcIdx dstIdx : Nat),
    srcIdx + n ≤ src.length → dstIdx + n ≤ dst.length →
    ∃ out, copyRecord src n dst srcIdx dstIdx = some out ∧ out.length = dst.length ∧
      (∀ j, j < n → out[dstIdx + j]? = src[srcIdx + j]?) ∧
      (∀ p, p < dstIdx ∨ dstIdx + n ≤ p → out[p]? = dst[p]?) := by
  intro n
  induction n with
  | zero =>
    intro dst srcIdx dstIdx _ _
    exact ⟨dst, rfl, rfl, fun j hj => by omega, fun p _ => rfl⟩
  | succ n ih =>
    intro dst srcIdx dstIdx hs hd
    have hsrc : src[srcIdx]? = some src[srcIdx] := List.getElem?_eq_getElem (by omega)
    obtain ⟨out, ho, hlen, hcopy, hframe⟩ := ih (dst.set dstIdx src[srcIdx]) (srcIdx + 1)
      (dstIdx + 1) (by omega) (by rw [List.length_set]; omega)
    refine ⟨out, ?_, by rw [hlen, List.length_set], fun j hj => ?_, fun p hp => ?_⟩
    · simp only [copyRecord, hsrc]
      rw [if_pos (by omega)]
      exact ho
    · rcases Nat.eq_zero_or_pos j with rfl | hpos
      · rw [Nat.add_zero, Nat.add_zero, hframe dstIdx (Or.inl (by omega)), hsrc,
          List.getElem?_set_self (by omega)]
      · have e1 : dstIdx + j = dstIdx + 1 + (j - 1) := by omega
        have e2 : srcIdx + j = srcIdx + 1 + (j - 1) := by omega
        rw [e1, e2]
        exact hcopy (j - 1) (by omega)
    · rw [hframe p (by omega), List.getElem?_set_ne (by omega)]

/-- Distinct records do not overlap. -/
theorem record_disjoint {r e stride j : Nat} (hne : r ≠ e) (hj : j < stride) :
    r * stride + j < e * stride ∨ e * stride + stride ≤ r * stride + j := by
  rcases Nat.lt_or_gt_of_ne hne with h | h
  · left
    have := Nat.mul_le_mul_right stride (Nat.succ_le_of_lt h)
    rw [Nat.succ_mul] at this
    omega
  · right
    have := Nat.mul_le_mul_right stride (Nat.succ_le_of_lt h)
    rw [Nat.succ_mul] at this
    omega

theorem record_fits {r n stride : Nat} (h : r < n) : r * stride + stride ≤ n * stride := by
  have := Nat.mul_le_mul_right stride (Nat.succ_le_of_lt h)
  rw [Nat.succ_mul] at this
  exact this

/-- The reorder loop stores record `remap[k].second` of the input as record `k`. -/
theorem reorderLoop_spec (fileData : List Byte) (stride : Nat) :
    ∀ (remap : List (Nat × Nat)) (dst : List Byte) (idx : Nat),
    (∀ e ∈ remap, e.2 * stride + stride ≤ fileData.length) →
    idx + remap.length * stride ≤ dst.length →
    ∃ out, reorderLoop fileData stride remap dst idx = some out ∧ out.length = dst.length ∧
      (∀ (k : Nat) (hk : k < remap.length) (j : Nat), j < stride →
        out[idx + k * stride + j]? = fileData[remap[k].2 * stride + j]?) ∧
      (∀ p, p < idx → out[p]? = dst[p]?) := by
  intro remap
  induction remap with
  | nil =>
    intro dst idx _ _
    exact ⟨dst, rfl, rfl, fun k hk => by simp at hk, fun p _ => rfl⟩
  | cons e rest ih =>
    intro dst idx hin hfit
    have hlen : (e :: rest).length * stride = rest.length * stride + stride := by
      rw [List.length_cons, Nat.succ_mul]
    obtain ⟨dst1, hc, hl1, hcopy, hframe⟩ := copyRecord_spec fileData stride dst
      (e.2 * stride) idx (hin e (List.mem_cons_self _ _)) (by omega)
    obtain ⟨out, ho, hl, hrec, hfr⟩ := ih dst1 (idx + stride)
      (fun x hx => hin x (List.mem_cons_of_mem _ hx)) (by omega)
    refine ⟨out, by simp only [reorderLoop, hc, ho], by omega, fun k hk j hj => ?_,
      fun p hp => ?_⟩
    · cases k with
      | zero =>
        rw [Nat.zero_mul, Nat.add_zero, hfr (idx + j) (by omega)]
        exact hcopy j hj
      | succ k =>
        have e1 : idx + (k + 1) * stride + j = idx + stride + k * stride + j := by
          rw [Nat.succ_mul]; omega
        rw [e1]
        exact hrec k (by simpa using hk) j hj
    · rw [hfr p (by omega), hframe p (Or.inl hp)]

/-- The check loop stores record `i + k` of `dst` as record `entries[k].second`,
and leaves the records no entry names untouched. -/
theorem checkLoop_spec (dst : List Byte) (stride : Nat) :
    ∀ (entries : List (Nat × Nat)) (check : List Byte) (i : Nat),
    (∀ e ∈ entries, e.2 * stride + stride ≤ check.length) →
    (i + entries.length) * stride ≤ dst.length →
    (entries.map Prod.snd).Nodup →
    ∃ out, checkLoop dst stride entries check i = some out ∧ out.length = check.length ∧
      (∀ (k : Nat) (hk : k < entries.length) (j : Nat), j < stride →
        out[entries[k].2 * stride + j]? = dst[(i + k) * stride + j]?) ∧
      (∀ r, r ∉ entries.map Prod.snd → ∀ j, j < stride →
        out[r * stride + j]? = check[r * stride + j]?) := by
  intro entries
  induction entries with
  | nil =>
    intro check i _ _ _
    exact ⟨check, rfl, rfl, fun k hk => by simp at hk, fun r _ j _ => rfl⟩
  | cons e rest ih =>
    intro check i hin hfit hnd
    rw [List.map_cons, List.nodup_cons] at hnd
    obtain ⟨hnot, hnd'⟩ := hnd
    have hfit1 : i * stride + stride ≤ dst.length := by
      have := Nat.mul_le_mul_right stride
        (show i + 1 ≤ i + (e :: rest).length by simp)
      rw [Nat.succ_mul] at this
      omega
    obtain ⟨check1, hc, hl1, hcopy, hframe⟩ := copyRecord_spec dst stride check
      (i * stride) (e.2 * stride) hfit1 (hin e (List.mem_cons_self _ _))
    obtain ⟨out, ho, hl, hA, hB⟩ := ih check1 (i + 1)
      (fun x hx => by rw [hl1]; exact hin x (List.mem_cons_of_mem _ hx))
      (by rw [show i + 1 + rest.length = i + (e :: rest).length by simp; omega]; exact hfit)
      hnd'
    refine ⟨out, by simp only [checkLoop, hc, ho], by omega, fun k hk j hj => ?_,
      fun r hr j hj => ?_⟩
    · cases k with
      | zero =>
        rw [List.getElem_cons_zero, hB e.2 hnot j hj, Nat.add_zero]
        exact hcopy j hj
      | succ k =>
        rw [List.getElem_cons_succ, show i + (k + 1) = i + 1 + k by omega]
        exact hA k (by simpa using hk) j hj
    · rw [List.map_cons, List.mem_cons, not_or] at hr
      rw [hB r hr.2 j hj]
      exact hframe _ (record_disjoint hr.1 hj)

/-- What `ReorderData` computes, for a buffer of `vertexCount` records. -/
theorem ReorderData_spec (tf : TestFile) (code : Nat → Nat)
    (hsize : tf.fileData.length = tf.vertexCount * tf.vertexStride) :
    ∃ r, ReorderData tf code = some r ∧
      r.remap = stdSort remapLess (initialRemap tf.vertexCount code) ∧
      r.fileData.length = tf.fileData.length ∧
      (∀ (k : Nat) (hk : k < r.remap.length) (j : Nat), j < tf.vertexStride →
        r.fileData[k * tf.vertexStride + j]? =
          tf.fileData[r.remap[k].2 * tf.vertexStride + j]?) ∧
      r.check = tf.fileData ∧ r.errorPrinted = false := by
  obtain ⟨hperm, -, hsnd, hlen⟩ := sortedRemap_spec tf.vertexCount code
  have hin : ∀ e ∈ stdSort remapLess (initialRemap tf.vertexCount code),
      e.2 * tf.vertexStride + tf.vertexStride ≤ tf.fileData.length := by
    intro e he
    have : e.2 ∈ List.range tf.vertexCount :=
      hsnd.mem_iff.mp (List.mem_map_of_mem _ he)
    rw [hsize]
    exact record_fits (List.mem_range.mp this)
  obtain ⟨dst, hd, hdl, hdrec, -⟩ := reorderLoop_spec tf.fileData tf.vertexStride
    (stdSort remapLess (initialRemap tf.vertexCount code))
    (List.replicate tf.fileData.length 0) 0 hin (by simp [hlen, hsize])
  rw [List.length_replicate] at hdl
  obtain ⟨check, hc, hcl, hA, -⟩ := checkLoop_spec dst tf.vertexStride
    (stdSort remapLess (initialRemap tf.vertexCount code))
    (List.replicate tf.fileData.length 0) 0 (by simpa using hin)
    (by simp [hlen, hdl, hsize]) (hsnd.nodup_iff.mpr (List.nodup_range _))
  rw [List.length_replicate] at hcl
  have hcheck : check = tf.fileData := by
    apply List.ext_getElem?
    intro p
    by_cases hp : p < tf.fileData.length
    · have hpos : 0 < tf.vertexStride := by
        rcases Nat.eq_zero_or_pos tf.vertexStride with h0 | h0
        · rw [hsize, h0] at hp; omega
        · exact h0
      have hj : p % tf.vertexStride < tf.vertexStride := Nat.mod_lt _ hpos
      have hr : p / tf.vertexStride < tf.vertexCount := by
        rw [Nat.div_lt_iff_lt_mul hpos, ← hsize]
        exact hp
      have hp' : p = p / tf.vertexStride * tf.vertexStride + p % tf.vertexStride := by
        rw [Nat.mul_comm]
        exact (Nat.div_add_mod p tf.vertexStride).symm
      have hmem : p / tf.vertexStride ∈
          (stdSort remapLess (initialRemap tf.vertexCount code)).map Prod.snd :=
        hsnd.mem_iff.mpr (List.mem_range.mpr hr)
      obtain ⟨e, he, hsnd'⟩ := List.mem_map.mp hmem
      obtain ⟨k, hk, hke⟩ := List.mem_iff_getElem.mp he
      have h1 := hA k hk (p % tf.vertexStride) hj
      have h2 := hdrec k hk (p % tf.vertexStride) hj
      rw [hke, hsnd', ← hp'] at h1 h2
      rw [Nat.zero_add] at h1 h2
      rw [h1, h2]
    · rw [List.getElem?_eq_none (by omega), List.getElem?_eq_none (by omega)]
  refine ⟨⟨_, dst, check, tf.fileData != check⟩, by simp only [ReorderData, hd, hc], rfl, hdl,
    fun k hk j hj => ?_, hcheck, by simp [hcheck]⟩
  have := hdrec k hk j hj
  rwa [Nat.zero_add] at this

/-! ## Claims about the spatial reorderer -/

/-- C9: for every record set, after the sort in `ReorderData` the `remap` array is
a permutation of the pairs `(key i, i)` for `i` in `0..n-1` and is strictly ascending
in the lexicographic order (Morton key, original index); output record `k` is the
input record `remap[k].second`, records with equal keys keep their original
relative order, and any sorted arrangement of the same pairs is this one, so the
result is determined by the keys. -/
theorem ReorderData_sort_order (tf : TestFile) (code : Nat → Nat)
    (hsize : tf.fileData.length = tf.vertexCount * tf.vertexStride) :
    ∃ r, ReorderData tf code = some r ∧
      r.remap.Perm (initialRemap tf.vertexCount code) ∧
      r.remap.Pairwise (fun a b => a.1 < b.1 ∨ (a.1 = b.1 ∧ a.2 < b.2)) ∧
      (∀ (k : Nat) (hk : k < r.remap.length) (j : Nat), j < tf.vertexStride →
        r.fileData[k * tf.vertexStride + j]? =
          tf.fileData[r.remap[k].2 * tf.vertexStride + j]?) ∧
      (∀ (i j : Nat) (hi : i < r.remap.length) (hj : j < r.remap.length), i < j →
        r.remap[i].1 = r.remap[j].1 → r.remap[i].2 < r.remap[j].2) ∧
      (∀ l : List (Nat × Nat), l.Perm (initialRemap tf.vertexCount code) →
        l.Pairwise (fun a b => remapLess b a = false) → l = r.remap) := by
  obtain ⟨r, hr, hremap, -, hrec, -, -⟩ := ReorderData_spec tf code hsize
  obtain ⟨hperm, hsorted, -, -⟩ := sortedRemap_spec tf.vertexCount code
  rw [← hremap] at hperm hsorted
  refine ⟨r, hr, hperm, hsorted, hrec, fun i j hi hj hij hkey => ?_, fun l hl hs => ?_⟩
  · have := List.pairwise_iff_getElem.mp hsorted i j hi hj hij
    omega
  · refine sorted_remap_unique l r.remap (hl.trans hperm.symm) hs ?_
    rw [hremap]
    exact stdSort_sorted _

/-- Witness for C9: four records, two of which share a Morton code. -/
theorem ReorderData_sort_order_witness :
    fourRecords.fileData.length = fourRecords.vertexCount * fourRecords.vertexStride ∧
      ∃ r, ReorderData fourRecords fourCodes = some r ∧
        r.remap.Perm (initialRemap fourRecords.vertexCount fourCodes) ∧
        r.remap.Pairwise (fun a b => a.1 < b.1 ∨ (a.1 = b.1 ∧ a.2 < b.2)) :=
  ⟨(by decide), by
    obtain ⟨r, h1, h2, h3, -⟩ := ReorderData_sort_order fourRecords fourCodes (by decide)
    exact ⟨r, h1, h2, h3⟩⟩

/-- C10: for any record set, whatever the Morton codes (duplicate positions and
zero-extent bounding boxes included), permuting the record buffer by `remap` and
then applying the inverse reproduces the original buffer byte for byte: `check`
equals the input and the remapping error is not printed. -/
theorem ReorderData_roundTrip (tf : TestFile) (code : Nat → Nat)
    (hsize : tf.fileData.length = tf.vertexCount * tf.vertexStride) :
    ∃ r, ReorderData tf code = some r ∧
      (r.remap.map Prod.snd).Perm (List.range tf.vertexCount) ∧
      r.fileData.length = tf.fileData.length ∧
      r.check = tf.fileData ∧ r.errorPrinted = false := by
  obtain ⟨r, hr, hremap, hlen, -, hcheck, herr⟩ := ReorderData_spec tf code hsize
  obtain ⟨-, -, hsnd, -⟩ := sortedRemap_spec tf.vertexCount code
  rw [← hremap] at hsnd
  exact ⟨r, hr, hsnd, hlen, hcheck, herr⟩

/-- Witness for C10: four records that all get the same Morton code. -/
theorem ReorderData_roundTrip_witness :
    fourRecords.fileData.length = fourRecords.vertexCount * fourRecords.vertexStride ∧
      ∃ r, ReorderData fourRecords (fun _ => 0) = some r ∧
        r.check = fourRecords.fileData ∧ r.errorPrinted = false :=
  ⟨(by decide), by
    obtain ⟨r, h1, -, -, h2, h3⟩ := ReorderData_roundTrip fourRecords (fun _ => 0) (by decide)
    exact ⟨r, h1, h2, h3⟩⟩

/-! ## Counted loops and running extrema -/

theorem forLoop_inv {σ : Type} (P : Nat → σ → Prop) (n : Nat) (body : Nat → σ → Option σ)
    (s : σ) (h0 : P 0 s)
    (hstep : ∀ i, i < n → ∀ t, P i t → ∃ t', body i t = some t' ∧ P (i + 1) t') :
    ∃ t, forLoop n body s = some t ∧ P n t := by
  induction n with
  | zero => exact ⟨s, rfl, h0⟩
  | succ n ih =>
    obtain ⟨t, ht, hP⟩ := ih (fun i hi => hstep i (Nat.lt_succ_of_lt hi))
    obtain ⟨t', ht', hP'⟩ := hstep n (Nat.lt_succ_self n) t hP
    exact ⟨t', by simp [forLoop, ht, ht'], hP'⟩

theorem forLoop_none {σ : Type} (n i : Nat) (body : Nat → σ → Option σ) (s : σ)
    (hi : i < n) (hnone : ∀ t, body i t = none) : forLoop n body s = none := by
  induction n with
  | zero => omega
  | succ n ih =>
    rcases Nat.lt_succ_iff_lt_or_eq.mp hi with h | h
    · simp [forLoop, ih h]
    · subst h
      cases hf : forLoop i body s with
      | none => simp [forLoop, hf]
      | some t => simp [forLoop, hf, hnone]

theorem getElem?_record {α : Type} [LinearOrderedField α] (data : List α) (n i k : Nat)
    (hlen : data.length = n * kFullVertexFloats) (hi : i < n) (hk : k < kFullVertexFloats) :
    data[i * kFullVertexFloats + k]? = some (data.getD (i * kFullVertexFloats + k) 0) := by
  have h : i * kFullVertexFloats + k < data.length := by
    rw [hlen]
    calc i * kFullVertexFloats + k < i * kFullVertexFloats + kFullVertexFloats := by omega
      _ = (i + 1) * kFullVertexFloats := by ring
      _ ≤ n * kFullVertexFloats := Nat.mul_le_mul_right _ hi
  rw [List.getD_eq_getElem?_getD, List.getElem?_eq_getElem h]
  rfl

theorem getD_record_mem {α : Type} [LinearOrderedField α] (data : List α) (n i k : Nat)
    (hlen : data.length = n * kFullVertexFloats) (hi : i < n) (hk : k < kFullVertexFloats) :
    data.getD (i * kFullVertexFloats + k) 0 ∈ data :=
  List.getElem?_mem (getElem?_record data n i k hlen hi hk)

theorem minUpTo_le {α : Type} [LinearOrderedField α] (data : List α) (k i' i : Nat)
    (h : i' < i) : minUpTo data k i ≤ data.getD (i' * kFullVertexFloats + k) 0 := by
  induction i with
  | zero => omega
  | succ i ih =>
    rcases Nat.lt_succ_iff_lt_or_eq.mp h with h1 | h1
    · exact le_trans (min_le_left _ _) (ih h1)
    · subst h1
      exact min_le_right _ _

theorem le_maxUpTo {α : Type} [LinearOrderedField α] (data : List α) (k i' i : Nat)
    (h : i' < i) : data.getD (i' * kFullVertexFloats + k) 0 ≤ maxUpTo data k i := by
  induction i with
  | zero => omega
  | succ i ih =>
    rcases Nat.lt_succ_iff_lt_or_eq.mp h with h1 | h1
    · exact le_trans (ih h1) (le_max_left _ _)
    · subst h1
      exact le_max_right _ _

theorem minUpTo_attained {α : Type} [LinearOrderedField α] (data : List α) (k i : Nat)
    (hfin : data.getD (0 * kFullVertexFloats + k) 0 ≤ FLT_MAX) :
    ∃ i', i' < i + 1 ∧ minUpTo data k (i + 1) = data.getD (i' * kFullVertexFloats + k) 0 := by
  induction i with
  | zero => exact ⟨0, Nat.lt_succ_self 0, min_eq_right hfin⟩
  | succ i ih =>
    obtain ⟨i', hi', he⟩ := ih
    rcases min_choice (minUpTo data k (i + 1))
        (data.getD ((i + 1) * kFullVertexFloats + k) 0) with h | h
    · exact ⟨i', Nat.lt_succ_of_lt hi', h.trans he⟩
    · exact ⟨i + 1, Nat.lt_succ_self _, h⟩

theorem maxUpTo_attained {α : Type} [LinearOrderedField α] (data : List α) (k i : Nat)
    (hfin : -FLT_MAX ≤ data.getD (0 * kFullVertexFloats + k) 0) :
    ∃ i', i' < i + 1 ∧ maxUpTo data k (i + 1) = data.getD (i' * kFullVertexFloats + k) 0 := by
  induction i with
  | zero => exact ⟨0, Nat.lt_succ_self 0, max_eq_right hfin⟩
  | succ i ih =>
    obtain ⟨i', hi', he⟩ := ih
    rcases max_choice (maxUpTo data k (i + 1))
        (data.getD ((i + 1) * kFullVertexFloats + k) 0) with h | h
    · exact ⟨i', Nat.lt_succ_of_lt hi', h.trans he⟩
    · exact ⟨i + 1, Nat.lt_succ_self _, h⟩

/-! ## Bounding box and Morton coordinates -/

theorem boundingBox_spec {α : Type} [LinearOrderedField α] (tf : FloatFile α)
    (hs : tf.vertexStride = kFullVertexStride)
    (hlen : tf.fileData.length = tf.vertexCount * kFullVertexFloats) :
    ∃ b, boundingBox tf = some b ∧
      (∀ a, a < 3 → b.bmin a = minUpTo tf.fileData a tf.vertexCount) ∧
      b.bmax 1 = maxUpTo tf.fileData 1 tf.vertexCount ∧
      b.bmax 2 = maxUpTo tf.fileData 2 tf.vertexCount ∧
      (∀ m, tf.vertexCount = m + 1 →
        b.bmax 0 = tf.fileData.getD (m * kFullVertexFloats + 0) 0) := by
  have hk : (2 : Nat) < kFullVertexFloats := by decide
  have hq : tf.vertexStride / 4 = kFullVertexFloats := by rw [hs]; rfl
  obtain ⟨b, hb, hP⟩ := forLoop_inv
    (fun j (b : Bounds α) =>
      (∀ a, a < 3 → b.bmin a = minUpTo tf.fileData a j) ∧
      b.bmax 1 = maxUpTo tf.fileData 1 j ∧ b.bmax 2 = maxUpTo tf.fileData 2 j ∧
      (∀ m, j = m + 1 → b.bmax 0 = tf.fileData.getD (m * kFullVertexFloats + 0) 0))
    tf.vertexCount (boundsBody tf.fileData tf.vertexStride)
    { bmin := vec3 FLT_MAX FLT_MAX FLT_MAX, bmax := vec3 (-FLT_MAX) (-FLT_MAX) (-FLT_MAX) }
    ⟨fun a ha => by interval_cases a <;> rfl, rfl, rfl, fun m hm => by omega⟩
    (fun j hj t ht => by
      obtain ⟨hmin, hmax1, hmax2, _⟩ := ht
      refine Exists.intro
        { bmin := vec3 (min (t.bmin 0) (tf.fileData.getD (j * kFullVertexFloats + 0) 0))
            (min (t.bmin 1) (tf.fileData.getD (j * kFullVertexFloats + 1) 0))
            (min (t.bmin 2) (tf.fileData.getD (j * kFullVertexFloats + 2) 0)),
          bmax := vec3
            (max (min (t.bmin 0) (tf.fileData.getD (j * kFullVertexFloats + 0) 0))
              (tf.fileData.getD (j * kFullVertexFloats + 0) 0))
            (max (t.bmax 1) (tf.fileData.getD (j * kFullVertexFloats + 1) 0))
            (max (t.bmax 2) (tf.fileData.getD (j * kFullVertexFloats + 2) 0)) }
        (And.intro ?_ (And.intro ?_ (And.intro ?_ (And.intro ?_ ?_))))
      · simp only [boundsBody, hq,
          getElem?_record tf.fileData tf.vertexCount j 0 hlen hj (by omega),
          getElem?_record tf.fileData tf.vertexCount j 1 hlen hj (by omega),
          getElem?_record tf.fileData tf.vertexCount j 2 hlen hj (by omega)]
      · intro a ha
        interval_cases a
        · show min (t.bmin 0) _ = min (minUpTo tf.fileData 0 j) _
          rw [hmin 0 (by omega)]
        · show min (t.bmin 1) _ = min (minUpTo tf.fileData 1 j) _
          rw [hmin 1 (by omega)]
        · show min (t.bmin 2) _ = min (minUpTo tf.fileData 2 j) _
          rw [hmin 2 (by omega)]
      · show max (t.bmax 1) _ = max (maxUpTo tf.fileData 1 j) _
        rw [hmax1]
      · show max (t.bmax 2) _ = max (maxUpTo tf.fileData 2 j) _
        rw [hmax2]
      · intro m hm
        have hjm : j = m := by omega
        subst hjm
        exact max_eq_right (min_le_right _ _))
  exact ⟨b, hb, hP⟩

theorem boundingBox_two {α : Type} [LinearOrderedField α] (tf : FloatFile α)
    (hn : tf.vertexCount = 2) (hs : tf.vertexStride = 248) (x0 y0 z0 x1 y1 z1 : α)
    (h0 : tf.fileData[0]? = some x0) (h1 : tf.fileData[1]? = some y0)
    (h2 : tf.fileData[2]? = some z0) (h62 : tf.fileData[62]? = some x1)
    (h63 : tf.fileData[63]? = some y1) (h64 : tf.fileData[64]? = some z1) :
    boundingBox tf = some
      { bmin := vec3 (min (min FLT_MAX x0) x1) (min (min FLT_MAX y0) y1)
          (min (min FLT_MAX z0) z1),
        bmax := vec3 (max (min (min FLT_MAX x0) x1) x1) (max (max (-FLT_MAX) y0) y1)
          (max (max (-FLT_MAX) z0) z1) } := by
  simp only [boundingBox, hn, forLoop, boundsBody, hs, Option.some_bind]
  norm_num [h0, h1, h2, h62, h63, h64, vec3]

set_option maxRecDepth 4000 in
theorem descendingX_reads :
    descendingX.fileData[0]? = some 1 ∧ descendingX.fileData[1]? = some 0 ∧
      descendingX.fileData[2]? = some 0 ∧ descendingX.fileData[62]? = some 0 ∧
      descendingX.fileData[63]? = some 0 ∧ descendingX.fileData[64]? = some 0 :=
  ⟨rfl, rfl, rfl, rfl, rfl, rfl⟩

/-- C11 (failing input): on two records at `x = 1` and `x = 0` the bounding box
loop of `ReorderData` ends with `bmax[0] = 0`, although the first record lies at
`x = 1`; the minimum `bmin[0] = 0` is right. -/
theorem boundingBox_descendingX :
    ∃ b, boundingBox descendingX = some b ∧ b.bmin 0 = 0 ∧ b.bmax 0 = 0 ∧
      descendingX.fileData[0 * (descendingX.vertexStride / 4) + 0]? = some 1 := by
  obtain ⟨h0, h1, h2, h62, h63, h64⟩ := descendingX_reads
  refine ⟨_, boundingBox_two descendingX rfl rfl 1 0 0 0 0 0 h0 h1 h2 h62 h63 h64, ?_, ?_, h0⟩
  · norm_num [vec3, FLT_MAX]
  · norm_num [vec3, FLT_MAX]

set_option maxRecDepth 4000 in
theorem flatY_reads :
    flatY.fileData[0]? = some 0 ∧ flatY.fileData[1]? = some 0 ∧
      flatY.fileData[2]? = some 0 ∧ flatY.fileData[62]? = some 1 ∧
      flatY.fileData[63]? = some 0 ∧ flatY.fileData[64]? = some 1 :=
  ⟨rfl, rfl, rfl, rfl, rfl, rfl⟩

theorem boundingBox_flatY :
    boundingBox flatY = some { bmin := vec3 0 0 0, bmax := vec3 1 0 1 } := by
  obtain ⟨h0, h1, h2, h62, h63, h64⟩ := flatY_reads
  rw [boundingBox_two flatY rfl rfl 0 0 0 1 0 1 h0 h1 h2 h62 h63 h64]
  norm_num [FLT_MAX]

theorem minUpTo_const {α : Type} [LinearOrderedField α] (data : List α) (k : Nat) (c : α)
    (hc : c ≤ FLT_MAX) (n : Nat)
    (h : ∀ i, i < n → data.getD (i * kFullVertexFloats + k) 0 = c) :
    ∀ m, m < n → minUpTo data k (m + 1) = c := by
  intro m
  induction m with
  | zero =>
    intro hm
    show min FLT_MAX (data.getD (0 * kFullVertexFloats + k) 0) = c
    rw [h 0 hm]
    exact min_eq_right hc
  | succ m ih =>
    intro hm
    show min (minUpTo data k (m + 1)) (data.getD ((m + 1) * kFullVertexFloats + k) 0) = c
    rw [ih (by omega), h (m + 1) hm, min_self]

theorem maxUpTo_const {α : Type} [LinearOrderedField α] (data : List α) (k : Nat) (c : α)
    (hc : -FLT_MAX ≤ c) (n : Nat)
    (h : ∀ i, i < n → data.getD (i * kFullVertexFloats + k) 0 = c) :
    ∀ m, m < n → maxUpTo data k (m + 1) = c := by
  intro m
  induction m with
  | zero =>
    intro hm
    show max (-FLT_MAX) (data.getD (0 * kFullVertexFloats + k) 0) = c
    rw [h 0 hm]
    exact max_eq_right hc
  | succ m ih =>
    intro hm
    show max (maxUpTo data k (m + 1)) (data.getD ((m + 1) * kFullVertexFloats + k) 0) = c
    rw [ih (by omega), h (m + 1) hm, max_self]

/-- The bounds the first loop computes on an axis where all records have the
same coordinate. -/
theorem boundingBox_shared {α : Type} [LinearOrderedField α] (tf : FloatFile α)
    (hs : tf.vertexStride = kFullVertexStride)
    (hlen : tf.fileData.length = tf.vertexCount * kFullVertexFloats)
    (hne : 0 < tf.vertexCount) (a : Nat) (ha : a < 3) (c : α)
    (hfin : -FLT_MAX ≤ c ∧ c ≤ FLT_MAX)
    (hc : ∀ i, i < tf.vertexCount → tf.fileData.getD (i * kFullVertexFloats + a) 0 = c) :
    ∃ b, boundingBox tf = some b ∧ b.bmin a = c ∧ b.bmax a = c := by
  obtain ⟨b, hb, hmin, hmax1, hmax2, hmax0⟩ := boundingBox_spec tf hs hlen
  obtain ⟨m, hm⟩ : ∃ m, tf.vertexCount = m + 1 := ⟨tf.vertexCount - 1, by omega⟩
  refine ⟨b, hb, ?_, ?_⟩
  · rw [hmin a ha, hm]
    exact minUpTo_const tf.fileData a c hfin.2 tf.vertexCount hc m (by omega)
  · interval_cases a
    · rw [hmax0 m hm]
      exact hc m (by omega)
    · rw [hmax1, hm]
      exact maxUpTo_const tf.fileData 1 c hfin.1 tf.vertexCount hc m (by omega)
    · rw [hmax2, hm]
      exact maxUpTo_const tf.fileData 2 c hfin.1 tf.vertexCount hc m (by omega)

/-- The array `remap` after the Morton code loop: entry `i` holds the key of
record `i` and the index `i`. -/
theorem mortonCodes_spec {α : Type} [LinearOrderedField α] [FloorRing α]
    (undef : FloatVal α → Nat) (tf : FloatFile α) (hs : tf.vertexStride = kFullVertexStride)
    (hlen : tf.fileData.length = tf.vertexCount * kFullVertexFloats) (b : Bounds α)
    (hb : boundingBox tf = some b) :
    mortonCodes undef tf = some (initialRemap tf.vertexCount (fun i =>
      MortonEncode3
        (mortonCoord undef (tf.fileData.getD (i * kFullVertexFloats + 0) 0) (b.bmin 0) (b.bmax 0))
        (mortonCoord undef (tf.fileData.getD (i * kFullVertexFloats + 1) 0) (b.bmin 1) (b.bmax 1))
        (mortonCoord undef (tf.fileData.getD (i * kFullVertexFloats + 2) 0) (b.bmin 2)
          (b.bmax 2)))) := by
  have hk : (2 : Nat) < kFullVertexFloats := by decide
  have hq : tf.vertexStride / 4 = kFullVertexFloats := by rw [hs]; rfl
  obtain ⟨remap, hr, hP⟩ := forLoop_inv
    (fun j (remap : List (Nat × Nat)) => remap = initialRemap j (fun i =>
      MortonEncode3
        (mortonCoord undef (tf.fileData.getD (i * kFullVertexFloats + 0) 0) (b.bmin 0) (b.bmax 0))
        (mortonCoord undef (tf.fileData.getD (i * kFullVertexFloats + 1) 0) (b.bmin 1) (b.bmax 1))
        (mortonCoord undef (tf.fileData.getD (i * kFullVertexFloats + 2) 0) (b.bmin 2)
          (b.bmax 2))))
    tf.vertexCount (mortonBody undef tf.fileData tf.vertexStride b) [] rfl
    (fun j hj t ht => by
      refine Exists.intro (t ++ [(MortonEncode3
        (mortonCoord undef (tf.fileData.getD (j * kFullVertexFloats + 0) 0) (b.bmin 0) (b.bmax 0))
        (mortonCoord undef (tf.fileData.getD (j * kFullVertexFloats + 1) 0) (b.bmin 1) (b.bmax 1))
        (mortonCoord undef (tf.fileData.getD (j * kFullVertexFloats + 2) 0) (b.bmin 2)
          (b.bmax 2)), j)]) (And.intro ?_ ?_)
      · simp only [mortonBody, hq,
          getElem?_record tf.fileData tf.vertexCount j 0 hlen hj (by omega),
          getElem?_record tf.fileData tf.vertexCount j 1 hlen hj (by omega),
          getElem?_record tf.fileData tf.vertexCount j 2 hlen hj (by omega)]
      · show _ = initialRemap (j + 1) _
        have ht' : t = initialRemap j _ := ht
        rw [ht']
        simp only [initialRemap, List.range_succ, List.map_append, List.map_cons, List.map_nil])
  simp only [mortonCodes, hb, hr, hP]

/-- C12 (amended): for every non-empty record set in which all records have the
same finite coordinate on some axis, so that the bounding box has zero extent
there (`bmax == bmin`), `ReorderData` divides by zero on that axis: it has no
special case, the divisor `bmax - bmin` is `0` and the quotient is `0 / 0`, a
NaN, for every record.  The integer coordinate it uses for that axis in every
record's Morton key is the conversion of that NaN to `uint32_t`: one constant for
all records, and the constant `0` where the conversion of a NaN yields `0`. -/
theorem morton_division {α : Type} [LinearOrderedField α] [FloorRing α]
    (undef : FloatVal α → Nat) (tf : FloatFile α) (hs : tf.vertexStride = kFullVertexStride)
    (hlen : tf.fileData.length = tf.vertexCount * kFullVertexFloats)
    (hne : 0 < tf.vertexCount) (a : Nat) (ha : a < 3) (c : α)
    (hfin : -FLT_MAX ≤ c ∧ c ≤ FLT_MAX)
    (hc : ∀ i, i < tf.vertexCount → tf.fileData[i * kFullVertexFloats + a]? = some c) :
    ∃ b remap, boundingBox tf = some b ∧ b.bmin a = c ∧ b.bmax a = c ∧
      b.bmax a - b.bmin a = 0 ∧
      mortonQuotient c (b.bmin a) (b.bmax a) = FloatVal.nan ∧
      mortonCoord undef c (b.bmin a) (b.bmax a) = undef FloatVal.nan % 4294967296 ∧
      mortonCodes undef tf = some remap ∧ remap.length = tf.vertexCount ∧
      ∀ i, i < tf.vertexCount →
        remap[i]? = some (MortonEncode3
          (mortonCoord undef (tf.fileData.getD (i * kFullVertexFloats + 0) 0) (b.bmin 0)
            (b.bmax 0))
          (mortonCoord undef (tf.fileData.getD (i * kFullVertexFloats + 1) 0) (b.bmin 1)
            (b.bmax 1))
          (mortonCoord undef (tf.fileData.getD (i * kFullVertexFloats + 2) 0) (b.bmin 2)
            (b.bmax 2)), i) ∧
        mortonCoord undef (tf.fileData.getD (i * kFullVertexFloats + a) 0) (b.bmin a)
          (b.bmax a) = undef FloatVal.nan % 4294967296 ∧
        (undef FloatVal.nan = 0 →
          mortonCoord undef (tf.fileData.getD (i * kFullVertexFloats + a) 0) (b.bmin a)
            (b.bmax a) = 0) := by
  have hc' : ∀ i, i < tf.vertexCount →
      tf.fileData.getD (i * kFullVertexFloats + a) 0 = c := by
    intro i hi
    rw [List.getD_eq_getElem?_getD, hc i hi, Option.getD_some]
  obtain ⟨b, hb, hmin, hmax⟩ := boundingBox_shared tf hs hlen hne a ha c hfin hc'
  have hq : mortonQuotient c (b.bmin a) (b.bmax a) = FloatVal.nan := by
    simp [mortonQuotient, fdiv, hmin, hmax]
  have hco : mortonCoord undef c (b.bmin a) (b.bmax a) = undef FloatVal.nan % 4294967296 := by
    simp only [mortonCoord, hq, FloatVal.mul, FloatVal.toUInt32]
  refine ⟨b, _, hb, hmin, hmax, by rw [hmin, hmax, sub_self], hq, hco,
    mortonCodes_spec undef tf hs hlen b hb, by simp [initialRemap], fun i hi => ⟨?_, ?_, ?_⟩⟩
  · simp only [initialRemap, List.getElem?_map, List.getElem?_range hi, Option.map_some']
  · rw [hc' i hi]
    exact hco
  · intro h0
    rw [hc' i hi, hco, h0]

theorem flatY_length : flatY.fileData.length = flatY.vertexCount * kFullVertexFloats := by
  simp [flatY, fileOf, kFullVertexFloats, kFullVertexStride]

set_option maxRecDepth 4000 in
theorem flatY_shared : ∀ i, i < flatY.vertexCount →
    flatY.fileData[i * kFullVertexFloats + 1]? = some 0 := by
  intro i hi
  have h2 : i < 2 := hi
  interval_cases i
  · rfl
  · rfl

set_option maxRecDepth 4000 in
theorem flatY_getD :
    flatY.fileData.getD (0 * kFullVertexFloats + 0) 0 = 0 ∧
      flatY.fileData.getD (0 * kFullVertexFloats + 1) 0 = 0 ∧
      flatY.fileData.getD (0 * kFullVertexFloats + 2) 0 = 0 ∧
      flatY.fileData.getD (1 * kFullVertexFloats + 0) 0 = 1 ∧
      flatY.fileData.getD (1 * kFullVertexFloats + 1) 0 = 0 ∧
      flatY.fileData.getD (1 * kFullVertexFloats + 2) 0 = 1 :=
  ⟨rfl, rfl, rfl, rfl, rfl, rfl⟩

/-- The three coordinates that occur for two records at `(0, 0, 0)` and
`(1, 0, 1)` when the conversion of a NaN yields `0`. -/
theorem mortonCoord_flatY :
    mortonCoord (fun _ => 0) (0 : ℚ) 0 1 = 0 ∧ mortonCoord (fun _ => 0) (0 : ℚ) 0 0 = 0 ∧
      mortonCoord (fun _ => 0) (1 : ℚ) 0 1 = 2097151 := by
  refine ⟨?_, ?_, ?_⟩
  · norm_num [mortonCoord, mortonQuotient, fdiv, FloatVal.mul, FloatVal.toUInt32, kScaler]
  · norm_num [mortonCoord, mortonQuotient, fdiv, FloatVal.mul, FloatVal.toUInt32, kScaler]
  · norm_num [mortonCoord, mortonQuotient, fdiv, FloatVal.mul, FloatVal.toUInt32, kScaler]
    rfl

theorem mortonCodes_flatY :
    mortonCodes (fun _ => 0) flatY = some [(0, 0), (6588122883467697005, 1)] := by
  obtain ⟨g00, g01, g02, g10, g11, g12⟩ := flatY_getD
  obtain ⟨c0, cn, c1⟩ := mortonCoord_flatY
  have hn : flatY.vertexCount = 2 := rfl
  rw [mortonCodes_spec (fun _ => 0) flatY rfl flatY_length _ boundingBox_flatY, hn]
  simp only [initialRemap, List.range_succ, List.range_zero, List.nil_append, List.map_append,
    List.map_cons, List.map_nil, List.singleton_append, g00, g01, g02, g10, g11, g12, vec3,
    c0, cn, c1]
  decide

/-- Witness for C12: two records at `(0, 0, 0)` and `(1, 0, 1)`, axis `y`, with a
conversion that yields `0` where it is undefined. -/
theorem morton_division_witness :
    ∃ b remap, boundingBox flatY = some b ∧ b.bmin 1 = 0 ∧ b.bmax 1 = 0 ∧
      b.bmax 1 - b.bmin 1 = 0 ∧
      mortonQuotient (0 : ℚ) (b.bmin 1) (b.bmax 1) = FloatVal.nan ∧
      mortonCoord (fun _ => 0) (0 : ℚ) (b.bmin 1) (b.bmax 1) = 0 ∧
      mortonCodes (fun _ => 0) flatY = some remap ∧ remap.length = flatY.vertexCount ∧
      ∀ i, i < flatY.vertexCount →
        remap[i]? = some (MortonEncode3
          (mortonCoord (fun _ => 0) (flatY.fileData.getD (i * kFullVertexFloats + 0) 0)
            (b.bmin 0) (b.bmax 0))
          (mortonCoord (fun _ => 0) (flatY.fileData.getD (i * kFullVertexFloats + 1) 0)
            (b.bmin 1) (b.bmax 1))
          (mortonCoord (fun _ => 0) (flatY.fileData.getD (i * kFullVertexFloats + 2) 0)
            (b.bmin 2) (b.bmax 2)), i) ∧
        mortonCoord (fun _ => 0) (flatY.fileData.getD (i * kFullVertexFloats + 1) 0)
          (b.bmin 1) (b.bmax 1) = 0 ∧
        ((0 : Nat) = 0 →
          mortonCoord (fun _ => 0) (flatY.fileData.getD (i * kFullVertexFloats + 1) 0)
            (b.bmin 1) (b.bmax 1) = 0) :=
  morton_division (fun _ => 0) flatY rfl flatY_length (by decide) 1 (by decide) 0
    (by norm_num [FLT_MAX]) flatY_shared

/-- Counterexample to C12 as stated: for two records at `(0, 0, 0)` and
`(1, 0, 1)` the `y` axis of the bounding box has zero extent, and `ReorderData`
divides by zero there: the divisor `bmax[1] - bmin[1]` is `0` and the quotient
formed for `y` in the first record is `0 / 0`, a NaN.  With a conversion that
yields `0` for a NaN the keys are `0` and `6588122883467697005`. -/
theorem morton_division_counterexample :
    ∃ b, boundingBox flatY = some b ∧ b.bmax 1 = b.bmin 1 ∧ b.bmax 1 - b.bmin 1 = 0 ∧
      flatY.fileData[0 * (flatY.vertexStride / 4) + 1]? = some 0 ∧
      mortonQuotient (0 : ℚ) (b.bmin 1) (b.bmax 1) = FloatVal.nan ∧
      mortonCodes (fun _ => 0) flatY = some [(0, 0), (6588122883467697005, 1)] :=
  ⟨_, boundingBox_flatY, rfl, (by norm_num [vec3]), flatY_reads.2.1,
    (by simp [mortonQuotient, fdiv, vec3]), mortonCodes_flatY⟩

/-! ## Value ranges -/

theorem minMaxReset_spec {α : Type} [LinearOrderedField α] (s : MinMaxState α) :
    ∃ t, forLoop kFullVertexFloats minMaxReset s = some t ∧ t.data = s.data ∧
      ∀ k, k < kFullVertexFloats → t.valMin k = FLT_MAX ∧ t.valMax k = -FLT_MAX := by
  obtain ⟨t, ht, hP⟩ := forLoop_inv
    (fun j (t : MinMaxState α) => t.data = s.data ∧
      ∀ k, k < j → t.valMin k = FLT_MAX ∧ t.valMax k = -FLT_MAX)
    kFullVertexFloats minMaxReset s ⟨rfl, fun k hk => absurd hk (Nat.not_lt_zero k)⟩
    (fun j _ t ht => ⟨_, rfl, ht.1, fun k hk => by
      by_cases hkj : k = j
      · simp [setAt, hkj]
      · simp only [setAt, if_neg hkj]
        exact ht.2 k (by omega)⟩)
  exact ⟨t, ht, hP.1, hP.2⟩

theorem minMaxInner_spec {α : Type} [LinearOrderedField α] (data : List α) (n i : Nat)
    (hlen : data.length = n * kFullVertexFloats) (hi : i < n) (s : MinMaxState α)
    (hs : s.data = i * kFullVertexFloats) :
    ∃ t, forLoop kFullVertexFloats (minMaxBody data) s = some t ∧
      t.data = (i + 1) * kFullVertexFloats ∧
      ∀ k, k < kFullVertexFloats →
        t.valMin k = min (s.valMin k) (data.getD (i * kFullVertexFloats + k) 0) ∧
        t.valMax k = max (s.valMax k) (data.getD (i * kFullVertexFloats + k) 0) := by
  obtain ⟨t, ht, hP⟩ := forLoop_inv
    (fun j (t : MinMaxState α) => t.data = i * kFullVertexFloats + j ∧
      ∀ k, (k < j →
        t.valMin k = min (s.valMin k) (data.getD (i * kFullVertexFloats + k) 0) ∧
        t.valMax k = max (s.valMax k) (data.getD (i * kFullVertexFloats + k) 0)) ∧
        (j ≤ k → t.valMin k = s.valMin k ∧ t.valMax k = s.valMax k))
    kFullVertexFloats (minMaxBody data) s
    ⟨hs, fun k => ⟨fun hk => absurd hk (Nat.not_lt_zero k), fun _ => ⟨rfl, rfl⟩⟩⟩
    (fun j hj t ht => by
      obtain ⟨hd, hv⟩ := ht
      have hread : data[t.data]? = some (data.getD (i * kFullVertexFloats + j) 0) := by
        rw [hd]
        exact getElem?_record data n i j hlen hi hj
      refine Exists.intro
        { data := t.data + 1,
          valMax := setAt t.valMax j (max (t.valMax j) (data.getD (i * kFullVertexFloats + j) 0)),
          valMin := setAt t.valMin j (min (t.valMin j) (data.getD (i * kFullVertexFloats + j) 0)) }
        (And.intro ?_ (And.intro ?_ ?_))
      · simp only [minMaxBody, hread]
      · show t.data + 1 = i * kFullVertexFloats + (j + 1)
        omega
      · intro k
        by_cases hkj : k = j
        · subst hkj
          simp [setAt, (hv k).2 (le_refl k)]
        · simp only [setAt, if_neg hkj]
          exact ⟨fun hk => (hv k).1 (by omega), fun hk => (hv k).2 (by omega)⟩)
  exact ⟨t, ht, by rw [hP.1]; ring, fun k hk => (hP.2 k).1 hk⟩

theorem CalcMinMax_spec {α : Type} [LinearOrderedField α] (tf : FloatFile α)
    (hlen : tf.fileData.length = tf.vertexCount * kFullVertexFloats) :
    ∃ r, CalcMinMax tf = some r ∧ r.fileData = tf.fileData ∧
      r.origFileData = tf.origFileData ∧
      r.vertexCount = tf.vertexCount ∧ r.vertexStride = tf.vertexStride ∧
      ∀ k, k < kFullVertexFloats →
        r.valMin k = minUpTo tf.fileData k tf.vertexCount ∧
        r.valMax k = maxUpTo tf.fileData k tf.vertexCount := by
  obtain ⟨s0, hs0, hd0, hv0⟩ := minMaxReset_spec
    ({ data := 0, valMax := tf.valMax, valMin := tf.valMin } : MinMaxState α)
  obtain ⟨s, hs, hP⟩ := forLoop_inv
    (fun i (t : MinMaxState α) => t.data = i * kFullVertexFloats ∧
      ∀ k, k < kFullVertexFloats →
        t.valMin k = minUpTo tf.fileData k i ∧ t.valMax k = maxUpTo tf.fileData k i)
    tf.vertexCount (fun _ s => forLoop kFullVertexFloats (minMaxBody tf.fileData) s) s0
    ⟨by simpa using hd0, fun k hk => hv0 k hk⟩
    (fun i hi t ht => by
      obtain ⟨t', ht', hd', hv'⟩ := minMaxInner_spec tf.fileData tf.vertexCount i hlen hi t ht.1
      refine ⟨t', ht', hd', fun k hk => ?_⟩
      rw [(hv' k hk).1, (hv' k hk).2, (ht.2 k hk).1, (ht.2 k hk).2]
      exact ⟨rfl, rfl⟩)
  exact ⟨{ tf with valMin := s.valMin, valMax := s.valMax },
    by simp only [CalcMinMax, hs0, hs], rfl, rfl, rfl, rfl, hP.2⟩

/-- C13: for a non-empty buffer of 62-float records with finite values,
`CalcMinMax` returns; for every channel `j` the computed `valMin[j]` is below and
`valMax[j]` above the channel's value in every record, each of them is the
channel's value in some record, and the record buffer is unchanged. -/
theorem CalcMinMax_range {α : Type} [LinearOrderedField α] (tf : FloatFile α)
    (hlen : tf.fileData.length = tf.vertexCount * kFullVertexFloats)
    (hne : 0 < tf.vertexCount)
    (hfin : ∀ v, v ∈ tf.fileData → -FLT_MAX ≤ v ∧ v ≤ FLT_MAX) :
    ∃ r, CalcMinMax tf = some r ∧ r.fileData = tf.fileData ∧
      ∀ j, j < kFullVertexFloats →
        (∀ i, i < tf.vertexCount → ∀ v, tf.fileData[i * kFullVertexFloats + j]? = some v →
          r.valMin j ≤ v ∧ v ≤ r.valMax j) ∧
        (∃ i, i < tf.vertexCount ∧ tf.fileData[i * kFullVertexFloats + j]? = some (r.valMin j)) ∧
        (∃ i, i < tf.vertexCount ∧
          tf.fileData[i * kFullVertexFloats + j]? = some (r.valMax j)) := by
  obtain ⟨r, hr, hdata, _, _, _, hv⟩ := CalcMinMax_spec tf hlen
  refine ⟨r, hr, hdata, fun j hj => ⟨?_, ?_, ?_⟩⟩
  · intro i hi v hread
    rw [getElem?_record tf.fileData tf.vertexCount i j hlen hi hj] at hread
    cases hread
    rw [(hv j hj).1, (hv j hj).2]
    exact ⟨minUpTo_le _ _ _ _ hi, le_maxUpTo _ _ _ _ hi⟩
  · obtain ⟨m, hm⟩ := Nat.exists_eq_succ_of_ne_zero (Nat.pos_iff_ne_zero.mp hne)
    have h0 := (hfin _ (getD_record_mem tf.fileData tf.vertexCount 0 j hlen hne hj)).2
    obtain ⟨i, hi, he⟩ := minUpTo_attained tf.fileData j m h0
    refine ⟨i, by omega, ?_⟩
    rw [getElem?_record tf.fileData tf.vertexCount i j hlen (by omega) hj, (hv j hj).1, hm]
    exact congrArg some he.symm
  · obtain ⟨m, hm⟩ := Nat.exists_eq_succ_of_ne_zero (Nat.pos_iff_ne_zero.mp hne)
    have h0 := (hfin _ (getD_record_mem tf.fileData tf.vertexCount 0 j hlen hne hj)).1
    obtain ⟨i, hi, he⟩ := maxUpTo_attained tf.fileData j m h0
    refine ⟨i, by omega, ?_⟩
    rw [getElem?_record tf.fileData tf.vertexCount i j hlen (by omega) hj, (hv j hj).2, hm]
    exact congrArg some he.symm

theorem descendingX_finite : ∀ v, v ∈ descendingX.fileData → -FLT_MAX ≤ v ∧ v ≤ FLT_MAX := by
  intro v hv
  have h : v = 1 ∨ v = 0 := by
    simpa [descendingX, fileOf, List.mem_replicate] using hv
  rcases h with h | h <;> subst h <;> norm_num [FLT_MAX]

/-- Witness for C13: two records, the first at `x = 1`, all other floats `0`. -/
theorem CalcMinMax_range_witness :
    ∃ r, CalcMinMax descendingX = some r ∧ r.fileData = descendingX.fileData ∧
      ∀ j, j < kFullVertexFloats →
        (∀ i, i < descendingX.vertexCount → ∀ v,
          descendingX.fileData[i * kFullVertexFloats + j]? = some v →
          r.valMin j ≤ v ∧ v ≤ r.valMax j) ∧
        (∃ i, i < descendingX.vertexCount ∧
          descendingX.fileData[i * kFullVertexFloats + j]? = some (r.valMin j)) ∧
        (∃ i, i < descendingX.vertexCount ∧
          descendingX.fileData[i * kFullVertexFloats + j]? = some (r.valMax j)) :=
  CalcMinMax_range descendingX (by simp [descendingX, fileOf, kFullVertexFloats, kFullVertexStride])
    (by decide) descendingX_finite

/-! ## Quantiser -/

theorem Pack16_eq {α : Type} [LinearOrderedField α] [FloorRing α] (vmin vmax v : α)
    (h : vmin < vmax) (hlo : vmin ≤ v) (hhi : v ≤ vmax) :
    0 ≤ (v - vmin) / (vmax - vmin) ∧ (v - vmin) / (vmax - vmin) ≤ 1 ∧
      Pack16 vmin vmax v = Int.toNat ⌊(v - vmin) / (vmax - vmin) * 65535 + 1 / 2⌋ := by
  have hd : 0 < vmax - vmin := sub_pos.mpr h
  have h0 : 0 ≤ (v - vmin) / (vmax - vmin) := div_nonneg (sub_nonneg.mpr hlo) hd.le
  have h1 : (v - vmin) / (vmax - vmin) ≤ 1 := (div_le_one hd).mpr (by linarith)
  refine ⟨h0, h1, ?_⟩
  simp only [Pack16, fdiv, if_neg hd.ne', meshopt_quantizeUnorm, min_eq_right h1,
    max_eq_right h0]
  norm_num

theorem Pack16_round {α : Type} [LinearOrderedField α] [FloorRing α] (vmin vmax v : α)
    (h : vmin < vmax) (hlo : vmin ≤ v) (hhi : v ≤ vmax) :
    Pack16 vmin vmax v ≤ 65535 ∧
      |(Pack16 vmin vmax v : α) - (v - vmin) / (vmax - vmin) * 65535| ≤ 1 / 2 := by
  obtain ⟨h0, h1, he⟩ := Pack16_eq vmin vmax v h hlo hhi
  have hq0 : 0 ≤ ⌊(v - vmin) / (vmax - vmin) * 65535 + 1 / 2⌋ :=
    Int.floor_nonneg.mpr (by positivity)
  have hq1 : ⌊(v - vmin) / (vmax - vmin) * 65535 + 1 / 2⌋ ≤ 65535 := by
    have : (v - vmin) / (vmax - vmin) * 65535 + 1 / 2 < ((65535 + 1 : ℤ) : α) := by
      push_cast
      nlinarith
    have := Int.floor_lt.mpr this
    omega
  have hcast : (Pack16 vmin vmax v : α) =
      ((⌊(v - vmin) / (vmax - vmin) * 65535 + 1 / 2⌋ : ℤ) : α) := by
    rw [he]
    have : ((Int.toNat ⌊(v - vmin) / (vmax - vmin) * 65535 + 1 / 2⌋ : ℕ) : ℤ) =
        ⌊(v - vmin) / (vmax - vmin) * 65535 + 1 / 2⌋ := Int.toNat_of_nonneg hq0
    exact_mod_cast congrArg (fun z : ℤ => (z : α)) this
  refine ⟨by rw [he]; omega, ?_⟩
  rw [hcast, abs_le]
  have hle := Int.floor_le ((v - vmin) / (vmax - vmin) * 65535 + 1 / 2)
  have hlt := Int.lt_floor_add_one ((v - vmin) / (vmax - vmin) * 65535 + 1 / 2)
  constructor <;> linarith

theorem Unpack16_Pack16_half {α : Type} [LinearOrderedField α] [FloorRing α]
    (vmin vmax v : α) (h : vmin < vmax) (hlo : vmin ≤ v) (hhi : v ≤ vmax) :
    |Unpack16 vmin vmax (Pack16 vmin vmax v) - v| ≤ (vmax - vmin) / (2 * 65535) := by
  obtain ⟨_, hr⟩ := Pack16_round vmin vmax v h hlo hhi
  have hd : 0 < vmax - vmin := sub_pos.mpr h
  have key : Unpack16 vmin vmax (Pack16 vmin vmax v) - v =
      (vmax - vmin) / 65535 *
        ((Pack16 vmin vmax v : α) - (v - vmin) / (vmax - vmin) * 65535) := by
    simp only [Unpack16]
    field_simp
    ring
  rw [key, abs_mul, abs_of_pos (div_pos hd (by norm_num))]
  calc (vmax - vmin) / 65535 *
        |(Pack16 vmin vmax v : α) - (v - vmin) / (vmax - vmin) * 65535|
      ≤ (vmax - vmin) / 65535 * (1 / 2) :=
        mul_le_mul_of_nonneg_left hr (div_pos hd (by norm_num)).le
    _ = (vmax - vmin) / (2 * 65535) := by ring

/-- C14: in exact arithmetic, for `vmin < vmax` and `vmin ≤ v ≤ vmax`, `Pack16`
returns an integer of `[0, 65535]` within one half of the normalised value times
`65535`, and `Unpack16` of it differs from `v` by at most
`(vmax - vmin) / 65535`. -/
theorem Unpack16_Pack16_error {α : Type} [LinearOrderedField α] [FloorRing α]
    (vmin vmax v : α) (h : vmin < vmax) (hlo : vmin ≤ v) (hhi : v ≤ vmax) :
    |Unpack16 vmin vmax (Pack16 vmin vmax v) - v| ≤ (vmax - vmin) / 65535 ∧
      Pack16 vmin vmax v ≤ 65535 ∧
      |(Pack16 vmin vmax v : α) - (v - vmin) / (vmax - vmin) * 65535| ≤ 1 / 2 := by
  refine ⟨?_, Pack16_round vmin vmax v h hlo hhi⟩
  have hd : 0 < vmax - vmin := sub_pos.mpr h
  calc |Unpack16 vmin vmax (Pack16 vmin vmax v) - v|
      ≤ (vmax - vmin) / (2 * 65535) := Unpack16_Pack16_half vmin vmax v h hlo hhi
    _ ≤ (vmax - vmin) / 65535 :=
        div_le_div_of_nonneg_left hd.le (by norm_num) (by norm_num)

/-- Witness for C14: the value `1/3` in the range `[0, 1]`. -/
theorem Unpack16_Pack16_error_witness :
    |Unpack16 (0 : ℚ) 1 (Pack16 (0 : ℚ) 1 (1 / 3)) - 1 / 3| ≤ (1 - 0) / 65535 ∧
      Pack16 (0 : ℚ) 1 (1 / 3) ≤ 65535 ∧
      |(Pack16 (0 : ℚ) 1 (1 / 3) : ℚ) - (1 / 3 - 0) / (1 - 0) * 65535| ≤ 1 / 2 :=
  Unpack16_Pack16_error 0 1 (1 / 3) (by norm_num) (by norm_num) (by norm_num)

/-! ## Packing and unpacking -/

theorem appendLoop_spec {β : Type} (n m : Nat) (record : Nat → Option (List β))
    (rec : Nat → List β) (hrec : ∀ i, i < n → record i = some (rec i))
    (hm : ∀ i, i < n → (rec i).length = m) :
    ∃ l, appendLoop n record = some l ∧ l.length = n * m ∧
      (∀ i k, i < n → k < m → l[i * m + k]? = (rec i)[k]?) ∧
      (∀ x, x ∈ l ↔ ∃ i, i < n ∧ x ∈ rec i) := by
  obtain ⟨l, hl, hP⟩ := forLoop_inv
    (fun j (l : List β) => l.length = j * m ∧
      (∀ i k, i < j → k < m → l[i * m + k]? = (rec i)[k]?) ∧
      (∀ x, x ∈ l ↔ ∃ i, i < j ∧ x ∈ rec i))
    n (fun i dst => (record i).map (fun r => dst ++ r)) []
    ⟨by simp, fun i k hi => absurd hi (Nat.not_lt_zero i), fun x => by simp⟩
    (fun j hj l hl => by
      obtain ⟨hlen, hidx, hmem⟩ := hl
      refine Exists.intro (l ++ rec j) (And.intro ?_ (And.intro ?_ (And.intro ?_ ?_)))
      · simp [hrec j hj]
      · show (l ++ rec j).length = (j + 1) * m
        rw [List.length_append, hlen, hm j hj]
        ring
      · intro i k hi hk
        rcases Nat.lt_succ_iff_lt_or_eq.mp hi with h | h
        · have hlt : i * m + k < l.length := by
            rw [hlen]
            calc i * m + k < i * m + m := by omega
              _ = (i + 1) * m := by ring
              _ ≤ j * m := Nat.mul_le_mul_right _ h
          rw [List.getElem?_append_left hlt]
          exact hidx i k h hk
        · subst h
          rw [List.getElem?_append_right (by omega), hlen]
          simp
      · intro x
        rw [List.mem_append, hmem]
        constructor
        · rintro (⟨i, hi, hx⟩ | hx)
          · exact ⟨i, Nat.lt_succ_of_lt hi, hx⟩
          · exact ⟨j, Nat.lt_succ_self j, hx⟩
        · rintro ⟨i, hi, hx⟩
          rcases Nat.lt_succ_iff_lt_or_eq.mp hi with h | h
          · exact Or.inl ⟨i, h, hx⟩
          · subst h
            exact Or.inr hx)
  exact ⟨l, hl, hP⟩

theorem packedFields_length : packedFields.length = 59 := by decide

theorem packedFields_lt : ∀ f, f ∈ packedFields → f < kFullVertexFloats := by decide

theorem packedFields_nodup : packedFields.Nodup := by decide

theorem packedStride : kPackedVertexSize / 2 = 59 := by decide

set_option maxRecDepth 10000 in
theorem packed_slot : ∀ c, c ∈ channels PackedVertex.layout →
    PackedVertex.index c < 59 ∧
      packedFields[PackedVertex.index c]? = some (FullVertex.index c) := by decide

theorem not_packed_iff : ∀ f, f < kFullVertexFloats →
    (f ∉ packedFields ↔ f = FullVertex.index (Field.nx, 0) ∨
      f = FullVertex.index (Field.ny, 0) ∨ f = FullVertex.index (Field.nz, 0)) := by decide

theorem readVertex_eq {α : Type} [LinearOrderedField α] (data : List α) (n i : Nat)
    (hlen : data.length = n * kFullVertexFloats) (hi : i < n) :
    readVertex data i = some (fun f => data.getD (i * kFullVertexFloats + f) 0) := by
  have h : (i + 1) * kFullVertexFloats ≤ data.length := by
    rw [hlen]
    exact Nat.mul_le_mul_right _ hi
  simp only [readVertex, if_pos h]

theorem readPacked_eq (data : List Nat) (n i : Nat) (hlen : data.length = n * 59)
    (hi : i < n) :
    readPacked data i = some (fun k => data.getD (i * 59 + k) 0) := by
  have h : (i + 1) * 59 ≤ data.length := by
    rw [hlen]
    exact Nat.mul_le_mul_right _ hi
  simp only [readPacked, packedStride, if_pos h]

theorem foldl_setAt_not_mem {γ α : Type} (cs : List γ) (key : γ → Nat) (val : γ → α)
    (init : Nat → α) (f : Nat) (hf : f ∉ cs.map key) :
    (cs.foldl (fun dst c => setAt dst (key c) (val c)) init) f = init f := by
  induction cs generalizing init with
  | nil => rfl
  | cons c cs ih =>
    simp only [List.map_cons, List.mem_cons, not_or] at hf
    rw [List.foldl_cons, ih _ hf.2]
    simp only [setAt, if_neg hf.1]

theorem foldl_setAt_mem {γ α : Type} (cs : List γ) (key : γ → Nat) (val : γ → α)
    (init : Nat → α) (hnd : (cs.map key).Nodup) (c : γ) (hc : c ∈ cs) :
    (cs.foldl (fun dst c => setAt dst (key c) (val c)) init) (key c) = val c := by
  induction cs generalizing init with
  | nil => cases hc
  | cons c0 cs ih =>
    simp only [List.map_cons, List.nodup_cons] at hnd
    rw [List.foldl_cons]
    rcases List.mem_cons.mp hc with h | h
    · subst h
      rw [foldl_setAt_not_mem cs key val _ _ hnd.1]
      simp only [setAt, if_true]
    · exact ih _ hnd.2 h

theorem unpackVertex_packed {α : Type} [LinearOrderedField α] (valMin valMax : Nat → α)
    (src : Nat → Nat) (c : Field × Nat) (hc : c ∈ channels PackedVertex.layout) :
    unpackVertex valMin valMax src (FullVertex.index c) =
      Unpack16 (valMin (FullVertex.index c)) (valMax (FullVertex.index c))
        (src (PackedVertex.index c)) :=
  foldl_setAt_mem (channels PackedVertex.layout) FullVertex.index
    (fun c => Unpack16 (valMin (FullVertex.index c)) (valMax (FullVertex.index c))
      (src (PackedVertex.index c)))
    (fun _ => 0) packedFields_nodup c hc

theorem unpackVertex_other {α : Type} [LinearOrderedField α] (valMin valMax : Nat → α)
    (src : Nat → Nat) (f : Nat) (hf : f ∉ packedFields) :
    unpackVertex valMin valMax src f = 0 :=
  foldl_setAt_not_mem (channels PackedVertex.layout) FullVertex.index
    (fun c => Unpack16 (valMin (FullVertex.index c)) (valMax (FullVertex.index c))
      (src (PackedVertex.index c)))
    (fun _ => 0) f hf

theorem PackData_spec {α : Type} [LinearOrderedField α] [FloorRing α] (tf : FloatFile α)
    (hlen : tf.fileData.length = tf.vertexCount * kFullVertexFloats) :
    ∃ p, PackData tf = some p ∧ p.fileData = p.calls.map stored16 ∧
      p.vertexCount = tf.vertexCount ∧ p.vertexStride = kPackedVertexSize ∧
      p.valMin = tf.valMin ∧ p.valMax = tf.valMax ∧
      p.calls.length = tf.vertexCount * 59 ∧
      (∀ i k, i < tf.vertexCount → k < 59 → p.calls[i * 59 + k]? =
        (packCalls tf (fun f => tf.fileData.getD (i * kFullVertexFloats + f) 0))[k]?) ∧
      (∀ c, c ∈ p.calls ↔ ∃ i, i < tf.vertexCount ∧
        c ∈ packCalls tf (fun f => tf.fileData.getD (i * kFullVertexFloats + f) 0)) := by
  obtain ⟨l, hl, hlen', hidx, hmem⟩ := appendLoop_spec tf.vertexCount 59
    (fun i => (readVertex tf.fileData i).map (packCalls tf))
    (fun i => packCalls tf (fun f => tf.fileData.getD (i * kFullVertexFloats + f) 0))
    (fun i hi => by simp only [readVertex_eq tf.fileData tf.vertexCount i hlen hi, Option.map_some'])
    (fun i _ => by simp only [packCalls, List.length_map, packedFields_length])
  exact ⟨{ origFileData := tf.origFileData, fileData := l.map stored16,
           vertexCount := tf.vertexCount, vertexStride := kPackedVertexSize,
           valMin := tf.valMin, valMax := tf.valMax, calls := l },
    by simp only [PackData, hl], rfl, rfl, rfl, rfl, rfl, hlen', hidx, hmem⟩

theorem UnpackData_spec {α : Type} [LinearOrderedField α] (pf : PackedFile α)
    (hlen : pf.fileData.length = pf.vertexCount * 59) :
    ∃ u, UnpackData pf = some u ∧ u.vertexStride = kFullVertexStride ∧
      u.vertexCount = pf.vertexCount ∧
      u.fileData.length = pf.vertexCount * kFullVertexFloats ∧
      ∀ i f, i < pf.vertexCount → f < kFullVertexFloats →
        u.fileData[i * kFullVertexFloats + f]? =
          some (unpackVertex pf.valMin pf.valMax
            (fun k => pf.fileData.getD (i * 59 + k) 0) f) := by
  obtain ⟨l, hl, hlen', hidx, _⟩ := appendLoop_spec pf.vertexCount kFullVertexFloats
    (fun i => (readPacked pf.fileData i).map
      (fun src => (List.range kFullVertexFloats).map (unpackVertex pf.valMin pf.valMax src)))
    (fun i => (List.range kFullVertexFloats).map
      (unpackVertex pf.valMin pf.valMax (fun k => pf.fileData.getD (i * 59 + k) 0)))
    (fun i hi => by
      simp only [readPacked_eq pf.fileData pf.vertexCount i hlen hi, Option.map_some'])
    (fun i _ => by simp only [List.length_map, List.length_range])
  refine ⟨{ origFileData := pf.origFileData, fileData := l,
            vertexCount := pf.vertexCount, vertexStride := kFullVertexStride,
            valMin := pf.valMin, valMax := pf.valMax },
    by simp only [UnpackData, hl], rfl, rfl, hlen', fun i f hi hf => ?_⟩
  show l[i * kFullVertexFloats + f]? = _
  rw [hidx i f hi hf, List.getElem?_map, List.getElem?_range hf]
  rfl

theorem stored16_eq {α : Type} [LinearOrderedField α] [FloorRing α] (c : Pack16Call α)
    (h : c.vmin < c.vmax) (hlo : c.vmin ≤ c.v) (hhi : c.v ≤ c.vmax) :
    stored16 c = Pack16 c.vmin c.vmax c.v :=
  Nat.mod_eq_of_lt (Nat.lt_succ_of_le (Pack16_round c.vmin c.vmax c.v h hlo hhi).1)

theorem zeroOne_length : zeroOne.fileData.length = zeroOne.vertexCount * kFullVertexFloats := by
  simp [zeroOne, fileOf, kFullVertexFloats, kFullVertexStride]

theorem getElem?_record_nan {α : Type} (data : List (FloatVal α)) (n i k : Nat)
    (hlen : data.length = n * kFullVertexFloats) (hi : i < n) (hk : k < kFullVertexFloats) :
    data[i * kFullVertexFloats + k]? =
      some (data.getD (i * kFullVertexFloats + k) FloatVal.nan) := by
  have h : i * kFullVertexFloats + k < data.length := by
    rw [hlen]
    calc i * kFullVertexFloats + k < i * kFullVertexFloats + kFullVertexFloats := by omega
      _ = (i + 1) * kFullVertexFloats := by ring
      _ ≤ n * kFullVertexFloats := Nat.mul_le_mul_right _ hi
  rw [List.getD_eq_getElem?_getD, List.getElem?_eq_getElem h]
  rfl

theorem ext_minMaxReset_spec {α : Type} [LinearOrderedField α] (s : MinMaxState (FloatVal α)) :
    ∃ t, forLoop kFullVertexFloats Extended.minMaxReset s = some t ∧ t.data = s.data ∧
      ∀ k, k < kFullVertexFloats →
        t.valMin k = FloatVal.finite FLT_MAX ∧ t.valMax k = FloatVal.finite (-FLT_MAX) := by
  obtain ⟨t, ht, hP⟩ := forLoop_inv
    (fun j (t : MinMaxState (FloatVal α)) => t.data = s.data ∧
      ∀ k, k < j →
        t.valMin k = FloatVal.finite FLT_MAX ∧ t.valMax k = FloatVal.finite (-FLT_MAX))
    kFullVertexFloats Extended.minMaxReset s ⟨rfl, fun k hk => absurd hk (Nat.not_lt_zero k)⟩
    (fun j _ t ht => ⟨_, rfl, ht.1, fun k hk => by
      by_cases hkj : k = j
      · simp [setAt, hkj]
      · simp only [setAt, if_neg hkj]
        exact ht.2 k (by omega)⟩)
  exact ⟨t, ht, hP.1, hP.2⟩

theorem ext_minMaxInner_spec {α : Type} [LinearOrderedField α] (data : List (FloatVal α))
    (n i : Nat) (hlen : data.length = n * kFullVertexFloats) (hi : i < n)
    (s : MinMaxState (FloatVal α)) (hs : s.data = i * kFullVertexFloats) :
    ∃ t, forLoop kFullVertexFloats (Extended.minMaxBody data) s = some t ∧
      t.data = (i + 1) * kFullVertexFloats ∧
      ∀ k, k < kFullVertexFloats →
        t.valMin k =
          stdMin (s.valMin k) (data.getD (i * kFullVertexFloats + k) FloatVal.nan) ∧
        t.valMax k =
          stdMax (s.valMax k) (data.getD (i * kFullVertexFloats + k) FloatVal.nan) := by
  obtain ⟨t, ht, hP⟩ := forLoop_inv
    (fun j (t : MinMaxState (FloatVal α)) => t.data = i * kFullVertexFloats + j ∧
      ∀ k, (k < j →
        t.valMin k =
          stdMin (s.valMin k) (data.getD (i * kFullVertexFloats + k) FloatVal.nan) ∧
        t.valMax k =
          stdMax (s.valMax k) (data.getD (i * kFullVertexFloats + k) FloatVal.nan)) ∧
        (j ≤ k → t.valMin k = s.valMin k ∧ t.valMax k = s.valMax k))
    kFullVertexFloats (Extended.minMaxBody data) s
    ⟨hs, fun k => ⟨fun hk => absurd hk (Nat.not_lt_zero k), fun _ => ⟨rfl, rfl⟩⟩⟩
    (fun j hj t ht => by
      obtain ⟨hd, hv⟩ := ht
      have hread : data[t.data]? =
          some (data.getD (i * kFullVertexFloats + j) FloatVal.nan) := by
        rw [hd]
        exact getElem?_record_nan data n i j hlen hi hj
      refine Exists.intro
        { data := t.data + 1,
          valMax := setAt t.valMax j
            (stdMax (t.valMax j) (data.getD (i * kFullVertexFloats + j) FloatVal.nan)),
          valMin := setAt t.valMin j
            (stdMin (t.valMin j) (data.getD (i * kFullVertexFloats + j) FloatVal.nan)) }
        (And.intro ?_ (And.intro ?_ ?_))
      · simp only [Extended.minMaxBody, hread]
      · show t.data + 1 = i * kFullVertexFloats + (j + 1)
        omega
      · intro k
        by_cases hkj : k = j
        · subst hkj
          simp [setAt, (hv k).2 (le_refl k)]
        · simp only [setAt, if_neg hkj]
          exact ⟨fun hk => (hv k).1 (by omega), fun hk => (hv k).2 (by omega)⟩)
  exact ⟨t, ht, by rw [hP.1]; ring, fun k hk => (hP.2 k).1 hk⟩

theorem ext_CalcMinMax_spec {α : Type} [LinearOrderedField α] (tf : FloatFile (FloatVal α))
    (hlen : tf.fileData.length = tf.vertexCount * kFullVertexFloats) :
    ∃ r, Extended.CalcMinMax tf = some r ∧ r.fileData = tf.fileData ∧
      r.origFileData = tf.origFileData ∧
      r.vertexCount = tf.vertexCount ∧ r.vertexStride = tf.vertexStride ∧
      ∀ k, k < kFullVertexFloats →
        r.valMin k = Extended.minUpTo tf.fileData k tf.vertexCount ∧
        r.valMax k = Extended.maxUpTo tf.fileData k tf.vertexCount := by
  obtain ⟨s0, hs0, hd0, hv0⟩ := ext_minMaxReset_spec
    ({ data := 0, valMax := tf.valMax, valMin := tf.valMin } : MinMaxState (FloatVal α))
  obtain ⟨s, hs, hP⟩ := forLoop_inv
    (fun i (t : MinMaxState (FloatVal α)) => t.data = i * kFullVertexFloats ∧
      ∀ k, k < kFullVertexFloats →
        t.valMin k = Extended.minUpTo tf.fileData k i ∧
        t.valMax k = Extended.maxUpTo tf.fileData k i)
    tf.vertexCount (fun _ s => forLoop kFullVertexFloats (Extended.minMaxBody tf.fileData) s) s0
    ⟨by simpa using hd0, fun k hk => hv0 k hk⟩
    (fun i hi t ht => by
      obtain ⟨t', ht', hd', hv'⟩ :=
        ext_minMaxInner_spec tf.fileData tf.vertexCount i hlen hi t ht.1
      refine ⟨t', ht', hd', fun k hk => ?_⟩
      rw [(hv' k hk).1, (hv' k hk).2, (ht.2 k hk).1, (ht.2 k hk).2]
      exact ⟨rfl, rfl⟩)
  exact ⟨{ tf with valMin := s.valMin, valMax := s.valMax },
    by simp only [Extended.CalcMinMax, hs0, hs], rfl, rfl, rfl, rfl, hP.2⟩

theorem stdMin_finite {α : Type} [LinearOrderedField α] (a b : α) :
    stdMin (FloatVal.finite a) (FloatVal.finite b) = FloatVal.finite (min a b) := by
  by_cases h : b < a
  · simp [stdMin, FloatVal.lt, h, min_eq_right (le_of_lt h)]
  · simp [stdMin, FloatVal.lt, h, min_eq_left (not_lt.mp h)]

theorem stdMax_finite {α : Type} [LinearOrderedField α] (a b : α) :
    stdMax (FloatVal.finite a) (FloatVal.finite b) = FloatVal.finite (max a b) := by
  by_cases h : a < b
  · simp [stdMax, FloatVal.lt, h, max_eq_right (le_of_lt h)]
  · simp [stdMax, FloatVal.lt, h, max_eq_left (not_lt.mp h)]

theorem getD_map_finite {α : Type} [LinearOrderedField α] (data : List α) (j : Nat)
    (h : j < data.length) :
    (data.map FloatVal.finite).getD j FloatVal.nan = FloatVal.finite (data.getD j 0) := by
  rw [List.getD_eq_getElem?_getD, List.getD_eq_getElem?_getD, List.getElem?_map,
    List.getElem?_eq_getElem h]
  rfl

theorem ext_minUpTo_finite {α : Type} [LinearOrderedField α] (data : List α) (n k : Nat)
    (hlen : data.length = n * kFullVertexFloats) (hk : k < kFullVertexFloats) :
    ∀ i, i ≤ n → Extended.minUpTo (data.map FloatVal.finite) k i =
      FloatVal.finite (minUpTo data k i)
  | 0, _ => rfl
  | i + 1, hi => by
    have h : i * kFullVertexFloats + k < data.length := by
      rw [hlen]
      calc i * kFullVertexFloats + k < i * kFullVertexFloats + kFullVertexFloats := by omega
        _ = (i + 1) * kFullVertexFloats := by ring
        _ ≤ n * kFullVertexFloats := Nat.mul_le_mul_right _ hi
    show stdMin (Extended.minUpTo (data.map FloatVal.finite) k i) _ = _
    rw [ext_minUpTo_finite data n k hlen hk i (by omega), getD_map_finite data _ h,
      stdMin_finite]
    rfl

theorem ext_maxUpTo_finite {α : Type} [LinearOrderedField α] (data : List α) (n k : Nat)
    (hlen : data.length = n * kFullVertexFloats) (hk : k < kFullVertexFloats) :
    ∀ i, i ≤ n → Extended.maxUpTo (data.map FloatVal.finite) k i =
      FloatVal.finite (maxUpTo data k i)
  | 0, _ => rfl
  | i + 1, hi => by
    have h : i * kFullVertexFloats + k < data.length := by
      rw [hlen]
      calc i * kFullVertexFloats + k < i * kFullVertexFloats + kFullVertexFloats := by omega
        _ = (i + 1) * kFullVertexFloats := by ring
        _ ≤ n * kFullVertexFloats := Nat.mul_le_mul_right _ hi
    show stdMax (Extended.maxUpTo (data.map FloatVal.finite) k i) _ = _
    rw [ext_maxUpTo_finite data n k hlen hk i (by omega), getD_map_finite data _ h,
      stdMax_finite]
    rfl

/-- On a buffer of numbers the two models of `CalcMinMax` compute the same
ranges. -/
theorem ext_CalcMinMax_finite {α : Type} [LinearOrderedField α] (tf : FloatFile α)
    (hlen : tf.fileData.length = tf.vertexCount * kFullVertexFloats) :
    ∃ r e, CalcMinMax tf = some r ∧ Extended.CalcMinMax tf.toExtended = some e ∧
      e.fileData = r.fileData.map FloatVal.finite ∧ e.vertexCount = r.vertexCount ∧
      ∀ k, k < kFullVertexFloats →
        e.valMin k = FloatVal.finite (r.valMin k) ∧
        e.valMax k = FloatVal.finite (r.valMax k) := by
  obtain ⟨r, hr, hdata, _, hn, _, hv⟩ := CalcMinMax_spec tf hlen
  have hlen' : tf.toExtended.fileData.length =
      tf.toExtended.vertexCount * kFullVertexFloats := by
    simp only [FloatFile.toExtended, List.length_map, hlen]
  obtain ⟨e, he, hedata, _, hen, _, hev⟩ := ext_CalcMinMax_spec tf.toExtended hlen'
  refine ⟨r, e, hr, he, by rw [hedata, hdata]; rfl, by rw [hen, hn]; rfl, fun k hk => ?_⟩
  rw [(hev k hk).1, (hev k hk).2, (hv k hk).1, (hv k hk).2]
  exact ⟨ext_minUpTo_finite tf.fileData tf.vertexCount k hlen hk _ (le_refl _),
    ext_maxUpTo_finite tf.fileData tf.vertexCount k hlen hk _ (le_refl _)⟩

/-- On numbers whose differences and quotient are within the range of binary32
the two models of `Pack16` agree. -/
theorem ext_Pack16_finite {α : Type} [LinearOrderedField α] [FloorRing α] (vmin vmax v : α)
    (h1 : -kOverflow < v - vmin ∧ v - vmin < kOverflow)
    (h2 : -kOverflow < vmax - vmin ∧ vmax - vmin < kOverflow)
    (h3 : -kOverflow < (v - vmin) / (vmax - vmin) ∧ (v - vmin) / (vmax - vmin) < kOverflow) :
    Extended.Pack16 (FloatVal.finite vmin) (FloatVal.finite vmax) (FloatVal.finite v) =
      Pack16 vmin vmax v := by
  have e1 : FloatVal.ofExact (v - vmin) = FloatVal.finite (v - vmin) := by
    simp only [FloatVal.ofExact, if_neg (not_le.mpr h1.2), if_neg (not_le.mpr h1.1)]
  have e2 : FloatVal.ofExact (vmax - vmin) = FloatVal.finite (vmax - vmin) := by
    simp only [FloatVal.ofExact, if_neg (not_le.mpr h2.2), if_neg (not_le.mpr h2.1)]
  have e3 : FloatVal.ofExact ((v - vmin) / (vmax - vmin)) =
      FloatVal.finite ((v - vmin) / (vmax - vmin)) := by
    simp only [FloatVal.ofExact, if_neg (not_le.mpr h3.2), if_neg (not_le.mpr h3.1)]
  simp only [Extended.Pack16, Extended.normalised, Pack16, FloatVal.sub, e1, e2, FloatVal.div]
  by_cases hz : vmax - vmin = 0
  · by_cases hv : v - vmin = 0
    · simp [fdiv, hz, hv]
    · by_cases hp : 0 < v - vmin
      · simp [fdiv, hz, hv, hp]
      · simp [fdiv, hz, hv, hp]
  · simp only [fdiv, if_neg hz, e3]

/-- C16 (amended): `PackedVertex` has one `uint16_t` channel for every `float`
channel of `FullVertex` except the three normals `nx`, `ny`, `nz`: it has 59
channels, each named like a channel of `FullVertex` and packed from it, where
`FullVertex` has `kFullVertexFloats = 62`; `kPackedVertexSize` is `118`, twice
the number of packed channels. -/
theorem PackedVertex_channels :
    (channels PackedVertex.layout).length = 59 ∧
      (channels FullVertex.layout).length = kFullVertexFloats ∧ kFullVertexFloats = 62 ∧
      kPackedVertexSize = 118 ∧ kPackedVertexSize = 2 * (channels PackedVertex.layout).length ∧
      (channels PackedVertex.layout).Nodup ∧
      (∀ c, c ∈ channels PackedVertex.layout → c ∈ channels FullVertex.layout) ∧
      (channels FullVertex.layout).filter (fun c => decide (c ∉ channels PackedVertex.layout)) =
        [(Field.nx, 0), (Field.ny, 0), (Field.nz, 0)] := by
  refine ⟨by decide, by decide, by decide, by decide, by decide, by decide, by decide, by decide⟩

/-- Counterexample to C16 as stated: the number of channels of `PackedVertex` is
not `kFullVertexFloats`, and `kPackedVertexSize` is not twice
`kFullVertexFloats`. -/
theorem PackedVertex_channels_counterexample :
    (channels PackedVertex.layout).length ≠ kFullVertexFloats ∧
      kPackedVertexSize ≠ 2 * kFullVertexFloats := by
  constructor <;> decide

theorem packed_read {α : Type} [LinearOrderedField α] [FloorRing α] (tf : FloatFile α)
    (p : PackedFile α) (n i : Nat) (c : Field × Nat) (hc : c ∈ channels PackedVertex.layout)
    (hi : i < n) (hfd : p.fileData = p.calls.map stored16)
    (hidx : ∀ i k, i < n → k < 59 → p.calls[i * 59 + k]? =
      (packCalls tf (fun f => tf.fileData.getD (i * kFullVertexFloats + f) 0))[k]?) :
    p.fileData.getD (i * 59 + PackedVertex.index c) 0 =
      stored16 ({ vmin := tf.valMin (FullVertex.index c), vmax := tf.valMax (FullVertex.index c),
                  v := tf.fileData.getD (i * kFullVertexFloats + FullVertex.index c) 0 } :
        Pack16Call α) := by
  obtain ⟨hk, hslot⟩ := packed_slot c hc
  rw [List.getD_eq_getElem?_getD, hfd, List.getElem?_map, hidx i _ hi hk]
  simp only [packCalls, List.getElem?_map, hslot, Option.map_some', Option.getD_some]

theorem pack_unpack_spec {α : Type} [LinearOrderedField α] [FloorRing α] (tf : FloatFile α)
    (hlen : tf.fileData.length = tf.vertexCount * kFullVertexFloats) :
    ∃ r p u, CalcMinMax tf = some r ∧ PackData r = some p ∧ UnpackData p = some u ∧
      p.vertexStride = kPackedVertexSize ∧ u.vertexStride = kFullVertexStride ∧
      u.fileData.length = tf.fileData.length ∧
      (∀ k, k < kFullVertexFloats →
        r.valMin k = minUpTo tf.fileData k tf.vertexCount ∧
        r.valMax k = maxUpTo tf.fileData k tf.vertexCount) ∧
      ∀ i, i < tf.vertexCount →
        (∀ f, f ∈ packedFields → u.fileData[i * kFullVertexFloats + f]? =
          some (Unpack16 (r.valMin f) (r.valMax f)
            (stored16 ({ vmin := r.valMin f, vmax := r.valMax f,
                         v := tf.fileData.getD (i * kFullVertexFloats + f) 0 } :
              Pack16Call α)))) ∧
        (∀ f, f < kFullVertexFloats → f ∉ packedFields →
          u.fileData[i * kFullVertexFloats + f]? = some 0) := by
  obtain ⟨r, hr, hdata, _, hn, _, hv⟩ := CalcMinMax_spec tf hlen
  have hlen' : r.fileData.length = r.vertexCount * kFullVertexFloats := by rw [hdata, hn, hlen]
  obtain ⟨p, hp, hfd, hpn, hps, hpmin, hpmax, hcl, hidx, _⟩ := PackData_spec r hlen'
  have hplen : p.fileData.length = p.vertexCount * 59 := by
    rw [hfd, List.length_map, hcl, hpn]
  obtain ⟨u, hu, hus, _, hulen, huidx⟩ := UnpackData_spec p hplen
  refine ⟨r, p, u, hr, hp, hu, hps, hus, by rw [hulen, hpn, hn, hlen], hv, fun i hi => ⟨?_, ?_⟩⟩
  · intro f hf
    obtain ⟨c, hc, rfl⟩ := List.mem_map.mp hf
    have hi' : i < p.vertexCount := by rw [hpn, hn]; exact hi
    rw [huidx i _ hi' (packedFields_lt _ hf), unpackVertex_packed _ _ _ c hc,
      packed_read r p r.vertexCount i c hc (by rw [hn]; exact hi) hfd hidx, hpmin, hpmax, hdata]
  · intro f hf hnot
    have hi' : i < p.vertexCount := by rw [hpn, hn]; exact hi
    rw [huidx i f hi' hf, unpackVertex_other _ _ _ f hnot]

theorem Unpack16_const {α : Type} [LinearOrderedField α] (a : α) (u : Nat) :
    Unpack16 a a u = a := by
  simp only [Unpack16]
  ring

/-- C17 (amended): in exact arithmetic, for every buffer of 248-byte records,
`CalcMinMax`, `PackData` and `UnpackData` return one after the other; the buffer
again has stride 248 and its former length; for every record and every one of the
59 channels of `PackedVertex` (position, diffuse, SH, opacity, scale, rotation)
the unpacked value differs from the value before `PackData` by at most
`(valMax - valMin) / 65535` of that channel; the three normals, which
`PackedVertex` does not hold, are `0` in every unpacked record. -/
theorem pack_unpack_error {α : Type} [LinearOrderedField α] [FloorRing α] (tf : FloatFile α)
    (hlen : tf.fileData.length = tf.vertexCount * kFullVertexFloats) :
    ∃ r p u, CalcMinMax tf = some r ∧ PackData r = some p ∧ UnpackData p = some u ∧
      p.vertexStride = kPackedVertexSize ∧ u.vertexStride = kFullVertexStride ∧
      u.fileData.length = tf.fileData.length ∧
      ∀ i, i < tf.vertexCount →
        (∀ f, f ∈ packedFields → ∃ v w,
          tf.fileData[i * kFullVertexFloats + f]? = some v ∧
          u.fileData[i * kFullVertexFloats + f]? = some w ∧
          |w - v| ≤ (r.valMax f - r.valMin f) / 65535) ∧
        (∀ f, f < kFullVertexFloats → f ∉ packedFields →
          u.fileData[i * kFullVertexFloats + f]? = some 0) := by
  obtain ⟨r, p, u, hr, hp, hu, hps, hus, hulen, hv, hrec⟩ := pack_unpack_spec tf hlen
  refine ⟨r, p, u, hr, hp, hu, hps, hus, hulen, fun i hi => ⟨fun f hf => ?_, (hrec i hi).2⟩⟩
  have hf' := packedFields_lt f hf
  refine ⟨tf.fileData.getD (i * kFullVertexFloats + f) 0, _,
    getElem?_record tf.fileData tf.vertexCount i f hlen hi hf', (hrec i hi).1 f hf, ?_⟩
  have hlo : r.valMin f ≤ tf.fileData.getD (i * kFullVertexFloats + f) 0 := by
    rw [(hv f hf').1]
    exact minUpTo_le _ _ _ _ hi
  have hhi : tf.fileData.getD (i * kFullVertexFloats + f) 0 ≤ r.valMax f := by
    rw [(hv f hf').2]
    exact le_maxUpTo _ _ _ _ hi
  rcases lt_or_eq_of_le (le_trans hlo hhi) with hlt | heq
  · rw [stored16_eq _ hlt hlo hhi]
    exact (le_trans (Unpack16_Pack16_half _ _ _ hlt hlo hhi)
      (div_le_div_of_nonneg_left (sub_pos.mpr hlt).le (by norm_num) (by norm_num)))
  · have hveq : tf.fileData.getD (i * kFullVertexFloats + f) 0 = r.valMin f :=
      le_antisymm (heq ▸ hhi) hlo
    rw [← heq, Unpack16_const, hveq]
    simp

/-- Witness for C17: two records, all floats `0` in the first and `1` in the
second. -/
theorem pack_unpack_error_witness :
    ∃ r p u, CalcMinMax zeroOne = some r ∧ PackData r = some p ∧ UnpackData p = some u ∧
      p.vertexStride = kPackedVertexSize ∧ u.vertexStride = kFullVertexStride ∧
      u.fileData.length = zeroOne.fileData.length ∧
      ∀ i, i < zeroOne.vertexCount →
        (∀ f, f ∈ packedFields → ∃ v w,
          zeroOne.fileData[i * kFullVertexFloats + f]? = some v ∧
          u.fileData[i * kFullVertexFloats + f]? = some w ∧
          |w - v| ≤ (r.valMax f - r.valMin f) / 65535) ∧
        (∀ f, f < kFullVertexFloats → f ∉ packedFields →
          u.fileData[i * kFullVertexFloats + f]? = some 0) :=
  pack_unpack_error zeroOne zeroOne_length

set_option maxRecDepth 4000 in
theorem zeroOne_reads :
    zeroOne.fileData[1 * kFullVertexFloats + 3]? = some 1 ∧
      zeroOne.fileData.getD (0 * kFullVertexFloats + 3) 0 = 0 ∧
      zeroOne.fileData.getD (1 * kFullVertexFloats + 3) 0 = 1 :=
  ⟨rfl, rfl, rfl⟩

/-- Counterexample to C17 as stated: in the second of two records, all `0` and
all `1`, the normal `nx` is `1` before `PackData` and `0` after `UnpackData`,
while the range of that channel is `1`. -/
theorem pack_unpack_error_counterexample :
    ∃ r p u, CalcMinMax zeroOne = some r ∧ PackData r = some p ∧ UnpackData p = some u ∧
      zeroOne.fileData[1 * kFullVertexFloats + 3]? = some 1 ∧
      u.fileData[1 * kFullVertexFloats + 3]? = some 0 ∧
      ¬ (|(0 : ℚ) - 1| ≤ (r.valMax 3 - r.valMin 3) / 65535) := by
  obtain ⟨r, p, u, hr, hp, hu, _, _, _, hv, hrec⟩ := pack_unpack_spec zeroOne zeroOne_length
  refine ⟨r, p, u, hr, hp, hu, zeroOne_reads.1,
    (hrec 1 (by decide)).2 3 (by decide) (by decide), ?_⟩
  have hmin : r.valMin 3 = 0 := by
    rw [(hv 3 (by decide)).1]
    show min (min FLT_MAX (zeroOne.fileData.getD (0 * kFullVertexFloats + 3) 0))
      (zeroOne.fileData.getD (1 * kFullVertexFloats + 3) 0) = 0
    rw [zeroOne_reads.2.1, zeroOne_reads.2.2]
    norm_num [FLT_MAX]
  have hmax : r.valMax 3 = 1 := by
    rw [(hv 3 (by decide)).2]
    show max (max (-FLT_MAX) (zeroOne.fileData.getD (0 * kFullVertexFloats + 3) 0))
      (zeroOne.fileData.getD (1 * kFullVertexFloats + 3) 0) = 1
    rw [zeroOne_reads.2.1, zeroOne_reads.2.2]
    norm_num [FLT_MAX]
  rw [hmin, hmax]
  norm_num

/-! ## Orientation error -/

theorem QuatNormalize_identity_product :
    QuatNormalize (QuatMul (QuatConjugate ({ q0 := 0, q1 := 0, q2 := 0, q3 := 1 } : Quat ℝ))
      { q0 := 0, q1 := 0, q2 := 0, q3 := 1 }) = { q0 := 0, q1 := 0, q2 := 0, q3 := 1 } := by
  norm_num [QuatNormalize, QuatMul, QuatConjugate]

theorem QuatAngleBetween_identity :
    QuatAngleBetween ({ q0 := 0, q1 := 0, q2 := 0, q3 := 1 } : Quat ℝ)
      { q0 := 0, q1 := 0, q2 := 0, q3 := 1 } = 0 := by
  show Real.arcsin (Real.sqrt _) * 2 = 0
  rw [QuatNormalize_identity_product]
  norm_num

theorem rotErrorBody_identity (origFileData fileData : List ℝ) (i : Nat)
    (h1 : IdentityRotation origFileData i) (h2 : IdentityRotation fileData i) :
    rotErrorBody origFileData fileData i { errRotSum := 0, errRotMax := 0 } =
      some { errRotSum := 0, errRotMax := 0 } := by
  unfold IdentityRotation at h1 h2
  cases hv1 : readVertex origFileData i with
  | none => simp [hv1] at h1
  | some v1 =>
    cases hv2 : readVertex fileData i with
    | none => simp [hv2] at h2
    | some v2 =>
      simp only [hv1, Option.map_some', Option.some.injEq] at h1
      simp only [hv2, Option.map_some', Option.some.injEq] at h2
      simp only [rotErrorBody, hv1, hv2, h1, h2, QuatAngleBetween_identity]
      norm_num

/-- C18 (amended): for the identity quaternion `(x, y, z, w) = (0, 0, 0, 1)` the
normalised product that `QuatAngleBetween` forms is the identity again, with
vector part `(0, 0, 0)`, and the angle returned is `0`; over any positive number
of records whose rotation is the identity in both buffers, `CalcErrorFromOrig`
ends with `errRotMax = 0` and `errRotAvg = 0`. -/
theorem identity_rotation_error (tf : FloatFile ℝ) (hne : 0 < tf.vertexCount)
    (hid : ∀ i, i < tf.vertexCount →
      IdentityRotation tf.origFileData i ∧ IdentityRotation tf.fileData i) :
    QuatNormalize (QuatMul (QuatConjugate ({ q0 := 0, q1 := 0, q2 := 0, q3 := 1 } : Quat ℝ))
        { q0 := 0, q1 := 0, q2 := 0, q3 := 1 }) = { q0 := 0, q1 := 0, q2 := 0, q3 := 1 } ∧
      QuatAngleBetween ({ q0 := 0, q1 := 0, q2 := 0, q3 := 1 } : Quat ℝ)
        { q0 := 0, q1 := 0, q2 := 0, q3 := 1 } = 0 ∧
      CalcErrorFromOrig tf = some { errRotMax := 0, errRotAvg := FloatVal.finite 0 } := by
  refine ⟨QuatNormalize_identity_product, QuatAngleBetween_identity, ?_⟩
  obtain ⟨s, hs, hP⟩ := forLoop_inv
    (fun _ (s : RotErrorState ℝ) => s = { errRotSum := 0, errRotMax := 0 })
    tf.vertexCount (rotErrorBody tf.origFileData tf.fileData)
    { errRotSum := 0, errRotMax := 0 } rfl
    (fun i hi t ht => ⟨{ errRotSum := 0, errRotMax := 0 }, by
      rw [ht]
      exact rotErrorBody_identity _ _ i (hid i hi).1 (hid i hi).2, rfl⟩)
  have hn : (tf.vertexCount : ℝ) ≠ 0 := Nat.cast_ne_zero.mpr (Nat.pos_iff_ne_zero.mp hne)
  simp only [CalcErrorFromOrig, hs, hP, fdiv, if_neg hn, zero_div]

set_option maxRecDepth 4000 in
theorem identityRecords_identity : ∀ i, i < identityRecords.vertexCount →
    IdentityRotation identityRecords.origFileData i ∧
      IdentityRotation identityRecords.fileData i := by
  intro i hi
  have h2 : i < 2 := hi
  have hlen : (i + 1) * kFullVertexFloats ≤ identityRecords.fileData.length := by
    have hl : identityRecords.fileData.length = 124 := rfl
    have hk : kFullVertexFloats = 62 := rfl
    rw [hl, hk]
    omega
  have h : IdentityRotation identityRecords.fileData i := by
    simp only [IdentityRotation, readVertex, if_pos hlen, Option.map_some', rotationOf]
    interval_cases i
    · rfl
    · rfl
  exact ⟨h, h⟩

/-- Witness for C18: two records over the reals with `rw = 1` and every other
float `0`, in both buffers. -/
theorem identity_rotation_error_witness :
    QuatNormalize (QuatMul (QuatConjugate ({ q0 := 0, q1 := 0, q2 := 0, q3 := 1 } : Quat ℝ))
        { q0 := 0, q1 := 0, q2 := 0, q3 := 1 }) = { q0 := 0, q1 := 0, q2 := 0, q3 := 1 } ∧
      QuatAngleBetween ({ q0 := 0, q1 := 0, q2 := 0, q3 := 1 } : Quat ℝ)
        { q0 := 0, q1 := 0, q2 := 0, q3 := 1 } = 0 ∧
      CalcErrorFromOrig identityRecords =
        some { errRotMax := 0, errRotAvg := FloatVal.finite 0 } :=
  identity_rotation_error identityRecords (by decide) identityRecords_identity

/-- Counterexample to C18 as stated: over no records at all `errRotMax` is `0`,
but `errRotAvg` is the quotient `0 / 0`, a NaN. -/
theorem identity_rotation_error_counterexample :
    (∀ i, i < (fileOf [] 0 : FloatFile ℝ).vertexCount →
      IdentityRotation (fileOf [] 0 : FloatFile ℝ).origFileData i ∧
        IdentityRotation (fileOf [] 0 : FloatFile ℝ).fileData i) ∧
      CalcErrorFromOrig (fileOf [] 0 : FloatFile ℝ) =
        some { errRotMax := 0, errRotAvg := FloatVal.nan } := by
  constructor
  · intro i hi
    exact absurd hi (Nat.not_lt_zero i)
  · simp [CalcErrorFromOrig, fileOf, forLoop, fdiv]

/-! ## Domain remapping -/

theorem unlinearize_linearize (x : ℝ) : unlinearizeScale (linearizeScale x) = x := by
  show Real.log ((Real.sqrt (Real.sqrt (Real.exp x)) * Real.sqrt (Real.sqrt (Real.exp x))) *
    (Real.sqrt (Real.sqrt (Real.exp x)) * Real.sqrt (Real.sqrt (Real.exp x)))) = x
  rw [Real.mul_self_sqrt (Real.sqrt_nonneg _), Real.mul_self_sqrt (Real.exp_pos x).le,
    Real.log_exp]

theorem linearize_unlinearize (s : ℝ) (hs : 0 < s) :
    linearizeScale (unlinearizeScale s) = s := by
  show Real.sqrt (Real.sqrt (Real.exp (Real.log ((s * s) * (s * s))))) = s
  have h2 : 0 < s * s := mul_pos hs hs
  rw [Real.exp_log (mul_pos h2 h2), Real.sqrt_mul_self h2.le, Real.sqrt_mul_self hs.le]

theorem scale_indices :
    FullVertex.index (Field.opacity, 0) = 54 ∧ FullVertex.index (Field.sx, 0) = 55 ∧
      FullVertex.index (Field.sy, 0) = 56 ∧ FullVertex.index (Field.sz, 0) = 57 := by decide

theorem linearizeVertex_scale {α : Type} [LinearOrderedField α] [FloatOps α] (data : Nat → α)
    (k : Nat) (hk : k = 55 ∨ k = 56 ∨ k = 57) :
    linearizeVertex data k = linearizeScale (data k) := by
  obtain ⟨h54, h55, h56, h57⟩ := scale_indices
  simp only [linearizeVertex, linearizeScale, h54, h55, h56, h57]
  rcases hk with h | h | h <;> subst h <;> simp [setAt]

theorem unlinearizeVertex_scale {α : Type} [LinearOrderedField α] [FloatOps α]
    (data : Nat → α) (k : Nat) (hk : k = 55 ∨ k = 56 ∨ k = 57) :
    unlinearizeVertex data k = unlinearizeScale (data k) := by
  obtain ⟨h54, h55, h56, h57⟩ := scale_indices
  simp only [unlinearizeVertex, unlinearizeScale, h54, h55, h56, h57]
  rcases hk with h | h | h <;> subst h <;> simp [setAt]

theorem mapVertices_spec {α : Type} [LinearOrderedField α] (tf : FloatFile α)
    (body : (Nat → α) → Nat → α)
    (hlen : tf.fileData.length = tf.vertexCount * kFullVertexFloats) :
    ∃ r, mapVertices tf body = some r ∧ r.vertexCount = tf.vertexCount ∧
      r.fileData.length = tf.vertexCount * kFullVertexFloats ∧
      ∀ i f, i < tf.vertexCount → f < kFullVertexFloats →
        r.fileData[i * kFullVertexFloats + f]? =
          some (body (fun g => tf.fileData.getD (i * kFullVertexFloats + g) 0) f) := by
  obtain ⟨l, hl, hlen', hidx, _⟩ := appendLoop_spec tf.vertexCount kFullVertexFloats
    (fun i => (readVertex tf.fileData i).map
      (fun v => (List.range kFullVertexFloats).map (body v)))
    (fun i => (List.range kFullVertexFloats).map
      (body (fun g => tf.fileData.getD (i * kFullVertexFloats + g) 0)))
    (fun i hi => by
      simp only [readVertex_eq tf.fileData tf.vertexCount i hlen hi, Option.map_some'])
    (fun i _ => by simp only [List.length_map, List.length_range])
  refine ⟨{ tf with fileData := l }, by simp only [mapVertices, hl], rfl, hlen',
    fun i f hi hf => ?_⟩
  show l[i * kFullVertexFloats + f]? = _
  rw [hidx i f hi hf, List.getElem?_map, List.getElem?_range hf]
  rfl

theorem Unlinearize_Linearize_scale (tf : FloatFile ℝ)
    (hlen : tf.fileData.length = tf.vertexCount * kFullVertexFloats) :
    ∃ l u, LinearizeData tf = some l ∧ UnlinearizeData l = some u ∧
      ∀ i k, i < tf.vertexCount → (k = FullVertex.index (Field.sx, 0) ∨
          k = FullVertex.index (Field.sy, 0) ∨ k = FullVertex.index (Field.sz, 0)) →
        ∃ s, tf.fileData[i * kFullVertexFloats + k]? = some s ∧
          l.fileData[i * kFullVertexFloats + k]? = some (linearizeScale s) ∧
          u.fileData[i * kFullVertexFloats + k]? = some s := by
  obtain ⟨l, hl, hln, hllen, hlidx⟩ := mapVertices_spec tf linearizeVertex hlen
  have hllen' : l.fileData.length = l.vertexCount * kFullVertexFloats := by rw [hllen, hln]
  obtain ⟨u, hu, _, _, huidx⟩ := mapVertices_spec l unlinearizeVertex hllen'
  refine ⟨l, u, hl, hu, fun i k hi hk => ?_⟩
  obtain ⟨_, h55, h56, h57⟩ := scale_indices
  rw [h55, h56, h57] at hk
  have hk62 : k < kFullVertexFloats := by
    have : kFullVertexFloats = 62 := rfl
    omega
  have hl1 := hlidx i k hi hk62
  rw [linearizeVertex_scale _ k hk] at hl1
  have hu1 := huidx i k (by rw [hln]; exact hi) hk62
  rw [unlinearizeVertex_scale _ k hk, List.getD_eq_getElem?_getD, hl1, Option.getD_some,
    unlinearize_linearize] at hu1
  exact ⟨_, getElem?_record tf.fileData tf.vertexCount i k hlen hi hk62, hl1, hu1⟩

/-- C19: over the reals, the inverse that `UnlinearizeData` applies to a scale
member (square twice, then `log`) undoes the forward transform of `LinearizeData`
(`exp`, then square root twice) for every `x`, that is
`log ((sqrt (sqrt (exp x)))^4) = x`; the forward transform undoes the inverse for
every `s > 0`; and on every buffer of full records `UnlinearizeData` after
`LinearizeData` gives back the members `sx`, `sy` and `sz` of every record. -/
theorem scale_roundTrip (tf : FloatFile ℝ)
    (hlen : tf.fileData.length = tf.vertexCount * kFullVertexFloats) :
    (∀ x : ℝ, unlinearizeScale (linearizeScale x) = x ∧
      Real.log (Real.sqrt (Real.sqrt (Real.exp x)) ^ 4) = x) ∧
    (∀ s : ℝ, 0 < s → linearizeScale (unlinearizeScale s) = s) ∧
    ∃ l u, LinearizeData tf = some l ∧ UnlinearizeData l = some u ∧
      ∀ i k, i < tf.vertexCount → (k = FullVertex.index (Field.sx, 0) ∨
          k = FullVertex.index (Field.sy, 0) ∨ k = FullVertex.index (Field.sz, 0)) →
        ∃ s, tf.fileData[i * kFullVertexFloats + k]? = some s ∧
          l.fileData[i * kFullVertexFloats + k]? = some (linearizeScale s) ∧
          u.fileData[i * kFullVertexFloats + k]? = some s := by
  refine ⟨fun x => ⟨unlinearize_linearize x, ?_⟩, linearize_unlinearize,
    Unlinearize_Linearize_scale tf hlen⟩
  have h := unlinearize_linearize x
  have he : Real.sqrt (Real.sqrt (Real.exp x)) ^ 4 =
      (Real.sqrt (Real.sqrt (Real.exp x)) * Real.sqrt (Real.sqrt (Real.exp x))) *
        (Real.sqrt (Real.sqrt (Real.exp x)) * Real.sqrt (Real.sqrt (Real.exp x))) := by ring
  rw [he]
  exact h

theorem identityRecords_length :
    identityRecords.fileData.length = identityRecords.vertexCount * kFullVertexFloats := rfl

/-- Witness for C19: `x = 0` forwards, `s = 1` backwards, and two records with
scale members `0`. -/
theorem scale_roundTrip_witness :
    unlinearizeScale (linearizeScale (0 : ℝ)) = 0 ∧
      ((0 : ℝ) < 1 ∧ linearizeScale (unlinearizeScale (1 : ℝ)) = 1) ∧
      ∃ l u, LinearizeData identityRecords = some l ∧ UnlinearizeData l = some u ∧
        ∀ i k, i < identityRecords.vertexCount → (k = FullVertex.index (Field.sx, 0) ∨
            k = FullVertex.index (Field.sy, 0) ∨ k = FullVertex.index (Field.sz, 0)) →
          ∃ s, identityRecords.fileData[i * kFullVertexFloats + k]? = some s ∧
            l.fileData[i * kFullVertexFloats + k]? = some (linearizeScale s) ∧
            u.fileData[i * kFullVertexFloats + k]? = some s :=
  ⟨((scale_roundTrip identityRecords identityRecords_length).1 0).1,
    ⟨by norm_num, (scale_roundTrip identityRecords identityRecords_length).2.1 1 (by norm_num)⟩,
    (scale_roundTrip identityRecords identityRecords_length).2.2⟩

theorem Sigmoid_InvSigmoid_low (v : ℝ) (h0 : 0 < v) (h1 : v ≤ 1 - 1 / 1000000) :
    Sigmoid (InvSigmoid v) = v := by
  have hmax : max (1 - v) (1 / 1000000) = 1 - v := max_eq_left (by linarith)
  have hpos : 0 < 1 - v := by linarith
  show 1 / (1 + Real.exp (-Real.log (v / max (1 - v) (1 / 1000000)))) = v
  rw [hmax, Real.exp_neg, Real.exp_log (div_pos h0 hpos)]
  field_simp

theorem Sigmoid_InvSigmoid_high (v : ℝ) (h0 : 0 < v) (h1 : 1 - 1 / 1000000 < v) :
    Sigmoid (InvSigmoid v) = v / (v + 1 / 1000000) := by
  have hmax : max (1 - v) (1 / 1000000) = 1 / 1000000 := max_eq_right (by linarith)
  show 1 / (1 + Real.exp (-Real.log (v / max (1 - v) (1 / 1000000)))) = _
  rw [hmax, Real.exp_neg, Real.exp_log (div_pos h0 (by norm_num))]
  field_simp

/-- C20 (amended): in exact real arithmetic, for every `v` in `(0, 1)`,
`Sigmoid(InvSigmoid(v))` is `v` itself when `v ≤ 1 - 1e-6`; above that the guard
`max(1 - v, 1e-6)` takes effect and the result is `v / (v + 1e-6)`, below `v` by
less than `1e-6`. -/
theorem Sigmoid_InvSigmoid (v : ℝ) (h0 : 0 < v) (h1 : v < 1) :
    (v ≤ 1 - 1 / 1000000 → Sigmoid (InvSigmoid v) = v) ∧
      (1 - 1 / 1000000 < v → Sigmoid (InvSigmoid v) = v / (v + 1 / 1000000)) ∧
      Sigmoid (InvSigmoid v) ≤ v ∧ v - Sigmoid (InvSigmoid v) < 1 / 1000000 := by
  refine ⟨Sigmoid_InvSigmoid_low v h0, Sigmoid_InvSigmoid_high v h0, ?_⟩
  rcases le_or_lt v (1 - 1 / 1000000) with h | h
  · rw [Sigmoid_InvSigmoid_low v h0 h]
    norm_num
  · rw [Sigmoid_InvSigmoid_high v h0 h]
    have hd : 0 < v + 1 / 1000000 := by linarith
    constructor
    · rw [div_le_iff₀ hd]
      nlinarith
    · rw [sub_lt_iff_lt_add, ← sub_lt_iff_lt_add', lt_div_iff₀ hd]
      nlinarith

/-- Witness for C20: `v = 1/2`. -/
theorem Sigmoid_InvSigmoid_witness :
    ((1 / 2 : ℝ) ≤ 1 - 1 / 1000000 → Sigmoid (InvSigmoid (1 / 2 : ℝ)) = 1 / 2) ∧
      (1 - 1 / 1000000 < (1 / 2 : ℝ) →
        Sigmoid (InvSigmoid (1 / 2 : ℝ)) = 1 / 2 / (1 / 2 + 1 / 1000000)) ∧
      Sigmoid (InvSigmoid (1 / 2 : ℝ)) ≤ 1 / 2 ∧
      1 / 2 - Sigmoid (InvSigmoid (1 / 2 : ℝ)) < 1 / 1000000 :=
  Sigmoid_InvSigmoid (1 / 2) (by norm_num) (by norm_num)

/-- Counterexample to C20 as stated: at `v = 1 - 2^-24`, the largest `float`
below `1`, `Sigmoid(InvSigmoid(v))` is `v / (v + 1e-6)` and differs from `v` by
more than `2^-23`. -/
theorem Sigmoid_InvSigmoid_counterexample :
    (0 : ℝ) < 1 - 1 / 2 ^ 24 ∧ (1 - 1 / 2 ^ 24 : ℝ) < 1 ∧
      ¬ (|Sigmoid (InvSigmoid (1 - 1 / 2 ^ 24 : ℝ)) - (1 - 1 / 2 ^ 24)| ≤ 1 / 2 ^ 23) := by
  refine ⟨by norm_num, by norm_num, ?_⟩
  rw [Sigmoid_InvSigmoid_high (1 - 1 / 2 ^ 24) (by norm_num) (by norm_num)]
  norm_num [abs_le]

/-! ## Quaternion product and normalisation -/

theorem hamiltonProduct_toQuaternion {α : Type} [LinearOrderedField α] (a b : Quat α) :
    (hamiltonProduct a b).toQuaternion = a.toQuaternion * b.toQuaternion := by
  ext <;> simp [hamiltonProduct, Quat.toQuaternion]

theorem QuatMul_components {α : Type} [LinearOrderedField α] (a b : Quat α) :
    (QuatMul a b).q0 = (hamiltonProduct a b).q0 ∧
      (QuatMul a b).q1 = (hamiltonProduct a b).q1 ∧
      (QuatMul a b).q2 = (hamiltonProduct a b).q2 ∧
      (QuatMul a b).q3 = (hamiltonProduct a b).q3 + (a.q0 - a.q3) * b.q0 := by
  refine ⟨?_, ?_, ?_, ?_⟩ <;> simp only [QuatMul, hamiltonProduct] <;> ring

/-- C21 (failing input): `QuatMul` agrees with the Hamilton product in the three
vector components, and its `w` component is off by `(a.x - a.w) * b.x`.  For
`q1 = (-1, 0, 0, 0)` and `q2 = (1, 0, 0, 0)`, `QuatConjugate q1` is `(1, 0, 0, 0)`
and `QuatMul` of it with `q2` is `(0, 0, 0, 0)`, while the Hamilton product
`i * i` is `(0, 0, 0, -1)`. -/
theorem QuatMul_hamilton :
    (∀ a b : Quat ℚ,
      (QuatMul a b).q0 = (hamiltonProduct a b).q0 ∧
      (QuatMul a b).q1 = (hamiltonProduct a b).q1 ∧
      (QuatMul a b).q2 = (hamiltonProduct a b).q2 ∧
      (QuatMul a b).q3 = (hamiltonProduct a b).q3 + (a.q0 - a.q3) * b.q0) ∧
    QuatConjugate ({ q0 := -1, q1 := 0, q2 := 0, q3 := 0 } : Quat ℚ) =
      { q0 := 1, q1 := 0, q2 := 0, q3 := 0 } ∧
    QuatMul ({ q0 := 1, q1 := 0, q2 := 0, q3 := 0 } : Quat ℚ)
      { q0 := 1, q1 := 0, q2 := 0, q3 := 0 } = { q0 := 0, q1 := 0, q2 := 0, q3 := 0 } ∧
    hamiltonProduct ({ q0 := 1, q1 := 0, q2 := 0, q3 := 0 } : Quat ℚ)
      { q0 := 1, q1 := 0, q2 := 0, q3 := 0 } = { q0 := 0, q1 := 0, q2 := 0, q3 := -1 } := by
  refine ⟨QuatMul_components, ?_, ?_, ?_⟩
  · norm_num [QuatConjugate]
  · norm_num [QuatMul]
  · norm_num [hamiltonProduct]

theorem QuatNormalize_eq {α : Type} [LinearOrderedField α] (q : Quat α) :
    QuatNormalize q =
      { q0 := q.q0 * q.sumSq, q1 := q.q1 * q.sumSq, q2 := q.q2 * q.sumSq,
        q3 := q.q3 * q.sumSq } := by
  by_cases h : q.q0 * q.q0 + q.q1 * q.q1 + q.q2 * q.q2 + q.q3 * q.q3 = 0
  · simp only [QuatNormalize, Quat.sumSq, h, if_true, mul_zero]
  · simp only [QuatNormalize, Quat.sumSq, if_neg h, one_div, div_inv_eq_mul]

theorem QuatNormalize_sumSq {α : Type} [LinearOrderedField α] (q : Quat α) :
    (QuatNormalize q).sumSq = q.sumSq ^ 3 := by
  rw [QuatNormalize_eq]
  simp only [Quat.sumSq]
  ring

/-- C22 (failing input): `QuatNormalize` multiplies every component by the sum of
squares `lensq` of its argument, so the sum of squares of the result is
`lensq ^ 3`.  For `q1 = (0, 0, 0, 2)` and `q2 = (0, 0, 0, 1)` the product that
`QuatAngleBetween` normalises is `(0, 0, 0, 2)`, and `QuatNormalize` turns it
into `(0, 0, 0, 8)`, whose sum of squares is `64`. -/
theorem QuatNormalize_scales :
    (∀ q : Quat ℚ,
      QuatNormalize q =
        { q0 := q.q0 * q.sumSq, q1 := q.q1 * q.sumSq, q2 := q.q2 * q.sumSq,
          q3 := q.q3 * q.sumSq } ∧
      (QuatNormalize q).sumSq = q.sumSq ^ 3) ∧
    QuatMul (QuatConjugate ({ q0 := 0, q1 := 0, q2 := 0, q3 := 2 } : Quat ℚ))
      { q0 := 0, q1 := 0, q2 := 0, q3 := 1 } = { q0 := 0, q1 := 0, q2 := 0, q3 := 2 } ∧
    QuatNormalize ({ q0 := 0, q1 := 0, q2 := 0, q3 := 2 } : Quat ℚ) =
      { q0 := 0, q1 := 0, q2 := 0, q3 := 8 } ∧
    (QuatNormalize ({ q0 := 0, q1 := 0, q2 := 0, q3 := 2 } : Quat ℚ)).sumSq = 64 := by
  refine ⟨fun q => ⟨QuatNormalize_eq q, QuatNormalize_sumSq q⟩, ?_, ?_, ?_⟩
  · norm_num [QuatMul, QuatConjugate]
  · rw [QuatNormalize_eq]
    norm_num [Quat.sumSq]
  · rw [QuatNormalize_sumSq]
    norm_num [Quat.sumSq]

/-! ## Injectivity of the Morton key -/

theorem testBit_of_MortonEncode3_eq (x y z x' y' z' : Nat)
    (h : MortonEncode3 x y z = MortonEncode3 x' y' z') (i : Nat) (hi : i < 21) :
    x.testBit i = x'.testBit i ∧ y.testBit i = y'.testBit i ∧ z.testBit i = z'.testBit i := by
  have hx := congrArg (fun c => Nat.testBit c (3 * i)) h
  have hy := congrArg (fun c => Nat.testBit c (3 * i + 1)) h
  have hz := congrArg (fun c => Nat.testBit c (3 * i + 2)) h
  simp only [MortonEncode3_testBit] at hx hy hz
  have e0 : 3 * i % 3 = 0 := by omega
  have e1 : (3 * i + 1) % 3 = 1 := by omega
  have e2 : (3 * i + 2) % 3 = 2 := by omega
  have d0 : 3 * i / 3 = i := by omega
  have d1 : (3 * i + 1) / 3 = i := by omega
  have d2 : (3 * i + 2) / 3 = i := by omega
  have l0 : 3 * i < 63 := by omega
  have l1 : 3 * i + 1 < 63 := by omega
  have l2 : 3 * i + 2 < 63 := by omega
  simp [e0, d0, l0] at hx
  simp [e1, d1, l1] at hy
  simp [e2, d2, l2] at hz
  exact ⟨hx, hy, hz⟩

theorem eq_of_testBit_low (a b : Nat) (ha : a < 2 ^ 21) (hb : b < 2 ^ 21)
    (h : ∀ i, i < 21 → a.testBit i = b.testBit i) : a = b := by
  apply Nat.eq_of_testBit_eq
  intro i
  by_cases hi : i < 21
  · exact h i hi
  · have hp : 2 ^ 21 ≤ 2 ^ i := Nat.pow_le_pow_right (by decide) (by omega)
    rw [Nat.testBit_lt_two_pow (Nat.lt_of_lt_of_le ha hp),
      Nat.testBit_lt_two_pow (Nat.lt_of_lt_of_le hb hp)]

/-- C23: for coordinate triples whose components are all below `2^21`,
`MortonEncode3` gives equal keys exactly when the triples are equal: equal keys
imply `x = x'`, `y = y'` and `z = z'`. -/
theorem MortonEncode3_injective (x y z x' y' z' : Nat) (hx : x < 2 ^ 21) (hy : y < 2 ^ 21)
    (hz : z < 2 ^ 21) (hx' : x' < 2 ^ 21) (hy' : y' < 2 ^ 21) (hz' : z' < 2 ^ 21) :
    MortonEncode3 x y z = MortonEncode3 x' y' z' ↔ x = x' ∧ y = y' ∧ z = z' := by
  constructor
  · intro h
    exact ⟨eq_of_testBit_low x x' hx hx'
        (fun i hi => (testBit_of_MortonEncode3_eq x y z x' y' z' h i hi).1),
      eq_of_testBit_low y y' hy hy'
        (fun i hi => (testBit_of_MortonEncode3_eq x y z x' y' z' h i hi).2.1),
      eq_of_testBit_low z z' hz hz'
        (fun i hi => (testBit_of_MortonEncode3_eq x y z x' y' z' h i hi).2.2)⟩
  · rintro ⟨rfl, rfl, rfl⟩
    rfl

/-- Witness for C23: the triples `(3, 5, 6)` and `(3, 5, 7)`. -/
theorem MortonEncode3_injective_witness :
    MortonEncode3 3 5 6 = MortonEncode3 3 5 7 ↔ 3 = 3 ∧ 5 = 5 ∧ 6 = 7 :=
  MortonEncode3_injective 3 5 6 3 5 7 (by decide) (by decide) (by decide) (by decide)
    (by decide) (by decide)

/-! ## The quantiser after the dequantiser -/

theorem Unpack16_normalised {α : Type} [LinearOrderedField α] (vmin vmax : α) (u : Nat)
    (h : vmin < vmax) :
    (Unpack16 vmin vmax u - vmin) / (vmax - vmin) = (u : α) / 65535 := by
  have hd : vmax - vmin ≠ 0 := (sub_pos.mpr h).ne'
  rw [div_eq_iff hd]
  simp only [Unpack16]
  ring

theorem Unpack16_mem {α : Type} [LinearOrderedField α] (vmin vmax : α) (u : Nat)
    (h : vmin < vmax) (hu : u ≤ 65535) :
    vmin ≤ Unpack16 vmin vmax u ∧ Unpack16 vmin vmax u ≤ vmax := by
  have hd : 0 < vmax - vmin := sub_pos.mpr h
  have h0 : (0 : α) ≤ (u : α) / 65535 := by positivity
  have h1 : (u : α) / 65535 ≤ 1 := by
    rw [div_le_one (by norm_num)]
    exact_mod_cast hu
  have he : Unpack16 vmin vmax u = vmin + (vmax - vmin) * ((u : α) / 65535) := by
    simp only [Unpack16]
    ring
  rw [he]
  constructor
  · nlinarith
  · nlinarith

theorem Pack16_Unpack16_eq {α : Type} [LinearOrderedField α] [FloorRing α] (vmin vmax : α)
    (u : Nat) (h : vmin < vmax) (hu : u ≤ 65535) :
    Pack16 vmin vmax (Unpack16 vmin vmax u) = u := by
  obtain ⟨hlo, hhi⟩ := Unpack16_mem vmin vmax u h hu
  rw [(Pack16_eq vmin vmax _ h hlo hhi).2.2, Unpack16_normalised vmin vmax u h]
  have he : (u : α) / 65535 * 65535 + 1 / 2 = ((u : ℤ) : α) + 1 / 2 := by
    push_cast
    field_simp
  rw [he]
  have hf : ⌊((u : ℤ) : α) + 1 / 2⌋ = (u : ℤ) := by
    rw [Int.floor_eq_iff]
    constructor
    · linarith
    · linarith
  rw [hf]
  exact Int.toNat_ofNat u

/-- C24: in exact arithmetic, for `vmin < vmax` and every integer `u` of
`[0, 65535]`, `Pack16` of `Unpack16` of `u` is `u`; `Unpack16` maps `0` to `vmin`
and `65535` to `vmax` and every `u` into `[vmin, vmax]`; and quantising again
what was quantised and dequantised gives the same integer. -/
theorem Pack16_Unpack16 {α : Type} [LinearOrderedField α] [FloorRing α] (vmin vmax : α)
    (u : Nat) (h : vmin < vmax) (hu : u ≤ 65535) :
    Pack16 vmin vmax (Unpack16 vmin vmax u) = u ∧
      Unpack16 vmin vmax 0 = vmin ∧ Unpack16 vmin vmax 65535 = vmax ∧
      (vmin ≤ Unpack16 vmin vmax u ∧ Unpack16 vmin vmax u ≤ vmax) ∧
      ∀ v, vmin ≤ v → v ≤ vmax →
        Pack16 vmin vmax (Unpack16 vmin vmax (Pack16 vmin vmax v)) = Pack16 vmin vmax v := by
  refine ⟨Pack16_Unpack16_eq vmin vmax u h hu, ?_, ?_, Unpack16_mem vmin vmax u h hu,
    fun v hlo hhi => Pack16_Unpack16_eq vmin vmax _ h (Pack16_round vmin vmax v h hlo hhi).1⟩
  · simp [Unpack16]
  · simp [Unpack16]

/-- Witness for C24: the integer `21845` in the range `[0, 1]`. -/
theorem Pack16_Unpack16_witness :
    Pack16 (0 : ℚ) 1 (Unpack16 (0 : ℚ) 1 21845) = 21845 ∧
      Unpack16 (0 : ℚ) 1 0 = 0 ∧ Unpack16 (0 : ℚ) 1 65535 = 1 ∧
      ((0 : ℚ) ≤ Unpack16 (0 : ℚ) 1 21845 ∧ Unpack16 (0 : ℚ) 1 21845 ≤ 1) ∧
      ∀ v, (0 : ℚ) ≤ v → v ≤ 1 →
        Pack16 (0 : ℚ) 1 (Unpack16 (0 : ℚ) 1 (Pack16 (0 : ℚ) 1 v)) = Pack16 (0 : ℚ) 1 v :=
  Pack16_Unpack16 0 1 21845 (by norm_num) (by norm_num)

/-! ## Termination of the encoding loop -/

/-- More fuel does not change what the encoding loop returns. -/
theorem compressLoop_fuel_le (cfg : CompressorConfig) (tf : TestFile) (level : Int)
    (blockSize : Nat) : ∀ (fuel : Nat) (c : List Byte) (srcOffset cmpOffset : Nat)
    (blocks : List (Nat × Nat)) (r : Compressed), c.length = tf.fileData.length + 4 →
    compressLoop cfg tf level blockSize fuel c srcOffset cmpOffset blocks = some r →
    ∀ fuel', fuel ≤ fuel' →
      compressLoop cfg tf level blockSize fuel' c srcOffset cmpOffset blocks = some r := by
  intro fuel
  induction fuel with
  | zero => intro c srcOffset cmpOffset blocks r _ hr; simp [compressLoop] at hr
  | succ fuel ih =>
    intro c srcOffset cmpOffset blocks r hc hr fuel' hle
    obtain ⟨m, rfl⟩ : ∃ m, fuel' = m + 1 := ⟨fuel' - 1, by omega⟩
    by_cases h : srcOffset < tf.fileData.length
    · by_cases hf : cmpOffset + (blockCompressed cfg tf level blockSize srcOffset).length >
          tf.fileData.length
      · rw [compressLoop_fallback cfg tf level blockSize fuel c srcOffset cmpOffset blocks h hc hf]
          at hr
        rw [compressLoop_fallback cfg tf level blockSize m c srcOffset cmpOffset blocks h hc hf]
        exact hr
      · obtain ⟨c1, hb1, hl, -, -, -, heq⟩ :=
          compressLoop_continue cfg tf level blockSize fuel c srcOffset cmpOffset blocks h hc hf
        obtain ⟨c2, hb2, -, -, -, -, heq2⟩ :=
          compressLoop_continue cfg tf level blockSize m c srcOffset cmpOffset blocks h hc hf
        have hcc : c2 = c1 := Option.some.inj (hb2.symm.trans hb1)
        rw [heq] at hr
        rw [heq2, hcc]
        exact ih c1 _ _ _ r (by omega) hr m (by omega)
    · rw [compressLoop_done cfg tf level blockSize fuel c srcOffset cmpOffset blocks h] at hr
      rw [compressLoop_done cfg tf level blockSize m c srcOffset cmpOffset blocks h]
      exact hr

/-- One iteration of the encoding loop: it returns the raw copy or goes on with
`cmpOffset` advanced by the four bytes of the length and the compressed block. -/
theorem compressLoop_step (cfg : CompressorConfig) (tf : TestFile) (level : Int)
    (blockSize fuel : Nat) (c : List Byte) (srcOffset cmpOffset : Nat)
    (blocks : List (Nat × Nat)) (hc : c.length = tf.fileData.length + 4)
    (h : srcOffset < tf.fileData.length) :
    (tf.fileData.length < cmpOffset + (blockCompressed cfg tf level blockSize srcOffset).length ∧
      ∃ r, compressLoop cfg tf level blockSize (fuel + 1) c srcOffset cmpOffset blocks = some r ∧
        r.fellBack = true) ∨
    (cmpOffset + (blockCompressed cfg tf level blockSize srcOffset).length ≤
        tf.fileData.length ∧
      ∃ c1, c1.length = tf.fileData.length + 4 ∧
        compressLoop cfg tf level blockSize (fuel + 1) c srcOffset cmpOffset blocks =
          compressLoop cfg tf level blockSize fuel c1 (srcOffset + blockSize)
            (cmpOffset + 4 + (blockCompressed cfg tf level blockSize srcOffset).length)
            (blocks ++ [(srcOffset, thisBlockSizeAt tf blockSize srcOffset)])) := by
  by_cases hf : cmpOffset + (blockCompressed cfg tf level blockSize srcOffset).length >
      tf.fileData.length
  · exact Or.inl ⟨hf, _,
      compressLoop_fallback cfg tf level blockSize fuel c srcOffset cmpOffset blocks h hc hf, rfl⟩
  · obtain ⟨c1, -, hl, -, -, -, heq⟩ :=
      compressLoop_continue cfg tf level blockSize fuel c srcOffset cmpOffset blocks h hc hf
    exact Or.inr ⟨by omega, c1, by omega, heq⟩

/-- C25: in chunked mode, for every buffer, every stride `≥ 1` and every backend,
the block loop of `Compress` terminates: `Compress` returns, and the loop returns
the same result with any number of iterations allowed from `N / 4 + 2` on.  When
the effective block size is 0 and the buffer is not empty, the loop ends through
the fallback.  Every iteration either returns through the fallback or goes on
with `cmpOffset` increased by `4 + thisCmpSize`, and it returns through the
fallback whenever `cmpOffset` exceeds `N`. -/
theorem Compress_terminates (cfg : CompressorConfig) (tf : TestFile) (level : Int)
    (heap : Nat → Byte) (hb : cfg.blockSizeEnum ≠ BlockSize.kBSizeNone)
    (hstride : 0 < tf.vertexStride) :
    (∃ r, cfg.Compress tf level heap = some r ∧
      (∀ fuel, tf.fileData.length / 4 + 2 ≤ fuel →
        compressLoop cfg tf level (effectiveBlockSize cfg.blockSizeEnum tf.vertexStride) fuel
          (newBuffer heap (tf.fileData.length + 4)) 0 0 [] = some r) ∧
      (effectiveBlockSize cfg.blockSizeEnum tf.vertexStride = 0 → 0 < tf.fileData.length →
        r.fellBack = true)) ∧
    (∀ (blockSize fuel : Nat) (c : List Byte) (srcOffset cmpOffset : Nat)
        (blocks : List (Nat × Nat)),
      c.length = tf.fileData.length + 4 → srcOffset < tf.fileData.length →
      (tf.fileData.length <
          cmpOffset + (blockCompressed cfg tf level blockSize srcOffset).length ∧
        ∃ r, compressLoop cfg tf level blockSize (fuel + 1) c srcOffset cmpOffset blocks =
            some r ∧ r.fellBack = true) ∨
      (cmpOffset + (blockCompressed cfg tf level blockSize srcOffset).length ≤
          tf.fileData.length ∧
        ∃ c1, c1.length = tf.fileData.length + 4 ∧
          compressLoop cfg tf level blockSize (fuel + 1) c srcOffset cmpOffset blocks =
            compressLoop cfg tf level blockSize fuel c1 (srcOffset + blockSize)
              (cmpOffset + 4 + (blockCompressed cfg tf level blockSize srcOffset).length)
              (blocks ++ [(srcOffset, thisBlockSizeAt tf blockSize srcOffset)]))) ∧
    (∀ (blockSize fuel : Nat) (c : List Byte) (srcOffset cmpOffset : Nat)
        (blocks : List (Nat × Nat)),
      c.length = tf.fileData.length + 4 → srcOffset < tf.fileData.length →
      tf.fileData.length < cmpOffset →
      ∃ r, compressLoop cfg tf level blockSize (fuel + 1) c srcOffset cmpOffset blocks =
          some r ∧ r.fellBack = true) := by
  have hbuf := newBuffer_length heap (tf.fileData.length + 4)
  refine ⟨?_, fun blockSize fuel c srcOffset cmpOffset blocks hc h =>
      compressLoop_step cfg tf level blockSize fuel c srcOffset cmpOffset blocks hc h,
    fun blockSize fuel c srcOffset cmpOffset blocks hc h hgt => ?_⟩
  · obtain ⟨r, hr, -, -⟩ := compressLoop_total cfg tf level
      (effectiveBlockSize cfg.blockSizeEnum tf.vertexStride) (tf.fileData.length / 4 + 2)
      (newBuffer heap (tf.fileData.length + 4)) 0 0 [] hbuf (by omega) (by omega)
    have hmono := compressLoop_fuel_le cfg tf level
      (effectiveBlockSize cfg.blockSizeEnum tf.vertexStride) (tf.fileData.length / 4 + 2)
      (newBuffer heap (tf.fileData.length + 4)) 0 0 [] r hbuf hr
    refine ⟨r, ?_, hmono, fun hz hpos => ?_⟩
    · rw [Compress_chunked cfg tf level heap hb hstride]
      exact hmono (tf.fileData.length + 2) (by omega)
    · rw [hz] at hr
      exact compressLoop_zero_blockSize cfg tf level _ _ 0 0 [] r hbuf hpos hr
  · exact ⟨_, compressLoop_fallback cfg tf level blockSize fuel c srcOffset cmpOffset blocks h hc
      (by omega), rfl⟩

/-- Witness for C25: one record of 65537 bytes in 64k blocks, where the
effective block size is 0. -/
theorem Compress_terminates_witness :
    effectiveBlockSize BlockSize.kBSize64k wideRecord.vertexStride = 0 ∧
      ∃ r, (CompressorConfig.mk storeCompressor none BlockSize.kBSize64k).Compress wideRecord 0
          staleHeap = some r ∧ r.fellBack = true := by
  refine ⟨(by decide), ?_⟩
  obtain ⟨r, hr, -, hz⟩ := (Compress_terminates ⟨storeCompressor, none, BlockSize.kBSize64k⟩
    wideRecord 0 staleHeap (by decide) (by decide)).1
  exact ⟨r, hr, hz (by decide) (by
    rw [show wideRecord.fileData.length = 65537 from List.length_replicate _ _]
    decide)⟩

end GaussianPress
